import Mathlib

/-!
Algorithm problem tracker: data-access layer.

A shallow embedding of the Go backend of the tracker
(`internal/models`, `internal/database`, `internal/repository`,
`internal/service`) together with theorems about it.

Modelling conventions.

* Go `string` is `String`, Go `int` is `Int`, `time.Time` values and the
  text SQLite stores for them are the abstract `Timestamp`.
* The SQLite database is the record `database.DB`: the three tables of
  `createTables` as lists of rows in insertion order, plus the two
  `sqlite_sequence` counters that `AUTOINCREMENT` maintains.
* Every SQL statement the repository executes is one function named
  `exec…` / `query…`, written from the statement text and the schema
  (`UNIQUE`, `PRIMARY KEY`, `FOREIGN KEY … ON DELETE CASCADE` with
  `PRAGMA foreign_keys = ON`).
* `time.Now()` is an explicit argument `now`.
* A Go function `f(args) error` acting on the database becomes
  `f db args : Except Err α × DB`: the returned value and the database
  afterwards.  A transaction works on a copy of the database; `tx.Commit()`
  publishes the copy and the deferred `tx.Rollback()` discards it.
* Failures of the storage medium itself (I/O errors, a full disk, rowid
  exhaustion at 2^63 - 1) are outside the model.
-/

namespace AlgorithmTracker

/-- Stored text of a `DATETIME` column, and the `time.Time` read back from it. -/
abbrev Timestamp := String

/-- Go `error` values that the modelled code can produce. -/
inductive Err where
  /-- An error built by `fmt.Errorf` with the given text. -/
  | message (text : String)
  /-- The sentinel `sql.ErrNoRows`. -/
  | ErrNoRows
  /-- A constraint violation reported by SQLite, with its text. -/
  | constraint (text : String)
  /-- Any other error reported by SQLite, with its text. -/
  | sqlite (text : String)
  deriving DecidableEq, Repr

/-- Results of fallible calls can be compared. -/
instance instDecidableEqExcept {ε α : Type} [DecidableEq ε] [DecidableEq α] :
    DecidableEq (Except ε α)
  | .ok a, .ok b => if h : a = b then isTrue (by rw [h]) else isFalse (by
      intro e; cases e; exact h rfl)
  | .error a, .error b => if h : a = b then isTrue (by rw [h]) else isFalse (by
      intro e; cases e; exact h rfl)
  | .ok _, .error _ => isFalse (by intro e; cases e)
  | .error _, .ok _ => isFalse (by intro e; cases e)

/-! ## `internal/models` -/

namespace models

/-- The Go struct `models.Tag`. -/
structure Tag where
  ID : Int
  Name : String
  CreatedAt : Timestamp
  deriving DecidableEq, Repr

/-- The Go struct `models.Problem`. -/
structure Problem where
  ID : Int
  Name : String
  Link : String
  Platform : String
  Difficulty : String
  SolveTime : Int
  Notes : String
  CodeSnippet : String
  Tags : List Tag
  CreatedAt : Timestamp
  UpdatedAt : Timestamp
  deriving DecidableEq, Repr

/-- The Go struct `models.ProblemFilter`. -/
structure ProblemFilter where
  Difficulty : String
  Platform : String
  Tags : List String
  StartDate : String
  EndDate : String
  SearchQuery : String
  deriving DecidableEq, Repr

end models

/-! ## `internal/database`: schema and statements -/

namespace database

/-- A row of table `problems`. -/
structure ProblemRow where
  id : Int
  name : String
  link : String
  platform : String
  difficulty : String
  solve_time : Int
  notes : String
  code_snippet : String
  created_at : Timestamp
  updated_at : Timestamp
  deriving DecidableEq, Repr

/-- A row of table `tags`. -/
structure TagRow where
  id : Int
  name : String
  created_at : Timestamp
  deriving DecidableEq, Repr

/-- A row of table `problem_tags`. -/
structure ProblemTagRow where
  problem_id : Int
  tag_id : Int
  deriving DecidableEq, Repr

/-- The database file: the rows of the three tables in insertion order and
the `sqlite_sequence` counters of the two `AUTOINCREMENT` keys. -/
structure DB where
  problems : List ProblemRow
  tags : List TagRow
  problem_tags : List ProblemTagRow
  seq_problems : Int
  seq_tags : Int
  deriving DecidableEq, Repr

/-- The database right after `createTables` on a new file. -/
def DB.empty : DB :=
  { problems := [], tags := [], problem_tags := [], seq_problems := 0, seq_tags := 0 }

/-- The rowid `INTEGER PRIMARY KEY AUTOINCREMENT` assigns: one more than the
largest rowid the table has ever held (the larger of the `sqlite_sequence`
counter and the ids present). -/
def nextRowid (seq : Int) (ids : List Int) : Int :=
  ids.foldl max seq + 1

/-- SQL: `INSERT INTO problems (name, link, platform, difficulty, solve_time,
notes, code_snippet, created_at, updated_at) VALUES (?, ?, ?, ?, ?, ?, ?, ?, ?)`.
Returns `LastInsertId` and the table state.  The bound values are Go strings
and ints, never NULL, so no `NOT NULL` constraint can fail. -/
def execInsertProblem (db : DB) (name link platform difficulty : String)
    (solve_time : Int) (notes code_snippet : String)
    (created_at updated_at : Timestamp) : Int × DB :=
  let id := nextRowid db.seq_problems (db.problems.map (fun r => r.id))
  let row : ProblemRow :=
    { id := id, name := name, link := link, platform := platform,
      difficulty := difficulty, solve_time := solve_time, notes := notes,
      code_snippet := code_snippet, created_at := created_at, updated_at := updated_at }
  (id, { db with problems := db.problems ++ [row], seq_problems := id })

/-- SQL: `UPDATE problems SET name = ?, link = ?, platform = ?, difficulty = ?,
solve_time = ?, notes = ?, code_snippet = ?, updated_at = ? WHERE id = ?`. -/
def execUpdateProblem (db : DB) (name link platform difficulty : String)
    (solve_time : Int) (notes code_snippet : String) (updated_at : Timestamp)
    (id : Int) : DB :=
  { db with problems := db.problems.map (fun r =>
      if r.id = id then
        { r with
          name := name, link := link, platform := platform, difficulty := difficulty,
          solve_time := solve_time, notes := notes, code_snippet := code_snippet,
          updated_at := updated_at }
      else r) }

/-- Number of rows the `UPDATE problems … WHERE id = ?` statement changes. -/
def rowsAffectedByUpdate (db : DB) (id : Int) : Nat :=
  (db.problems.filter (fun r => r.id = id)).length

/-- SQL: `DELETE FROM problem_tags WHERE problem_id = ?`. -/
def execDeleteProblemTags (db : DB) (problem_id : Int) : DB :=
  { db with problem_tags := db.problem_tags.filter (fun pt => ¬ pt.problem_id = problem_id) }

/-- SQL: `SELECT id FROM tags WHERE name = ?` read with `QueryRow(...).Scan`:
the id of the first matching row, or `sql.ErrNoRows`. -/
def queryTagIdByName (db : DB) (name : String) : Except Err Int :=
  match db.tags.find? (fun t => t.name = name) with
  | some t => .ok t.id
  | none => .error Err.ErrNoRows

/-- SQL: `INSERT INTO tags (name, created_at) VALUES (?, ?)`, subject to
`name TEXT UNIQUE NOT NULL`.  Returns `LastInsertId`. -/
def execInsertTag (db : DB) (name : String) (created_at : Timestamp) : Except Err (Int × DB) :=
  if db.tags.any (fun t => t.name = name) then
    .error (Err.constraint "UNIQUE constraint failed: tags.name")
  else
    let id := nextRowid db.seq_tags (db.tags.map (fun t => t.id))
    let row : TagRow := { id := id, name := name, created_at := created_at }
    .ok (id, { db with tags := db.tags ++ [row], seq_tags := id })

/-- SQL: `INSERT INTO problem_tags (problem_id, tag_id) VALUES (?, ?)`, subject
to `PRIMARY KEY (problem_id, tag_id)` and to both foreign keys
(`PRAGMA foreign_keys = ON`). -/
def execInsertProblemTag (db : DB) (problem_id tag_id : Int) : Except Err DB :=
  if db.problem_tags.any (fun pt => pt.problem_id = problem_id ∧ pt.tag_id = tag_id) then
    .error (Err.constraint
      "UNIQUE constraint failed: problem_tags.problem_id, problem_tags.tag_id")
  else if ¬ db.problems.any (fun r => r.id = problem_id) then
    .error (Err.constraint "FOREIGN KEY constraint failed")
  else if ¬ db.tags.any (fun t => t.id = tag_id) then
    .error (Err.constraint "FOREIGN KEY constraint failed")
  else
    let row : ProblemTagRow := { problem_id := problem_id, tag_id := tag_id }
    .ok { db with problem_tags := db.problem_tags ++ [row] }

/-- SQL: `DELETE FROM problems WHERE id = ?`; `ON DELETE CASCADE` removes the
association rows of the deleted problem. -/
def execDeleteProblem (db : DB) (id : Int) : DB :=
  if db.problems.any (fun r => r.id = id) then
    { db with
      problems := db.problems.filter (fun r => ¬ r.id = id),
      problem_tags := db.problem_tags.filter (fun pt => ¬ pt.problem_id = id) }
  else db

/-- SQL: `DELETE FROM tags WHERE id = ?`; `ON DELETE CASCADE` removes the
association rows of the deleted tag. -/
def execDeleteTag (db : DB) (id : Int) : DB :=
  if db.tags.any (fun t => t.id = id) then
    { db with
      tags := db.tags.filter (fun t => ¬ t.id = id),
      problem_tags := db.problem_tags.filter (fun pt => ¬ pt.tag_id = id) }
  else db

end database

/-! ## `internal/repository`: writes -/

namespace Repository

open database models

/-- The helper `getOrCreateTag(tx, name)`: the id of the tag called `name`,
inserting the tag when the lookup reports `sql.ErrNoRows`. -/
def getOrCreateTag (tx : DB) (now : Timestamp) (name : String) : Except Err (Int × DB) :=
  match queryTagIdByName tx name with
  | .error Err.ErrNoRows =>
    match execInsertTag tx name now with
    | .error err => .error err
    | .ok (id, tx1) => .ok (id, tx1)
  | .error err => .error err
  | .ok tagID => .ok (tagID, tx)

/-- The loop `for _, tag := range problem.Tags { … }` shared by `CreateProblem`
and `UpdateProblem`: resolve the tag, insert the association, stop at the
first error. -/
def insertTags (now : Timestamp) (problemID : Int) : List Tag → DB → Except Err DB
  | [], tx => .ok tx
  | tag :: rest, tx =>
    match getOrCreateTag tx now tag.Name with
    | .error err => .error err
    | .ok (tagID, tx1) =>
      match execInsertProblemTag tx1 problemID tagID with
      | .error err => .error err
      | .ok tx2 => insertTags now problemID rest tx2

/-- The method `Repository.CreateProblem`.  The transaction `tx` starts as a copy of
`db`; every early `return err` runs the deferred `tx.Rollback()`, leaving
`db`; `tx.Commit()` publishes the copy.  The problem returned is the caller's
struct after `problem.ID = int(problemID)`. -/
def CreateProblem (db : DB) (now : Timestamp) (problem : Problem) : Except Err Problem × DB :=
  let (problemID, tx1) := execInsertProblem db problem.Name problem.Link problem.Platform
    problem.Difficulty problem.SolveTime problem.Notes problem.CodeSnippet now now
  match insertTags now problemID problem.Tags tx1 with
  | .error err => (.error err, db)
  | .ok tx2 => (.ok { problem with ID := problemID }, tx2)

/-- The method `Repository.UpdateProblem`, with the same transaction discipline as
`CreateProblem`. -/
def UpdateProblem (db : DB) (now : Timestamp) (problem : Problem) : Except Err Unit × DB :=
  let tx1 := execUpdateProblem db problem.Name problem.Link problem.Platform
    problem.Difficulty problem.SolveTime problem.Notes problem.CodeSnippet now problem.ID
  let tx2 := execDeleteProblemTags tx1 problem.ID
  match insertTags now problem.ID problem.Tags tx2 with
  | .error err => (.error err, db)
  | .ok tx3 => (.ok (), tx3)

/-- The method `Repository.DeleteProblem`. -/
def DeleteProblem (db : DB) (id : Int) : Except Err Unit × DB :=
  (.ok (), execDeleteProblem db id)

/-- The method `Repository.DeleteTag`. -/
def DeleteTag (db : DB) (id : Int) : Except Err Unit × DB :=
  (.ok (), execDeleteTag db id)

/-- The method `Repository.CreateTag`: a plain insert, so a name already present fails
on the `UNIQUE` constraint. -/
def CreateTag (db : DB) (now : Timestamp) (name : String) : Except Err Tag × DB :=
  match execInsertTag db name now with
  | .error err => (.error err, db)
  | .ok (id, db1) => (.ok { ID := id, Name := name, CreatedAt := now }, db1)

end Repository

/-! ## `CreateProblem` on a connection whose calls can fail

The definitions above let a statement fail only when it violates a constraint
of the schema.  SQLite can refuse any call for a reason that the stored rows
do not determine (disk full, I/O error, a lock held by another process).  The
definitions below run the same code against a connection on which every call
may fail so, with `Begin`, `Commit` and `Rollback` as operations on the
connection. -/

namespace database

/-- The error `sql.ErrTxDone`. -/
def ErrTxDone : Err :=
  Err.message "sql: transaction has already been committed or rolled back"

/-- The failures that come from outside the stored rows: `faults n = some text`
says that call number `n` on the connection (counted from 0) is refused by
SQLite with the error `text`, and has no effect. -/
abbrev Faults : Type := Nat → Option String

/-- No call is refused. -/
def noFaults : Faults := fun _ => none

/-- Only call number `n` is refused, with the error `text`. -/
def faultAt (n : Nat) (text : String) : Faults :=
  fun i => if i = n then some text else none

/-- A connection: the committed database, the database as the open transaction
sees it (`none` when no transaction is open), and the number of calls made. -/
structure Conn where
  committed : DB
  pending : Option DB
  calls : Nat
  deriving DecidableEq, Repr

/-- A connection to `db` with no transaction open and no call made. -/
def Conn.idle (db : DB) : Conn :=
  { committed := db, pending := none, calls := 0 }

/-- Go `r.db.Begin()`: the transaction starts from the committed database. -/
def Conn.Begin (faults : Faults) (c : Conn) : Except Err Unit × Conn :=
  match faults c.calls with
  | some text => (.error (Err.sqlite text), { c with calls := c.calls + 1 })
  | none => (.ok (), { c with pending := some c.committed, calls := c.calls + 1 })

/-- One `tx.Exec(...)` or `tx.QueryRow(...).Scan(...)` of the statement `stmt`:
on a finished transaction `sql.ErrTxDone`; a refused or failing statement
changes no row; otherwise the rows change inside the transaction only. -/
def Conn.run {α : Type} (faults : Faults) (c : Conn) (stmt : DB → Except Err (α × DB)) :
    Except Err α × Conn :=
  match c.pending with
  | none => (.error ErrTxDone, c)
  | some w =>
    match faults c.calls with
    | some text => (.error (Err.sqlite text), { c with calls := c.calls + 1 })
    | none =>
      match stmt w with
      | .error err => (.error err, { c with calls := c.calls + 1 })
      | .ok (a, w1) => (.ok a, { c with pending := some w1, calls := c.calls + 1 })

/-- Go `tx.Commit()`: the rows of the transaction become the committed rows.
When `COMMIT` is refused the driver rolls the transaction back, and
`database/sql` counts the transaction as finished either way. -/
def Conn.Commit (faults : Faults) (c : Conn) : Except Err Unit × Conn :=
  match c.pending with
  | none => (.error ErrTxDone, c)
  | some w =>
    match faults c.calls with
    | some text => (.error (Err.sqlite text), { c with pending := none, calls := c.calls + 1 })
    | none => (.ok (), { committed := w, pending := none, calls := c.calls + 1 })

/-- Go `tx.Rollback()`: the rows of the transaction are dropped; on a finished
transaction it is `sql.ErrTxDone` and changes nothing.  `ROLLBACK` itself is
taken to succeed and is not counted among the calls. -/
def Conn.Rollback (c : Conn) : Except Err Unit × Conn :=
  match c.pending with
  | none => (.error ErrTxDone, c)
  | some _ => (.ok (), { c with pending := none })

/-- The statement `INSERT INTO problems (...) VALUES (?, ?, ?, ?, ?, ?, ?, ?, ?)` of
`CreateProblem` with its result `LastInsertId`, which the driver reads
without an error. -/
def stmtInsertProblem (now : Timestamp) (problem : models.Problem) (w : DB) :
    Except Err (Int × DB) :=
  .ok (execInsertProblem w problem.Name problem.Link problem.Platform
    problem.Difficulty problem.SolveTime problem.Notes problem.CodeSnippet now now)

/-- The statement `SELECT id FROM tags WHERE name = ?` scanned into `tagID`. -/
def stmtSelectTagId (name : String) (w : DB) : Except Err (Int × DB) :=
  match queryTagIdByName w name with
  | .error err => .error err
  | .ok id => .ok (id, w)

/-- The statement `INSERT INTO tags (name, created_at) VALUES (?, ?)` with its
`LastInsertId`. -/
def stmtInsertTag (name : String) (now : Timestamp) (w : DB) : Except Err (Int × DB) :=
  execInsertTag w name now

/-- The statement `INSERT INTO problem_tags (problem_id, tag_id) VALUES (?, ?)`. -/
def stmtInsertProblemTag (problem_id tag_id : Int) (w : DB) : Except Err (Unit × DB) :=
  match execInsertProblemTag w problem_id tag_id with
  | .error err => .error err
  | .ok w1 => .ok ((), w1)

end database

namespace Repository

open database models

/-- The helper `getOrCreateTag(tx, name)` on a connection. -/
def getOrCreateTagOn (faults : Faults) (c : Conn) (now : Timestamp) (name : String) :
    Except Err Int × Conn :=
  match Conn.run faults c (stmtSelectTagId name) with
  | (.error Err.ErrNoRows, c1) =>
    match Conn.run faults c1 (stmtInsertTag name now) with
    | (.error err, c2) => (.error err, c2)
    | (.ok id, c2) => (.ok id, c2)
  | (.error err, c1) => (.error err, c1)
  | (.ok tagID, c1) => (.ok tagID, c1)

/-- The loop `for _, tag := range problem.Tags { … }` of `CreateProblem` on a
connection: it stops at the first error. -/
def insertTagsOn (faults : Faults) (now : Timestamp) (problemID : Int) :
    List Tag → Conn → Except Err Unit × Conn
  | [], c => (.ok (), c)
  | tag :: rest, c =>
    match getOrCreateTagOn faults c now tag.Name with
    | (.error err, c1) => (.error err, c1)
    | (.ok tagID, c1) =>
      match Conn.run faults c1 (stmtInsertProblemTag problemID tagID) with
      | (.error err, c2) => (.error err, c2)
      | (.ok _, c2) => insertTagsOn faults now problemID rest c2

/-- The body of `CreateProblem` after `defer tx.Rollback()`: the problem insert,
the tag loop and `return tx.Commit()`, each error returned at once. -/
def createProblemBody (faults : Faults) (now : Timestamp) (problem : Problem) (c : Conn) :
    Except Err Problem × Conn :=
  match Conn.run faults c (stmtInsertProblem now problem) with
  | (.error err, c1) => (.error err, c1)
  | (.ok problemID, c1) =>
    match insertTagsOn faults now problemID problem.Tags c1 with
    | (.error err, c2) => (.error err, c2)
    | (.ok _, c2) =>
      match Conn.Commit faults c2 with
      | (.error err, c3) => (.error err, c3)
      | (.ok _, c3) => (.ok { problem with ID := problemID }, c3)

/-- The method `Repository.CreateProblem` on a connection to `db`: `Begin`, whose
error is returned before anything is deferred, then the body, then the
deferred `tx.Rollback()`, whose result is dropped.  Returns the result and
the connection as the call leaves it. -/
def CreateProblemOn (faults : Faults) (db : DB) (now : Timestamp) (problem : Problem) :
    Except Err Problem × Conn :=
  match Conn.Begin faults (Conn.idle db) with
  | (.error err, c0) => (.error err, c0)
  | (.ok _, c0) =>
    let (result, c1) := createProblemBody faults now problem c0
    (result, (Conn.Rollback c1).2)

end Repository

/-! ## `internal/repository`: reads -/

namespace database

/-- SQL: `SELECT id, name, link, platform, difficulty, solve_time, notes,
code_snippet, created_at, updated_at FROM problems WHERE id = ?` read with
`QueryRow(...).Scan`: the first matching row, or `sql.ErrNoRows`. -/
def queryProblemById (db : DB) (id : Int) : Except Err ProblemRow :=
  match db.problems.find? (fun r => r.id = id) with
  | some r => .ok r
  | none => .error Err.ErrNoRows

/-- The order of `TEXT` values under SQLite's default `BINARY` collation:
lexicographic on the characters. -/
def textLE (a b : String) : Prop :=
  a.data ≤ b.data

instance textLE.decidable : DecidableRel textLE :=
  fun a b => inferInstanceAs (Decidable (a.data ≤ b.data))

/-- SQL: `SELECT t.id, t.name, t.created_at FROM tags t
INNER JOIN problem_tags pt ON t.id = pt.tag_id
WHERE pt.problem_id = ? ORDER BY t.name`. -/
def queryTagsForProblem (db : DB) (problem_id : Int) : List TagRow :=
  let joined : List (TagRow × ProblemTagRow) :=
    db.tags.flatMap (fun t =>
      (db.problem_tags.filter (fun pt => t.id = pt.tag_id)).map (fun pt => (t, pt)))
  let selected := joined.filter (fun r => r.2.problem_id = problem_id)
  (selected.map (fun r => r.1)).insertionSort (fun a b => textLE a.name b.name)

/-- SQLite folds case in `LIKE` for the 26 ASCII letters only. -/
def asciiLower (c : Char) : Char :=
  if 'A' ≤ c ∧ c ≤ 'Z' then Char.ofNat (c.toNat + 32) else c

/-- Whether `f` accepts some suffix of the text (the text itself included). -/
def anySuffix (f : List Char → Bool) : List Char → Bool
  | [] => f []
  | c :: s => f (c :: s) || anySuffix f s

/-- The SQLite operator `text LIKE pattern` without `ESCAPE`: in the pattern
`%` stands for any run of characters, `_` for any one character, and every
other character for itself up to ASCII case. -/
def sqlLike : List Char → List Char → Bool
  | [], s => s.isEmpty
  | p :: ps, s =>
    if p = '%' then anySuffix (sqlLike ps) s
    else
      match s with
      | [] => false
      | c :: s1 =>
        if p = '_' then sqlLike ps s1
        else asciiLower p == asciiLower c && sqlLike ps s1

/-- The compile-time limit `SQLITE_MAX_LIKE_PATTERN_LENGTH` of the bundled
SQLite: the longest `LIKE` pattern, in bytes, that the operator accepts. -/
def sqliteMaxLikePatternLength : Nat := 50000

/-- The part of a text that SQLite's `LIKE` reads: the operator takes both
operands as NUL-terminated, so it stops at the first NUL character. -/
def upToNul (s : List Char) : List Char :=
  s.takeWhile (fun c => decide (c ≠ Char.ofNat 0))

/-- The condition `p.name LIKE ?` on one row.  A pattern of more than
`sqliteMaxLikePatternLength` bytes makes the operator raise "LIKE or GLOB
pattern too complex": `sqlite3_step` then fails at the first row the
condition is evaluated for, `rows.Next()` reports false, and `GetProblems`,
which does not consult `rows.Err()`, returns the rows scanned before, of which
there are none; so under such a pattern no row is selected. -/
def condNameLike (pattern name : String) : Bool :=
  if pattern.utf8ByteSize > sqliteMaxLikePatternLength then false
  else sqlLike (upToNul pattern.data) (upToNul name.data)

/-- A row of the `FROM` clause of `GetProblems`: a problem and, when the two
`INNER JOIN`s are present, the tag row joined to it. -/
structure JoinedRow where
  p : ProblemRow
  t : Option TagRow
  deriving DecidableEq, Repr

/-- The `FROM` clause of `GetProblems`: `problems p`, followed when
`joinTags` holds by `INNER JOIN problem_tags pt ON p.id = pt.problem_id
INNER JOIN tags t ON pt.tag_id = t.id`. -/
def fromClause (db : DB) (joinTags : Bool) : List JoinedRow :=
  if joinTags then
    db.problems.flatMap (fun p =>
      (db.problem_tags.filter (fun pt => p.id = pt.problem_id)).flatMap (fun pt =>
        (db.tags.filter (fun t => pt.tag_id = t.id)).map (fun t =>
          ({ p := p, t := some t } : JoinedRow))))
  else
    db.problems.map (fun p => ({ p := p, t := none } : JoinedRow))

/-- The condition `t.name IN (?,…,?)` with the tag names bound. -/
def condTagNameIn (names : List String) (r : JoinedRow) : Bool :=
  match r.t with
  | some t => decide (t.name ∈ names)
  | none => false

/-- The `WHERE` clause of `GetProblems`: the conjunction of the conditions
that the filter makes present, each with its bound argument.  The date bounds
are compared with the stored text as text, which is what SQLite does for a
bound that does not read as a number. -/
def whereClause (filter : Option models.ProblemFilter) (r : JoinedRow) : Bool :=
  match filter with
  | none => true
  | some f =>
    (if f.Tags.length > 0 then condTagNameIn f.Tags r else true) &&
    (if f.Difficulty ≠ "" then decide (r.p.difficulty = f.Difficulty) else true) &&
    (if f.Platform ≠ "" then decide (r.p.platform = f.Platform) else true) &&
    (if f.SearchQuery ≠ "" then
        condNameLike ("%" ++ f.SearchQuery ++ "%") r.p.name else true) &&
    (if f.StartDate ≠ "" then decide (textLE f.StartDate r.p.created_at) else true) &&
    (if f.EndDate ≠ "" then decide (textLE r.p.created_at f.EndDate) else true)

/-- What SQLite returns for the statement `GetProblems` builds:
`SELECT DISTINCT p.… FROM … WHERE … ORDER BY p.created_at DESC`. -/
def queryProblems (db : DB) (filter : Option models.ProblemFilter) : List ProblemRow :=
  let joinTags : Bool :=
    match filter with
    | some f => decide (f.Tags.length > 0)
    | none => false
  let selected := (fromClause db joinTags).filter (whereClause filter)
  let distinct := (selected.map (fun r => r.p)).dedup
  distinct.insertionSort (fun a b => textLE b.created_at a.created_at)

end database

namespace Repository

open database models

/-- The text of the statement `GetProblems` builds, with its bound arguments. -/
structure BuiltQuery where
  query : String
  args : List String
  deriving DecidableEq, Repr

/-- Go `strings.Join(elems, sep)`. -/
def stringsJoin : List String → String → String
  | [], _ => ""
  | [a], _ => a
  | a :: b :: rest, sep => a ++ sep ++ stringsJoin (b :: rest) sep

/-- The text `fmt.Sprintf("t.name IN (%s)", strings.Join(placeholders, ","))`
for a slice `placeholders` of `n` strings "?". -/
def inClause (n : Nat) : String :=
  "t.name IN (" ++ stringsJoin (List.replicate n "?") "," ++ ")"

/-- The first part of `GetProblems`, up to and including
`query += " ORDER BY p.created_at DESC"`: the statement text and the argument
slice passed to `r.db.Query`.  A `nil` filter is `none`. -/
def buildQuery (filter : Option ProblemFilter) : BuiltQuery :=
  let query : String :=
    "\n\t\tSELECT DISTINCT p.id, p.name, p.link, p.platform, p.difficulty, p.solve_time, \n\t\t       p.notes, p.code_snippet, p.created_at, p.updated_at\n\t\tFROM problems p\n\t"
  let conditions : List String := []
  let args : List String := []
  let (query, conditions, args) :=
    match filter with
    | some f =>
      if f.Tags.length > 0 then
        (query ++ "\n\t\t\tINNER JOIN problem_tags pt ON p.id = pt.problem_id\n\t\t\tINNER JOIN tags t ON pt.tag_id = t.id\n\t\t",
         conditions ++ [inClause f.Tags.length],
         args ++ f.Tags)
      else (query, conditions, args)
    | none => (query, conditions, args)
  let (conditions, args) :=
    match filter with
    | some f =>
      let (conditions, args) :=
        if f.Difficulty ≠ "" then (conditions ++ ["p.difficulty = ?"], args ++ [f.Difficulty])
        else (conditions, args)
      let (conditions, args) :=
        if f.Platform ≠ "" then (conditions ++ ["p.platform = ?"], args ++ [f.Platform])
        else (conditions, args)
      let (conditions, args) :=
        if f.SearchQuery ≠ "" then
          (conditions ++ ["p.name LIKE ?"], args ++ ["%" ++ f.SearchQuery ++ "%"])
        else (conditions, args)
      let (conditions, args) :=
        if f.StartDate ≠ "" then (conditions ++ ["p.created_at >= ?"], args ++ [f.StartDate])
        else (conditions, args)
      let (conditions, args) :=
        if f.EndDate ≠ "" then (conditions ++ ["p.created_at <= ?"], args ++ [f.EndDate])
        else (conditions, args)
      (conditions, args)
    | none => (conditions, args)
  let query :=
    if conditions.length > 0 then query ++ " WHERE " ++ stringsJoin conditions " AND "
    else query
  let query := query ++ " ORDER BY p.created_at DESC"
  { query := query, args := args }

/-- Copy of a scanned `tags` row into a `models.Tag`. -/
def scanTag (t : TagRow) : Tag :=
  { ID := t.id, Name := t.name, CreatedAt := t.created_at }

/-- The helper `getTagsForProblem`. -/
def getTagsForProblem (db : DB) (problemID : Int) : Except Err (List Tag) :=
  .ok ((queryTagsForProblem db problemID).map scanTag)

/-- Copy of a scanned `problems` row into a `models.Problem` with the given
tags. -/
def scanProblem (r : ProblemRow) (tags : List Tag) : Problem :=
  { ID := r.id, Name := r.name, Link := r.link, Platform := r.platform,
    Difficulty := r.difficulty, SolveTime := r.solve_time, Notes := r.notes,
    CodeSnippet := r.code_snippet, Tags := tags,
    CreatedAt := r.created_at, UpdatedAt := r.updated_at }

/-- The method `Repository.GetProblem`. -/
def GetProblem (db : DB) (id : Int) : Except Err Problem :=
  match queryProblemById db id with
  | .error err => .error err
  | .ok r =>
    match getTagsForProblem db r.id with
    | .error err => .error err
    | .ok tags => .ok (scanProblem r tags)

/-- The loop `for rows.Next() { … }` of `GetProblems`: scan a row, load its
tags, append. -/
def scanProblems (db : DB) : List ProblemRow → Except Err (List Problem)
  | [] => .ok []
  | r :: rest =>
    match getTagsForProblem db r.id with
    | .error err => .error err
    | .ok tags =>
      match scanProblems db rest with
      | .error err => .error err
      | .ok problems => .ok (scanProblem r tags :: problems)

/-- The compile-time limit `SQLITE_MAX_VARIABLE_NUMBER` of the bundled SQLite:
the largest number of `?` parameters a statement may hold. -/
def sqliteMaxVariableNumber : Nat := 32766

/-- The method `Repository.GetProblems`: the statement of `buildQuery` is prepared with
its arguments, which SQLite refuses when there are more parameters than
`sqliteMaxVariableNumber` (the `return nil, err` after `r.db.Query`); else it
is run and its rows are scanned. -/
def GetProblems (db : DB) (filter : Option ProblemFilter) : Except Err (List Problem) :=
  if (buildQuery filter).args.length > sqliteMaxVariableNumber then
    .error (Err.sqlite "too many SQL variables")
  else
    scanProblems db (queryProblems db filter)

/-- The method `Repository.GetTags`: `SELECT id, name, created_at FROM tags ORDER BY name`. -/
def GetTags (db : DB) : Except Err (List Tag) :=
  .ok ((db.tags.insertionSort (fun a b => textLE a.name b.name)).map scanTag)

end Repository

/-! ## `internal/repository`: statistics -/

namespace models

/-- A Go `map[string]int`, as the list of its entries. -/
abbrev StringIntMap := List (String × Int)

/-- Go `m[key] = value`: the entry for `key` is replaced or added. -/
def StringIntMap.set (m : StringIntMap) (key : String) (value : Int) : StringIntMap :=
  (key, value) :: m.filter (fun e => ¬ e.1 = key)

/-- Go `value, ok := m[key]`. -/
def StringIntMap.get? (m : StringIntMap) (key : String) : Option Int :=
  m.lookup key

/-- The Go struct `models.Statistics`; `AverageSolveTime` holds the rational number
that the `float64` value denotes. -/
structure Statistics where
  TotalProblems : Int
  ByDifficulty : StringIntMap
  ByPlatform : StringIntMap
  ByTag : StringIntMap
  AverageSolveTime : ℚ
  deriving DecidableEq

end models

namespace database

/-- SQL: `SELECT COUNT(*) FROM problems`. -/
def queryCountProblems (db : DB) : Int :=
  db.problems.length

/-- SQL: `SELECT difficulty, COUNT(*) FROM problems GROUP BY difficulty`. -/
def queryCountByDifficulty (db : DB) : List (String × Int) :=
  ((db.problems.map (fun r => r.difficulty)).dedup).map (fun d =>
    (d, ((db.problems.filter (fun r => r.difficulty = d)).length : Int)))

/-- SQL: `SELECT platform, COUNT(*) FROM problems GROUP BY platform`. -/
def queryCountByPlatform (db : DB) : List (String × Int) :=
  ((db.problems.map (fun r => r.platform)).dedup).map (fun d =>
    (d, ((db.problems.filter (fun r => r.platform = d)).length : Int)))

/-- The rows of `tags t LEFT JOIN problem_tags pt ON t.id = pt.tag_id`: a
tag without a matching association row appears once, with NULL for `pt`. -/
def leftJoinTagsProblemTags (db : DB) : List (TagRow × Option ProblemTagRow) :=
  db.tags.flatMap (fun t =>
    match db.problem_tags.filter (fun pt => t.id = pt.tag_id) with
    | [] => [(t, none)]
    | pt :: pts => (pt :: pts).map (fun x => (t, some x)))

/-- The aggregate `COUNT(DISTINCT pt.problem_id)` over the rows of one group:
NULLs are not counted. -/
def countDistinctProblemId (rows : List (TagRow × Option ProblemTagRow)) : Int :=
  (((rows.filterMap (fun r => r.2.map (fun pt => pt.problem_id))).dedup).length : Int)

/-- SQL: `SELECT t.name, COUNT(DISTINCT pt.problem_id) FROM tags t
LEFT JOIN problem_tags pt ON t.id = pt.tag_id GROUP BY t.id, t.name`. -/
def queryCountByTag (db : DB) : List (String × Int) :=
  let joined := leftJoinTagsProblemTags db
  let groups := (joined.map (fun r => (r.1.id, r.1.name))).dedup
  groups.map (fun g =>
    (g.2, countDistinctProblemId (joined.filter (fun r => (r.1.id, r.1.name) = g))))

/-- The quotient `a / n` of two naturals rounded to the nearest natural, a tie
going to the even neighbour (the IEEE 754 default rounding). -/
def divRoundHalfEven (a n : Nat) : Nat :=
  let q := a / n
  let r := a % n
  if 2 * r < n then q
  else if n < 2 * r then q + 1
  else if q % 2 = 0 then q else q + 1

/-- Halving `n` until it is below 2, at most `fuel` times, counting the steps. -/
def floorLog2Aux : Nat → Nat → Nat
  | 0, _ => 0
  | fuel + 1, n => if 2 ≤ n then floorLog2Aux fuel (n / 2) + 1 else 0

/-- The exponent `⌊log₂ n⌋` of a positive natural, the position of its leading bit. -/
def floorLog2 (n : Nat) : Nat :=
  floorLog2Aux n n

/-- The C conversion `(double)i` of a non-negative integer: the nearest
`float64`, which has a significand of 53 bits; below `2 ^ 53` it is `i`. -/
def float64OfNat (a : Nat) : Nat :=
  if a < 2 ^ 53 then a
  else
    let k := floorLog2 a - 52
    divRoundHalfEven a (2 ^ k) * 2 ^ k

/-- The `float64` division `x / y` of two floats that hold the integers
`a ≥ n > 0`: the quotient rounded to a significand of 53 bits, ties to even.
With `e = ⌊log₂ (a / n)⌋` the result is a multiple of `2 ^ (e - 52)`. -/
def float64Div (a n : Nat) : ℚ :=
  let e := floorLog2 (a / n)
  if e ≤ 52 then (divRoundHalfEven (a * 2 ^ (52 - e)) n : ℚ) / 2 ^ (52 - e)
  else (divRoundHalfEven a (n * 2 ^ (e - 52)) : ℚ) * 2 ^ (e - 52)

/-- The aggregate `AVG(x)` over positive integers: NULL on no rows, else the
`float64` division of the sum by the count, both converted to `float64`
(SQLite `avgFinalize`: `(double)iSum / (double)cnt`). A sum below `2 ^ 53` is
held exactly, whether SQLite adds in integers or in doubles; sums beyond the
range of `int64` are outside this model. -/
def sqlAvg (xs : List Int) : Option ℚ :=
  match xs with
  | [] => none
  | _ :: _ => some (float64Div (float64OfNat xs.sum.toNat) (float64OfNat xs.length))

/-- SQL: `SELECT COALESCE(AVG(solve_time), 0.0) FROM problems WHERE solve_time > 0`,
scanned into a Go `float64`. -/
def queryAverageSolveTime (db : DB) : ℚ :=
  (sqlAvg ((db.problems.filter (fun r => r.solve_time > 0)).map (fun r => r.solve_time))).getD 0

end database

namespace Repository

open database models

/-- The loops `for rows.Next() { … m[key] = count }` of `GetStatistics`. -/
def fillMap (m : StringIntMap) (rows : List (String × Int)) : StringIntMap :=
  rows.foldl (fun acc row => acc.set row.1 row.2) m

/-- The method `Repository.GetStatistics`. -/
def GetStatistics (db : DB) : Except Err Statistics :=
  let stats : Statistics :=
    { TotalProblems := 0, ByDifficulty := [], ByPlatform := [], ByTag := [],
      AverageSolveTime := 0 }
  let stats := { stats with TotalProblems := queryCountProblems db }
  let stats := { stats with
    ByDifficulty := fillMap stats.ByDifficulty (queryCountByDifficulty db) }
  let stats := { stats with
    ByPlatform := fillMap stats.ByPlatform (queryCountByPlatform db) }
  let stats := { stats with ByTag := fillMap stats.ByTag (queryCountByTag db) }
  let stats := { stats with AverageSolveTime := queryAverageSolveTime db }
  .ok stats

end Repository

/-! ## Schema constraints -/

namespace database

/-- The constraints `createTables` declares, as a property of a database:
the two `INTEGER PRIMARY KEY`s, `tags.name UNIQUE`, the composite
`PRIMARY KEY (problem_id, tag_id)` and the two foreign keys. -/
def Consistent (db : DB) : Prop :=
  (db.problems.map (fun r => r.id)).Nodup ∧
  (db.tags.map (fun t => t.id)).Nodup ∧
  (db.tags.map (fun t => t.name)).Nodup ∧
  db.problem_tags.Nodup ∧
  (∀ pt ∈ db.problem_tags, ∃ r ∈ db.problems, r.id = pt.problem_id) ∧
  (∀ pt ∈ db.problem_tags, ∃ t ∈ db.tags, t.id = pt.tag_id)

instance (db : DB) : Decidable (Consistent db) := by
  unfold Consistent
  infer_instance

/-- The problem `problem_id` carries a tag called `name`: some `tags` row of
that name is linked to it by a `problem_tags` row. -/
def hasTag (db : DB) (problem_id : Int) (name : String) : Prop :=
  ∃ t ∈ db.tags, t.name = name ∧
    ∃ pt ∈ db.problem_tags, pt.problem_id = problem_id ∧ pt.tag_id = t.id

end database

/-! ## Substring search, as the specification words it -/

namespace database

/-- The text `name` contains `q` as a substring when letter case is ignored:
some contiguous part of `name` equals `q` once both are lower-cased. -/
def ContainsIgnoringCase (name q : String) : Prop :=
  ∃ pre mid post : List Char,
    name.data = pre ++ mid ++ post ∧ mid.map asciiLower = q.data.map asciiLower

/-- A text cut before its first NUL character, whole when it has none. -/
def cutAtNul (s : String) : String :=
  String.mk (upToNul s.data)

end database

/-! ## Sample data -/

namespace database

/-- A database holding the problem "Two Sum" with the tags "Array" and
"Hash Map", and the tag "Graph" that no problem carries. -/
def sampleDB : DB :=
  { problems := [{ id := 1, name := "Two Sum", link := "", platform := "LeetCode",
                   difficulty := "Easy", solve_time := 30, notes := "",
                   code_snippet := "", created_at := "t1", updated_at := "t1" }],
    tags := [{ id := 1, name := "Array", created_at := "t1" },
             { id := 2, name := "Hash Map", created_at := "t1" },
             { id := 3, name := "Graph", created_at := "t2" }],
    problem_tags := [{ problem_id := 1, tag_id := 1 }, { problem_id := 1, tag_id := 2 }],
    seq_problems := 1, seq_tags := 3 }

end database

namespace database

/-- A database whose problems have the given solve times, in this order. -/
def dbWithSolveTimes (times : List Int) : DB :=
  { DB.empty with
    problems := times.map (fun m =>
      { id := 0, name := "", link := "", platform := "", difficulty := "",
        solve_time := m, notes := "", code_snippet := "", created_at := "",
        updated_at := "" }) }

/-- The solve times above 0 among the stored problems, one entry per problem. -/
def recordedSolveTimes (db : DB) : List Int :=
  (db.problems.filter (fun r => 0 < r.solve_time)).map (fun r => r.solve_time)

/-- The stored problems linked to the tag `tag_id` by a `problem_tags` row. -/
def problemsWithTag (db : DB) (tag_id : Int) : List ProblemRow :=
  db.problems.filter (fun r =>
    decide (({ problem_id := r.id, tag_id := tag_id } : ProblemTagRow) ∈ db.problem_tags))

end database

namespace models

/-- A valid problem with the given id and tag names. -/
def sampleProblem (id : Int) (tags : List String) : Problem :=
  { ID := id, Name := "3Sum", Link := "", Platform := "LeetCode",
    Difficulty := "Medium", SolveTime := 45, Notes := "", CodeSnippet := "",
    Tags := tags.map (fun n => { ID := 0, Name := n, CreatedAt := "" }),
    CreatedAt := "", UpdatedAt := "" }

/-- A filter with every field empty. -/
def emptyFilter : ProblemFilter :=
  { Difficulty := "", Platform := "", Tags := [], StartDate := "", EndDate := "",
    SearchQuery := "" }

end models

/-! ## `internal/service` -/

namespace Service

open database models

/-- The map literal `validDifficulties` of `validateProblem`. -/
def validDifficulties : List (String × Bool) :=
  [("Easy", true), ("Medium", true), ("Hard", true)]

/-- Go map indexing `m[key]` on a `map[string]bool`: the zero value `false`
for an absent key. -/
def mapIndex (m : List (String × Bool)) (key : String) : Bool :=
  (m.lookup key).getD false

/-- The method `Service.validateProblem`; `.ok ()` is Go's `nil` error. -/
def validateProblem (problem : Problem) : Except Err Unit :=
  if problem.Name = "" then
    .error (Err.message "problem name is required")
  else if problem.Platform = "" then
    .error (Err.message "platform is required")
  else if problem.Difficulty = "" then
    .error (Err.message "difficulty is required")
  else if ¬ mapIndex validDifficulties problem.Difficulty then
    .error (Err.message "difficulty must be Easy, Medium, or Hard")
  else
    .ok ()

/-- The method `Service.CreateProblem`: validation, then the repository call. -/
def CreateProblem (db : DB) (now : Timestamp) (problem : Problem) : Except Err Problem × DB :=
  match validateProblem problem with
  | .error err => (.error err, db)
  | .ok () => Repository.CreateProblem db now problem

/-- The method `Service.UpdateProblem`: validation, then the repository call. -/
def UpdateProblem (db : DB) (now : Timestamp) (problem : Problem) : Except Err Unit × DB :=
  match validateProblem problem with
  | .error err => (.error err, db)
  | .ok () => Repository.UpdateProblem db now problem

end Service

/-! ## `internal/service`: the other operations -/

namespace models

/-- What `json.Decoder.Decode` reads back for a problem that
`json.Encoder.Encode` wrote: strings, integers and the tag list come back as
written; every timestamp goes through `MarshalJSON` (its RFC 3339 text) and
`UnmarshalJSON`, the pair being the argument `timeCodec`. -/
def jsonRoundTrip (timeCodec : Timestamp → Timestamp) (p : Problem) : Problem :=
  { p with
    Tags := p.Tags.map (fun t => { t with CreatedAt := timeCodec t.CreatedAt }),
    CreatedAt := timeCodec p.CreatedAt,
    UpdatedAt := timeCodec p.UpdatedAt }

end models

namespace Service

open database models

/-- The method `Service.DeleteProblem`. -/
def DeleteProblem (db : DB) (id : Int) : Except Err Unit × DB :=
  Repository.DeleteProblem db id

/-- The method `Service.CreateTag`. -/
def CreateTag (db : DB) (now : Timestamp) (name : String) : Except Err Tag × DB :=
  if name = "" then
    (.error (Err.message "tag name cannot be empty"), db)
  else Repository.CreateTag db now name

/-- The method `Service.DeleteTag`. -/
def DeleteTag (db : DB) (id : Int) : Except Err Unit × DB :=
  Repository.DeleteTag db id

/-- The method `Service.ExportToJSON`, up to the encoder: the slice handed to
`encoder.Encode`, which is what the file holds. -/
def ExportToJSON (db : DB) : Except Err (List Problem) :=
  Repository.GetProblems db none

/-- The loop `for _, problem := range problems { … }` of `ImportFromJSON`:
the id is reset and the record goes to `s.repo.CreateProblem`; the first
error ends the import, the records created before it stay.  The `i`-th call
reads the time `clock i`. -/
def importLoop (clock : Nat → Timestamp) : Nat → List Problem → DB → Except Err Unit × DB
  | _, [], db => (.ok (), db)
  | i, problem :: rest, db =>
    match Repository.CreateProblem db (clock i) { problem with ID := 0 } with
    | (.error err, db1) => (.error err, db1)
    | (.ok _, db1) => importLoop clock (i + 1) rest db1

/-- The method `Service.ImportFromJSON` on the decoded content `problems` of the file. -/
def ImportFromJSON (db : DB) (clock : Nat → Timestamp) (problems : List Problem) :
    Except Err Unit × DB :=
  importLoop clock 0 problems db

/-- A call of one of the writing operations of the service, with its
arguments. -/
inductive Op where
  | createProblem (now : Timestamp) (problem : Problem)
  | updateProblem (now : Timestamp) (problem : Problem)
  | deleteProblem (id : Int)
  | createTag (now : Timestamp) (name : String)
  | deleteTag (id : Int)
  | importFromJSON (clock : Nat → Timestamp) (problems : List Problem)

/-- The database after one call. -/
def Op.run (db : DB) : Op → DB
  | .createProblem now problem => (CreateProblem db now problem).2
  | .updateProblem now problem => (UpdateProblem db now problem).2
  | .deleteProblem id => (DeleteProblem db id).2
  | .createTag now name => (CreateTag db now name).2
  | .deleteTag id => (DeleteTag db id).2
  | .importFromJSON clock problems => (ImportFromJSON db clock problems).2

/-- The database after a sequence of calls, first to last. -/
def runAll (db : DB) (ops : List Op) : DB :=
  ops.foldl Op.run db

end Service

/-! ## Further properties of a database -/

namespace database

/-- The invariant of stored problems: name and platform non-empty, difficulty
one of "Easy", "Medium", "Hard". -/
def StoredValid (db : DB) : Prop :=
  ∀ r ∈ db.problems, r.name ≠ "" ∧ r.platform ≠ "" ∧
    (r.difficulty = "Easy" ∨ r.difficulty = "Medium" ∨ r.difficulty = "Hard")

/-- The id under which the tag called `name` is stored, 0 when there is none. -/
def tagIdOf (db : DB) (name : String) : Int :=
  match queryTagIdByName db name with
  | .ok id => id
  | .error _ => 0

/-- The row a problem becomes when it is stored under `id` at time `now`. -/
def rowOf (id : Int) (now : Timestamp) (p : models.Problem) : ProblemRow :=
  { id := id, name := p.Name, link := p.Link, platform := p.Platform,
    difficulty := p.Difficulty, solve_time := p.SolveTime, notes := p.Notes,
    code_snippet := p.CodeSnippet, created_at := now, updated_at := now }

end database

/-! ## The pieces of the statement `GetProblems` builds -/

namespace Repository

open models

/-- The raw string literal that opens the statement. -/
def selectClause : String :=
  "\n\t\tSELECT DISTINCT p.id, p.name, p.link, p.platform, p.difficulty, p.solve_time, \n\t\t       p.notes, p.code_snippet, p.created_at, p.updated_at\n\t\tFROM problems p\n\t"

/-- The raw string literal appended when tag names are given. -/
def joinClause : String :=
  "\n\t\t\tINNER JOIN problem_tags pt ON p.id = pt.problem_id\n\t\t\tINNER JOIN tags t ON pt.tag_id = t.id\n\t\t"

/-- The string literal that closes the statement. -/
def orderClause : String :=
  " ORDER BY p.created_at DESC"

/-- The conditions a filter makes present, in the order `GetProblems` appends
them, each with the arguments appended along with it. -/
def clausesOf (f : ProblemFilter) : List (String × List String) :=
  (if f.Tags.length > 0 then [(inClause f.Tags.length, f.Tags)] else []) ++
  (if f.Difficulty ≠ "" then [("p.difficulty = ?", [f.Difficulty])] else []) ++
  (if f.Platform ≠ "" then [("p.platform = ?", [f.Platform])] else []) ++
  (if f.SearchQuery ≠ "" then [("p.name LIKE ?", ["%" ++ f.SearchQuery ++ "%"])] else []) ++
  (if f.StartDate ≠ "" then [("p.created_at >= ?", [f.StartDate])] else []) ++
  (if f.EndDate ≠ "" then [("p.created_at <= ?", [f.EndDate])] else [])

end Repository

/-! ## Theorems -/

section Validation

open database models Service

theorem mapIndex_validDifficulties (d : String) :
    mapIndex validDifficulties d = true ↔ d = "Easy" ∨ d = "Medium" ∨ d = "Hard" := by
  unfold mapIndex validDifficulties
  by_cases h1 : d = "Easy"
  · subst h1; simp [List.lookup]
  by_cases h2 : d = "Medium"
  · subst h2; simp [List.lookup]
  by_cases h3 : d = "Hard"
  · subst h3; simp [List.lookup]
  · have e1 : (d == "Easy") = false := by simpa using h1
    have e2 : (d == "Medium") = false := by simpa using h2
    have e3 : (d == "Hard") = false := by simpa using h3
    simp [List.lookup, h1, h2, h3, e1, e2, e3]

theorem validateProblem_ok_iff (p : Problem) :
    validateProblem p = .ok () ↔
      p.Name ≠ "" ∧ p.Platform ≠ "" ∧
        (p.Difficulty = "Easy" ∨ p.Difficulty = "Medium" ∨ p.Difficulty = "Hard") := by
  unfold validateProblem
  by_cases hn : p.Name = ""
  · simp [hn]
  by_cases hp : p.Platform = ""
  · simp [hn, hp]
  by_cases hd : p.Difficulty = ""
  · simp [hn, hp, hd]
  by_cases hm : mapIndex validDifficulties p.Difficulty = true
  · simp [hn, hp, hd, hm, (mapIndex_validDifficulties _).1 hm]
  · have := (mapIndex_validDifficulties p.Difficulty).not.1 hm
    simp [hn, hp, hd, hm, this]

/-- C1: `validateProblem` accepts a problem exactly when its name is non-empty,
its platform is non-empty and its difficulty is one of the three strings
"Easy", "Medium", "Hard"; the lower-case "easy" and the empty difficulty are
rejected whatever the other fields are. -/
theorem C1_validateProblem_accepts_iff (p : Problem) :
    (validateProblem p = .ok () ↔
      p.Name ≠ "" ∧ p.Platform ≠ "" ∧
        (p.Difficulty = "Easy" ∨ p.Difficulty = "Medium" ∨ p.Difficulty = "Hard")) ∧
    validateProblem { p with Difficulty := "easy" } ≠ .ok () ∧
    validateProblem { p with Difficulty := "" } ≠ .ok () := by
  refine ⟨validateProblem_ok_iff p, ?_, ?_⟩
  · rw [Ne, validateProblem_ok_iff]; simp
  · rw [Ne, validateProblem_ok_iff]; simp

/-- The message of the first rule of `validateProblem` that a problem breaks,
in the order name, platform, difficulty presence, difficulty membership. -/
theorem validateProblem_error (p : Problem)
    (h : p.Name = "" ∨ p.Platform = "" ∨
      ¬ (p.Difficulty = "Easy" ∨ p.Difficulty = "Medium" ∨ p.Difficulty = "Hard")) :
    ∃ msg : String, validateProblem p = .error (Err.message msg) ∧
      (p.Name = "" → msg = "problem name is required") ∧
      (p.Name ≠ "" → p.Platform = "" → msg = "platform is required") ∧
      (p.Name ≠ "" → p.Platform ≠ "" → p.Difficulty = "" →
        msg = "difficulty is required") ∧
      (p.Name ≠ "" → p.Platform ≠ "" → p.Difficulty ≠ "" →
        msg = "difficulty must be Easy, Medium, or Hard") := by
  unfold validateProblem
  by_cases hn : p.Name = ""
  · exact ⟨"problem name is required", by simp [hn], by simp [hn]⟩
  by_cases hp : p.Platform = ""
  · exact ⟨"platform is required", by simp [hn, hp], by simp [hn, hp]⟩
  by_cases hd : p.Difficulty = ""
  · exact ⟨"difficulty is required", by simp [hn, hp, hd], by simp [hn, hp, hd]⟩
  have hm : ¬ mapIndex validDifficulties p.Difficulty = true := by
    rw [mapIndex_validDifficulties]
    rcases h with h | h | h
    · exact absurd h hn
    · exact absurd h hp
    · exact h
  exact ⟨"difficulty must be Easy, Medium, or Hard", by simp [hn, hp, hd, hm],
    by simp [hn, hp, hd]⟩

/-- C2: a problem that breaks a validation rule makes both `Service.CreateProblem`
and `Service.UpdateProblem` return the error naming the first broken rule (name,
platform, difficulty presence, difficulty membership, in this order) and leave
the database exactly as it was. -/
theorem C2_invalid_problem_rejected_without_write (db : DB) (now : Timestamp) (p : Problem)
    (h : p.Name = "" ∨ p.Platform = "" ∨
      ¬ (p.Difficulty = "Easy" ∨ p.Difficulty = "Medium" ∨ p.Difficulty = "Hard")) :
    ∃ msg : String,
      Service.CreateProblem db now p = (.error (Err.message msg), db) ∧
      Service.UpdateProblem db now p = (.error (Err.message msg), db) ∧
      (p.Name = "" → msg = "problem name is required") ∧
      (p.Name ≠ "" → p.Platform = "" → msg = "platform is required") ∧
      (p.Name ≠ "" → p.Platform ≠ "" → p.Difficulty = "" →
        msg = "difficulty is required") ∧
      (p.Name ≠ "" → p.Platform ≠ "" → p.Difficulty ≠ "" →
        msg = "difficulty must be Easy, Medium, or Hard") := by
  obtain ⟨msg, hv, hrest⟩ := validateProblem_error p h
  refine ⟨msg, ?_, ?_, hrest⟩
  · simp [Service.CreateProblem, hv]
  · simp [Service.UpdateProblem, hv]

/-- C2 applied to the sample database and a problem whose difficulty is the
lower-case "easy". -/
theorem C2_invalid_problem_rejected_without_write_witness :
    ∃ msg : String,
      Service.CreateProblem sampleDB "t2" { sampleProblem 1 ["Array"] with Difficulty := "easy" }
        = (.error (Err.message msg), sampleDB) ∧
      Service.UpdateProblem sampleDB "t2" { sampleProblem 1 ["Array"] with Difficulty := "easy" }
        = (.error (Err.message msg), sampleDB) ∧
      msg = "difficulty must be Easy, Medium, or Hard" := by
  obtain ⟨msg, h1, h2, _, _, _, h6⟩ :=
    C2_invalid_problem_rejected_without_write sampleDB "t2"
      { sampleProblem 1 ["Array"] with Difficulty := "easy" } (by decide)
  exact ⟨msg, h1, h2, h6 (by decide) (by decide) (by decide)⟩

end Validation

section Writes

open database models Repository

theorem le_foldl_max (ids : List Int) (seq : Int) :
    seq ≤ ids.foldl max seq ∧ ∀ x ∈ ids, x ≤ ids.foldl max seq := by
  induction ids generalizing seq with
  | nil => simp
  | cons a rest ih =>
    obtain ⟨h1, h2⟩ := ih (max seq a)
    refine ⟨le_trans (le_max_left _ _) h1, ?_⟩
    intro x hx
    simp only [List.mem_cons] at hx
    rcases hx with rfl | hx
    · exact le_trans (le_max_right _ _) h1
    · exact h2 x hx

theorem lt_nextRowid (seq : Int) (ids : List Int) (x : Int) (hx : x ∈ ids) :
    x < nextRowid seq ids := by
  have := (le_foldl_max ids seq).2 x hx
  unfold nextRowid
  omega

/-- The lookup of `getOrCreateTag` finds the first tag row of the given name. -/
theorem queryTagIdByName_eq (db : DB) (name : String) :
    (∃ t ∈ db.tags, t.name = name ∧ queryTagIdByName db name = .ok t.id) ∨
    ((∀ t ∈ db.tags, t.name ≠ name) ∧ queryTagIdByName db name = .error Err.ErrNoRows) := by
  unfold queryTagIdByName
  cases hf : db.tags.find? (fun t => decide (t.name = name)) with
  | some t =>
    left
    refine ⟨t, List.mem_of_find?_eq_some hf, ?_, rfl⟩
    simpa using List.find?_some hf
  | none =>
    right
    refine ⟨?_, rfl⟩
    intro t ht
    simpa using (List.find?_eq_none.1 hf) t ht

/-- The helper `getOrCreateTag` never fails: it returns the id of the tag row of that
name, which is either already stored or appended with a fresh id. -/
theorem getOrCreateTag_spec (tx : DB) (now : Timestamp) (name : String) :
    ∃ id tx1, getOrCreateTag tx now name = .ok (id, tx1) ∧
      tx1.problems = tx.problems ∧ tx1.problem_tags = tx.problem_tags ∧
      tx1.seq_problems = tx.seq_problems ∧
      ((tx1 = tx ∧ ∃ t ∈ tx.tags, t.name = name ∧ t.id = id) ∨
       ((∀ t ∈ tx.tags, t.name ≠ name) ∧ (∀ t ∈ tx.tags, t.id < id) ∧
         tx1.tags = tx.tags ++ [{ id := id, name := name, created_at := now }])) := by
  rcases queryTagIdByName_eq tx name with ⟨t, ht, hn, hq⟩ | ⟨hnone, hq⟩
  · exact ⟨t.id, tx, by simp [getOrCreateTag, hq], rfl, rfl, rfl, Or.inl ⟨rfl, t, ht, hn, rfl⟩⟩
  · have hany : tx.tags.any (fun t => decide (t.name = name)) = false := by
      rw [List.any_eq_false]
      intro t ht
      simpa using hnone t ht
    refine ⟨nextRowid tx.seq_tags (tx.tags.map (fun t => t.id)),
      { tx with
        tags := tx.tags ++ [{ id := nextRowid tx.seq_tags (tx.tags.map (fun t => t.id)),
                              name := name, created_at := now }],
        seq_tags := nextRowid tx.seq_tags (tx.tags.map (fun t => t.id)) },
      ?_, rfl, rfl, rfl, Or.inr ⟨hnone, ?_, rfl⟩⟩
    · simp [getOrCreateTag, hq, execInsertTag, hany]
    · intro t ht
      exact lt_nextRowid _ _ _ (List.mem_map_of_mem _ ht)

/-- The association insert succeeds when the pair is new and both ends exist. -/
theorem execInsertProblemTag_ok (db : DB) (pid tid : Int)
    (hnew : ∀ pt ∈ db.problem_tags, ¬ (pt.problem_id = pid ∧ pt.tag_id = tid))
    (hp : ∃ r ∈ db.problems, r.id = pid) (ht : ∃ t ∈ db.tags, t.id = tid) :
    execInsertProblemTag db pid tid =
      .ok { db with problem_tags := db.problem_tags ++ [{ problem_id := pid, tag_id := tid }] } := by
  have h1 : db.problem_tags.any (fun pt => decide (pt.problem_id = pid ∧ pt.tag_id = tid))
      = false := by
    rw [List.any_eq_false]
    intro pt hpt
    simpa using hnew pt hpt
  have h2 : db.problems.any (fun r => decide (r.id = pid)) = true := by
    rw [List.any_eq_true]
    obtain ⟨r, hr, e⟩ := hp
    exact ⟨r, hr, by simpa using e⟩
  have h3 : db.tags.any (fun t => decide (t.id = tid)) = true := by
    rw [List.any_eq_true]
    obtain ⟨t, ht, e⟩ := ht
    exact ⟨t, ht, by simpa using e⟩
  simp [execInsertProblemTag, h1, h2, h3]
  exact fun x hx a b => hnew x hx ⟨a, b⟩

/-- One round of the tag loop on a problem that does not yet carry the tag:
both statements succeed, the invariants of the loop survive, and the problem
gains exactly this tag name. -/
theorem insertTags_step (tx : DB) (now : Timestamp) (pid : Int) (name : String)
    (hids : (tx.tags.map (fun t => t.id)).Nodup)
    (hfk : ∀ pt ∈ tx.problem_tags, ∃ t ∈ tx.tags, t.id = pt.tag_id)
    (hpid : ∃ r ∈ tx.problems, r.id = pid)
    (hfresh : ¬ hasTag tx pid name) :
    ∃ tagID tx1 tx2, getOrCreateTag tx now name = .ok (tagID, tx1) ∧
      execInsertProblemTag tx1 pid tagID = .ok tx2 ∧
      tx2.problems = tx.problems ∧ tx2.seq_problems = tx.seq_problems ∧
      (tx2.tags.map (fun t => t.id)).Nodup ∧
      (∀ pt ∈ tx2.problem_tags, ∃ t ∈ tx2.tags, t.id = pt.tag_id) ∧
      (∀ n, hasTag tx2 pid n ↔ hasTag tx pid n ∨ n = name) := by
  obtain ⟨id, tx1, hget, hprob, hpts, hseq, hcase⟩ := getOrCreateTag_spec tx now name
  rcases hcase with ⟨rfl, t0, ht0, hname, hid⟩ | ⟨hnone, hlt, htags⟩
  · -- the tag row exists
    have hnew : ∀ pt ∈ tx1.problem_tags, ¬ (pt.problem_id = pid ∧ pt.tag_id = id) := by
      intro pt hpt h
      exact hfresh ⟨t0, ht0, hname, pt, hpt, h.1, by rw [h.2, hid]⟩
    have hins := execInsertProblemTag_ok tx1 pid id hnew hpid ⟨t0, ht0, hid⟩
    refine ⟨id, tx1, _, hget, hins, rfl, rfl, hids, ?_, ?_⟩
    · intro pt hpt
      simp only [List.mem_append, List.mem_singleton] at hpt
      rcases hpt with hpt | rfl
      · exact hfk pt hpt
      · exact ⟨t0, ht0, hid⟩
    · intro n
      constructor
      · rintro ⟨t, ht, htn, pt, hpt, hp1, hp2⟩
        simp only [List.mem_append, List.mem_singleton] at hpt
        rcases hpt with hpt | rfl
        · exact Or.inl ⟨t, ht, htn, pt, hpt, hp1, hp2⟩
        · right
          have hinj := List.inj_on_of_nodup_map hids ht ht0 (by simpa [hid] using hp2.symm)
          rw [← htn, hinj, hname]
      · rintro (⟨t, ht, htn, pt, hpt, hp1, hp2⟩ | rfl)
        · exact ⟨t, ht, htn, pt, List.mem_append_left _ hpt, hp1, hp2⟩
        · exact ⟨t0, ht0, hname, _, List.mem_append_right _ (List.mem_singleton_self _),
            rfl, hid.symm⟩
  · -- the tag row is inserted with a fresh id
    have hnew : ∀ pt ∈ tx1.problem_tags, ¬ (pt.problem_id = pid ∧ pt.tag_id = id) := by
      intro pt hpt h
      rw [hpts] at hpt
      obtain ⟨t, ht, hte⟩ := hfk pt hpt
      have := hlt t ht
      omega
    have hmem : ({ id := id, name := name, created_at := now } : TagRow) ∈ tx1.tags := by
      rw [htags]; simp
    have hins := execInsertProblemTag_ok tx1 pid id hnew (by rw [hprob]; exact hpid)
      ⟨_, hmem, rfl⟩
    refine ⟨id, tx1, _, hget, hins, hprob, hseq, ?_, ?_, ?_⟩
    · show (tx1.tags.map (fun t => t.id)).Nodup
      rw [htags, List.map_append, List.nodup_append]
      refine ⟨hids, by simp, ?_⟩
      intro a ha hb
      simp only [List.map_cons, List.map_nil, List.mem_singleton] at hb
      obtain ⟨t, ht, rfl⟩ := List.mem_map.1 ha
      have := hlt t ht
      omega
    · intro pt hpt
      show ∃ t ∈ tx1.tags, t.id = pt.tag_id
      simp only [List.mem_append, List.mem_singleton] at hpt
      rcases hpt with hpt | rfl
      · rw [hpts] at hpt
        obtain ⟨t, ht, hte⟩ := hfk pt hpt
        exact ⟨t, by rw [htags]; exact List.mem_append_left _ ht, hte⟩
      · exact ⟨_, hmem, rfl⟩
    · intro n
      constructor
      · rintro ⟨t, ht, htn, pt, hpt, hp1, hp2⟩
        change t ∈ tx1.tags at ht
        rw [htags] at ht
        simp only [List.mem_append, List.mem_singleton] at ht hpt
        rcases ht with ht | rfl
        · rcases hpt with hpt | rfl
          · rw [hpts] at hpt
            exact Or.inl ⟨t, ht, htn, pt, hpt, hp1, hp2⟩
          · have := hlt t ht
            simp only at hp2
            omega
        · exact Or.inr htn.symm
      · rintro (⟨t, ht, htn, pt, hpt, hp1, hp2⟩ | rfl)
        · refine ⟨t, ?_, htn, pt, ?_, hp1, hp2⟩
          · show t ∈ tx1.tags
            rw [htags]; exact List.mem_append_left _ ht
          · show pt ∈ tx1.problem_tags ++ _
            rw [hpts]; exact List.mem_append_left _ hpt
        · exact ⟨_, hmem, rfl, _, List.mem_append_right _ (List.mem_singleton_self _),
            rfl, rfl⟩

/-- The tag loop on pairwise distinct names none of which the problem carries:
it succeeds, touches no `problems` row, and the problem ends up carrying its
earlier names and the listed ones. -/
theorem insertTags_spec (now : Timestamp) (pid : Int) :
    ∀ (ts : List Tag) (tx : DB),
      (tx.tags.map (fun t => t.id)).Nodup →
      (∀ pt ∈ tx.problem_tags, ∃ t ∈ tx.tags, t.id = pt.tag_id) →
      (∃ r ∈ tx.problems, r.id = pid) →
      (ts.map (fun t => t.Name)).Nodup →
      (∀ tag ∈ ts, ¬ hasTag tx pid tag.Name) →
      ∃ tx9, insertTags now pid ts tx = .ok tx9 ∧
        tx9.problems = tx.problems ∧ tx9.seq_problems = tx.seq_problems ∧
        (∀ n, hasTag tx9 pid n ↔ hasTag tx pid n ∨ n ∈ ts.map (fun t => t.Name)) := by
  intro ts
  induction ts with
  | nil =>
    intro tx _ _ _ _ _
    exact ⟨tx, rfl, rfl, rfl, by simp⟩
  | cons tag rest ih =>
    intro tx hids hfk hpid hnd hfresh
    obtain ⟨tagID, tx1, tx2, hget, hins, hprob, hseq, hids2, hfk2, hE⟩ :=
      insertTags_step tx now pid tag.Name hids hfk hpid (hfresh tag (List.mem_cons_self _ _))
    rw [List.map_cons, List.nodup_cons] at hnd
    have hfresh2 : ∀ tag2 ∈ rest, ¬ hasTag tx2 pid tag2.Name := by
      intro tag2 h2 hh
      rcases (hE _).1 hh with h | h
      · exact hfresh tag2 (List.mem_cons_of_mem _ h2) h
      · exact hnd.1 (h ▸ List.mem_map_of_mem (fun t => t.Name) h2)
    obtain ⟨tx9, hrun, hprob9, hseq9, hE9⟩ :=
      ih tx2 hids2 hfk2 (by rw [hprob]; exact hpid) hnd.2 hfresh2
    refine ⟨tx9, ?_, hprob9.trans hprob, hseq9.trans hseq, ?_⟩
    · simp [insertTags, hget, hins, hrun]
    · intro n
      rw [hE9, hE, List.map_cons, List.mem_cons, or_assoc]

end Writes

section SchemaConstraints

open database models Repository

theorem consistent_empty : Consistent DB.empty := by
  decide

theorem execInsertProblem_consistent (db : DB) (name link platform difficulty : String)
    (solve_time : Int) (notes code_snippet : String) (created_at updated_at : Timestamp)
    (hdb : Consistent db) :
    Consistent (execInsertProblem db name link platform difficulty solve_time notes
      code_snippet created_at updated_at).2 := by
  obtain ⟨h1, h2, h3, h4, h5, h6⟩ := hdb
  refine ⟨?_, h2, h3, h4, ?_, h6⟩
  · show ((db.problems ++ [_]).map (fun r : ProblemRow => r.id)).Nodup
    rw [List.map_append, List.nodup_append]
    refine ⟨h1, by simp, ?_⟩
    intro a ha hb
    simp only [List.map_cons, List.map_nil, List.mem_singleton] at hb
    have := lt_nextRowid db.seq_problems _ a ha
    omega
  · intro pt hpt
    obtain ⟨r, hr, hre⟩ := h5 pt hpt
    exact ⟨r, List.mem_append_left _ hr, hre⟩

theorem execUpdateProblem_consistent (db : DB) (name link platform difficulty : String)
    (solve_time : Int) (notes code_snippet : String) (updated_at : Timestamp) (id : Int)
    (hdb : Consistent db) :
    Consistent (execUpdateProblem db name link platform difficulty solve_time notes
      code_snippet updated_at id) := by
  obtain ⟨h1, h2, h3, h4, h5, h6⟩ := hdb
  have hid : ∀ r : ProblemRow,
      (if r.id = id then
        ({ r with
          name := name, link := link, platform := platform, difficulty := difficulty,
          solve_time := solve_time, notes := notes, code_snippet := code_snippet,
          updated_at := updated_at } : ProblemRow)
      else r).id = r.id := by
    intro r
    split <;> rfl
  refine ⟨?_, h2, h3, h4, ?_, h6⟩
  · show ((db.problems.map _).map (fun r : ProblemRow => r.id)).Nodup
    rw [List.map_map]
    have : ((fun r : ProblemRow => r.id) ∘ fun r =>
        if r.id = id then
          ({ r with
            name := name, link := link, platform := platform, difficulty := difficulty,
            solve_time := solve_time, notes := notes, code_snippet := code_snippet,
            updated_at := updated_at } : ProblemRow)
        else r) = fun r => r.id := funext hid
    rw [this]
    exact h1
  · intro pt hpt
    obtain ⟨r, hr, hre⟩ := h5 pt hpt
    exact ⟨_, List.mem_map_of_mem _ hr, (hid r).trans hre⟩

theorem execDeleteProblemTags_consistent (db : DB) (id : Int) (hdb : Consistent db) :
    Consistent (execDeleteProblemTags db id) := by
  obtain ⟨h1, h2, h3, h4, h5, h6⟩ := hdb
  exact ⟨h1, h2, h3, h4.sublist (List.filter_sublist _),
    fun pt hpt => h5 pt (List.mem_of_mem_filter hpt),
    fun pt hpt => h6 pt (List.mem_of_mem_filter hpt)⟩

theorem execDeleteProblem_consistent (db : DB) (id : Int) (hdb : Consistent db) :
    Consistent (execDeleteProblem db id) := by
  unfold execDeleteProblem
  split
  · obtain ⟨h1, h2, h3, h4, h5, h6⟩ := hdb
    refine ⟨h1.sublist ((List.filter_sublist _).map (fun r : ProblemRow => r.id)), h2, h3,
      h4.sublist (List.filter_sublist _), ?_, fun pt hpt => h6 pt (List.mem_of_mem_filter hpt)⟩
    intro pt hpt
    rw [List.mem_filter] at hpt
    obtain ⟨r, hr, hre⟩ := h5 pt hpt.1
    refine ⟨r, List.mem_filter.2 ⟨hr, ?_⟩, hre⟩
    simpa [hre] using hpt.2
  · exact hdb

theorem execDeleteTag_consistent (db : DB) (id : Int) (hdb : Consistent db) :
    Consistent (execDeleteTag db id) := by
  unfold execDeleteTag
  split
  · obtain ⟨h1, h2, h3, h4, h5, h6⟩ := hdb
    refine ⟨h1, h2.sublist ((List.filter_sublist _).map (fun t : TagRow => t.id)),
      h3.sublist ((List.filter_sublist _).map (fun t : TagRow => t.name)),
      h4.sublist (List.filter_sublist _),
      fun pt hpt => h5 pt (List.mem_of_mem_filter hpt), ?_⟩
    intro pt hpt
    rw [List.mem_filter] at hpt
    obtain ⟨t, ht, hte⟩ := h6 pt hpt.1
    refine ⟨t, List.mem_filter.2 ⟨ht, ?_⟩, hte⟩
    simpa [hte] using hpt.2
  · exact hdb

theorem execInsertTag_consistent (db : DB) (name : String) (now : Timestamp) (id : Int)
    (db1 : DB) (hdb : Consistent db) (hins : execInsertTag db name now = .ok (id, db1)) :
    Consistent db1 := by
  obtain ⟨h1, h2, h3, h4, h5, h6⟩ := hdb
  unfold execInsertTag at hins
  split at hins
  · cases hins
  · rename_i hany
    simp only [Except.ok.injEq, Prod.mk.injEq] at hins
    obtain ⟨rfl, rfl⟩ := hins
    have hname : ∀ t ∈ db.tags, t.name ≠ name := by
      intro t ht
      have := hany
      simp only [List.any_eq_true, decide_eq_true_eq, not_exists, not_and] at this
      exact this t ht
    refine ⟨h1, ?_, ?_, h4, h5, ?_⟩
    · show ((db.tags ++ [_]).map (fun t : TagRow => t.id)).Nodup
      rw [List.map_append, List.nodup_append]
      refine ⟨h2, by simp, ?_⟩
      intro a ha hb
      simp only [List.map_cons, List.map_nil, List.mem_singleton] at hb
      have := lt_nextRowid db.seq_tags _ a ha
      omega
    · show ((db.tags ++ [_]).map (fun t : TagRow => t.name)).Nodup
      rw [List.map_append, List.nodup_append]
      refine ⟨h3, by simp, ?_⟩
      intro a ha hb
      simp only [List.map_cons, List.map_nil, List.mem_singleton] at hb
      obtain ⟨t, ht, rfl⟩ := List.mem_map.1 ha
      exact hname t ht hb
    · intro pt hpt
      obtain ⟨t, ht, hte⟩ := h6 pt hpt
      exact ⟨t, List.mem_append_left _ ht, hte⟩

theorem getOrCreateTag_consistent (tx : DB) (now : Timestamp) (name : String) (id : Int)
    (tx1 : DB) (hdb : Consistent tx) (hget : getOrCreateTag tx now name = .ok (id, tx1)) :
    Consistent tx1 := by
  unfold getOrCreateTag at hget
  rcases queryTagIdByName_eq tx name with ⟨t, _, _, hq⟩ | ⟨_, hq⟩
  · rw [hq] at hget
    simp only [Except.ok.injEq, Prod.mk.injEq] at hget
    rw [← hget.2]
    exact hdb
  · rw [hq] at hget
    cases hins : execInsertTag tx name now with
    | error e => rw [hins] at hget; cases hget
    | ok res =>
      obtain ⟨id1, db1⟩ := res
      rw [hins] at hget
      simp only [Except.ok.injEq, Prod.mk.injEq] at hget
      rw [← hget.2]
      exact execInsertTag_consistent tx name now id1 db1 hdb hins

theorem execInsertProblemTag_consistent (db : DB) (pid tid : Int) (db1 : DB)
    (hdb : Consistent db) (hins : execInsertProblemTag db pid tid = .ok db1) :
    Consistent db1 := by
  obtain ⟨h1, h2, h3, h4, h5, h6⟩ := hdb
  unfold execInsertProblemTag at hins
  split at hins
  · cases hins
  · rename_i hpk
    split at hins
    · cases hins
    · rename_i hfp
      split at hins
      · cases hins
      · rename_i hft
        simp only [Except.ok.injEq] at hins
        subst hins
        simp only [List.any_eq_true, decide_eq_true_eq, not_exists, not_and, not_not,
          Bool.not_eq_true, Decidable.not_not] at hpk hfp hft
        refine ⟨h1, h2, h3, ?_, ?_, ?_⟩
        · show (db.problem_tags ++ [_]).Nodup
          rw [List.nodup_append]
          refine ⟨h4, by simp, ?_⟩
          intro a ha hb
          simp only [List.mem_singleton] at hb
          subst hb
          exact hpk _ ha rfl rfl
        · intro pt hpt
          simp only [List.mem_append, List.mem_singleton] at hpt
          rcases hpt with hpt | rfl
          · exact h5 pt hpt
          · by_contra hc
            exact hfp (fun x hx hxe => hc ⟨x, hx, hxe⟩)
        · intro pt hpt
          simp only [List.mem_append, List.mem_singleton] at hpt
          rcases hpt with hpt | rfl
          · exact h6 pt hpt
          · by_contra hc
            exact hft (fun x hx hxe => hc ⟨x, hx, hxe⟩)

theorem insertTags_consistent (now : Timestamp) (pid : Int) (ts : List Tag) :
    ∀ tx tx9 : DB, Consistent tx → insertTags now pid ts tx = .ok tx9 → Consistent tx9 := by
  induction ts with
  | nil =>
    intro tx tx9 hdb h
    simp only [insertTags, Except.ok.injEq] at h
    rw [← h]
    exact hdb
  | cons tag rest ih =>
    intro tx tx9 hdb h
    simp only [insertTags] at h
    cases hget : getOrCreateTag tx now tag.Name with
    | error e => rw [hget] at h; cases h
    | ok res =>
      obtain ⟨tagID, tx1⟩ := res
      rw [hget] at h
      simp only at h
      cases hins : execInsertProblemTag tx1 pid tagID with
      | error e => rw [hins] at h; cases h
      | ok tx2 =>
        rw [hins] at h
        exact ih tx2 tx9 (execInsertProblemTag_consistent tx1 pid tagID tx2
          (getOrCreateTag_consistent tx now tag.Name tagID tx1 hdb hget) hins) h

/-- Every write of the repository keeps the schema constraints: they hold of
each database reached from the empty one. -/
theorem repository_writes_consistent (db : DB) (now : Timestamp) (hdb : Consistent db) :
    (∀ p, Consistent (Repository.CreateProblem db now p).2) ∧
    (∀ p, Consistent (Repository.UpdateProblem db now p).2) ∧
    (∀ id, Consistent (Repository.DeleteProblem db id).2) ∧
    (∀ id, Consistent (Repository.DeleteTag db id).2) ∧
    (∀ name, Consistent (Repository.CreateTag db now name).2) := by
  refine ⟨?_, ?_, ?_, ?_, ?_⟩
  · intro p
    unfold Repository.CreateProblem
    simp only
    split
    · exact hdb
    · rename_i tx2 hrun
      exact insertTags_consistent now _ p.Tags _ tx2
        (execInsertProblem_consistent db _ _ _ _ _ _ _ _ _ hdb) hrun
  · intro p
    unfold Repository.UpdateProblem
    simp only
    split
    · exact hdb
    · rename_i tx3 hrun
      exact insertTags_consistent now _ p.Tags _ tx3
        (execDeleteProblemTags_consistent _ _
          (execUpdateProblem_consistent db _ _ _ _ _ _ _ _ _ hdb)) hrun
  · intro id
    exact execDeleteProblem_consistent db id hdb
  · intro id
    exact execDeleteTag_consistent db id hdb
  · intro name
    unfold Repository.CreateTag
    split
    · exact hdb
    · rename_i id db1 hins
      exact execInsertTag_consistent db name now id db1 hdb hins

end SchemaConstraints

section CreateThenGet

open database models Repository

/-- The rows `getTagsForProblem` reads are the tag rows linked to the problem. -/
theorem mem_queryTagsForProblem (db : DB) (pid : Int) (t : TagRow) :
    t ∈ queryTagsForProblem db pid ↔
      t ∈ db.tags ∧ ∃ pt ∈ db.problem_tags, pt.problem_id = pid ∧ pt.tag_id = t.id := by
  unfold queryTagsForProblem
  rw [(List.perm_insertionSort _ _).mem_iff]
  simp only [List.mem_map, List.mem_filter, List.mem_flatMap, decide_eq_true_eq, Prod.exists]
  constructor
  · rintro ⟨t1, pt, ⟨⟨t2, ht2, pt2, ⟨hpt2, hid⟩, heq⟩, hpid⟩, rfl⟩
    simp only [Prod.mk.injEq] at heq
    obtain ⟨rfl, rfl⟩ := heq
    exact ⟨ht2, pt2, hpt2, hpid, hid.symm⟩
  · rintro ⟨ht, pt, hpt, hpid, hid⟩
    exact ⟨t, pt, ⟨⟨t, ht, pt, ⟨hpt, hid.symm⟩, rfl⟩, hpid⟩, rfl⟩

/-- The tag names `getTagsForProblem` returns are the names the problem carries. -/
theorem mem_getTagsForProblem_names (db : DB) (pid : Int) (n : String) :
    n ∈ ((queryTagsForProblem db pid).map scanTag).map (fun t => t.Name) ↔
      hasTag db pid n := by
  simp only [List.map_map, List.mem_map, mem_queryTagsForProblem, Function.comp, scanTag,
    hasTag]
  constructor
  · rintro ⟨t, ⟨ht, h⟩, rfl⟩
    exact ⟨t, ht, rfl, h⟩
  · rintro ⟨t, ht, rfl, h⟩
    exact ⟨t, ⟨ht, h⟩, rfl⟩

/-- C3 as stated fails: a valid problem whose tag list names "Array" twice is
rejected by `CreateProblem` on the empty database, because the second
association insert repeats the key `(problem_id, tag_id)`; nothing is stored. -/
theorem C3_repeated_tag_name_fails :
    Service.validateProblem (sampleProblem 0 ["Array", "Array"]) = .ok () ∧
    Service.CreateProblem DB.empty "t1" (sampleProblem 0 ["Array", "Array"]) =
      (.error (Err.constraint
        "UNIQUE constraint failed: problem_tags.problem_id, problem_tags.tag_id"),
       DB.empty) := by
  decide

/-- C3, amended: on a database that satisfies the schema constraints, a valid
problem whose tag names are pairwise distinct is created, and `GetProblem` of
the assigned id, which is new, returns a problem equal to it in name, link,
platform, difficulty, solve time, notes and code snippet, whose tag names are
exactly the given ones. -/
theorem C3_create_then_get (db : DB) (now : Timestamp) (p : Problem)
    (hdb : Consistent db) (hvalid : Service.validateProblem p = .ok ())
    (hnames : (p.Tags.map (fun t => t.Name)).Nodup) :
    ∃ created db9 got,
      Service.CreateProblem db now p = (.ok created, db9) ∧
      (∀ r ∈ db.problems, r.id ≠ created.ID) ∧
      GetProblem db9 created.ID = .ok got ∧
      got.ID = created.ID ∧ got.Name = p.Name ∧ got.Link = p.Link ∧
      got.Platform = p.Platform ∧ got.Difficulty = p.Difficulty ∧
      got.SolveTime = p.SolveTime ∧ got.Notes = p.Notes ∧
      got.CodeSnippet = p.CodeSnippet ∧
      (∀ n, n ∈ got.Tags.map (fun t => t.Name) ↔ n ∈ p.Tags.map (fun t => t.Name)) := by
  obtain ⟨_, htagids, _, _, hfkp, hfkt⟩ := hdb
  set pid := nextRowid db.seq_problems (db.problems.map (fun r => r.id)) with hpid
  set row : ProblemRow :=
    { id := pid, name := p.Name, link := p.Link, platform := p.Platform,
      difficulty := p.Difficulty, solve_time := p.SolveTime, notes := p.Notes,
      code_snippet := p.CodeSnippet, created_at := now, updated_at := now } with hrow
  set tx1 : DB := { db with problems := db.problems ++ [row], seq_problems := pid } with htx1
  have hlt : ∀ r ∈ db.problems, r.id < pid := fun r hr =>
    lt_nextRowid _ _ _ (List.mem_map_of_mem (fun r => r.id) hr)
  have hnone : ∀ n, ¬ hasTag tx1 pid n := by
    rintro n ⟨t, _, _, pt, hpt, hp1, _⟩
    obtain ⟨r, hr, hre⟩ := hfkp pt hpt
    have := hlt r hr
    omega
  obtain ⟨tx9, hrun, hprob, _, hE⟩ := insertTags_spec now pid p.Tags tx1 htagids hfkt
    ⟨row, by simp [htx1], rfl⟩ hnames (fun tag _ => hnone tag.Name)
  have hcreate : Service.CreateProblem db now p = (.ok { p with ID := pid }, tx9) := by
    simp only [Service.CreateProblem, hvalid, Repository.CreateProblem, execInsertProblem]
    rw [← hpid, ← hrow, ← htx1, hrun]
  have hfind : tx9.problems.find? (fun r => decide (r.id = pid)) = some row := by
    rw [hprob, htx1]
    simp only [List.find?_append]
    have : db.problems.find? (fun r => decide (r.id = pid)) = none := by
      rw [List.find?_eq_none]
      intro r hr
      have := hlt r hr
      simp only [decide_eq_true_eq]
      omega
    rw [this]
    simp [hrow]
  refine ⟨{ p with ID := pid }, tx9, scanProblem row ((queryTagsForProblem tx9 pid).map scanTag),
    hcreate, ?_, ?_, rfl, rfl, rfl, rfl, rfl, rfl, rfl, rfl, ?_⟩
  · intro r hr
    have := hlt r hr
    show r.id ≠ pid
    omega
  · simp [GetProblem, queryProblemById, hfind, getTagsForProblem, hrow]
  · intro n
    show n ∈ ((queryTagsForProblem tx9 pid).map scanTag).map (fun t => t.Name) ↔ _
    rw [mem_getTagsForProblem_names, hE]
    simp [hnone]

/-- C3 applied to the sample database: a second problem with two distinct tags,
one of them already stored. -/
theorem C3_create_then_get_witness :
    ∃ created db9 got,
      Service.CreateProblem sampleDB "t2" (sampleProblem 0 ["Array", "Two Pointers"])
        = (.ok created, db9) ∧
      (∀ r ∈ sampleDB.problems, r.id ≠ created.ID) ∧
      GetProblem db9 created.ID = .ok got ∧
      got.ID = created.ID ∧ got.Name = "3Sum" ∧ got.Link = "" ∧
      got.Platform = "LeetCode" ∧ got.Difficulty = "Medium" ∧
      got.SolveTime = 45 ∧ got.Notes = "" ∧ got.CodeSnippet = "" ∧
      (∀ n, n ∈ got.Tags.map (fun t => t.Name) ↔ n ∈ ["Array", "Two Pointers"]) :=
  C3_create_then_get sampleDB "t2" (sampleProblem 0 ["Array", "Two Pointers"])
    (by decide) (by decide) (by decide)

end CreateThenGet

section QueryLemmas

open database models Repository

/-- Occurrences of a character in a joined text: those in the elements plus
those in the separators between them. -/
theorem count_stringsJoin (c : Char) (sep : String) (l : List String) :
    (stringsJoin l sep).data.count c =
      (l.map (fun s => s.data.count c)).sum + (l.length - 1) * sep.data.count c := by
  induction l with
  | nil => simp [stringsJoin]
  | cons a rest ih =>
    cases rest with
    | nil => simp [stringsJoin]
    | cons b rest =>
      simp only [stringsJoin, String.data_append, List.count_append, ih, List.map_cons,
        List.sum_cons, List.length_cons]
      have : rest.length + 1 + 1 - 1 = (rest.length + 1 - 1) + 1 := by omega
      rw [this, Nat.add_mul]
      omega

/-- The `IN` clause for `n` tag names holds exactly `n` placeholders. -/
theorem count_inClause (n : Nat) : (inClause n).data.count '?' = n := by
  have h1 : "t.name IN (".data.count '?' = 0 := by decide
  have h2 : ")".data.count '?' = 0 := by decide
  have h3 : ",".data.count '?' = 0 := by decide
  have h4 : "?".data.count '?' = 1 := by decide
  simp only [inClause, String.data_append, List.count_append, count_stringsJoin, h1, h2, h3,
    List.map_replicate, List.sum_replicate, h4, List.length_replicate]
  simp

/-- The statement text is a function of which filter fields are set and of the
number of tag names. -/
theorem buildQuery_query_congr (f g : ProblemFilter)
    (ht : f.Tags.length = g.Tags.length)
    (hd : f.Difficulty = "" ↔ g.Difficulty = "")
    (hp : f.Platform = "" ↔ g.Platform = "")
    (hq : f.SearchQuery = "" ↔ g.SearchQuery = "")
    (hs : f.StartDate = "" ↔ g.StartDate = "")
    (he : f.EndDate = "" ↔ g.EndDate = "") :
    (buildQuery (some f)).query = (buildQuery (some g)).query := by
  unfold buildQuery
  by_cases h0 : g.Tags.length > 0 <;>
  by_cases h1 : g.Difficulty = "" <;>
  by_cases h2 : g.Platform = "" <;>
  by_cases h3 : g.SearchQuery = "" <;>
  by_cases h4 : g.StartDate = "" <;>
  by_cases h5 : g.EndDate = "" <;>
  simp [h0, h1, h2, h3, h4, h5, hd, hp, hq, hs, he, ht]

/-- The bound arguments: the tag names, then the value of every field that is
set, in the order of the conditions. -/
theorem buildQuery_args (f : ProblemFilter) :
    (buildQuery (some f)).args =
      f.Tags ++ (if f.Difficulty ≠ "" then [f.Difficulty] else []) ++
        (if f.Platform ≠ "" then [f.Platform] else []) ++
        (if f.SearchQuery ≠ "" then ["%" ++ f.SearchQuery ++ "%"] else []) ++
        (if f.StartDate ≠ "" then [f.StartDate] else []) ++
        (if f.EndDate ≠ "" then [f.EndDate] else []) := by
  unfold buildQuery
  by_cases h0 : f.Tags.length > 0 <;>
  by_cases h1 : f.Difficulty = "" <;>
  by_cases h2 : f.Platform = "" <;>
  by_cases h3 : f.SearchQuery = "" <;>
  by_cases h4 : f.StartDate = "" <;>
  by_cases h5 : f.EndDate = "" <;>
  simp [h0, h1, h2, h3, h4, h5] <;>
  simp_all

/-- The statement and the arguments of a non-nil filter, spelled out: the
select clause, the joins when tag names are given, the conditions that are
present joined by " AND " after " WHERE ", the ordering; and the arguments of
these conditions one after the other. -/
theorem buildQuery_eq (f : ProblemFilter) :
    buildQuery (some f) =
      { query :=
          (if (clausesOf f).length > 0 then
            (if f.Tags.length > 0 then selectClause ++ joinClause else selectClause) ++
              " WHERE " ++ stringsJoin ((clausesOf f).map (fun c => c.1)) " AND "
           else selectClause) ++ orderClause,
        args := (clausesOf f).flatMap (fun c => c.2) } := by
  unfold buildQuery clausesOf selectClause joinClause orderClause
  by_cases h0 : f.Tags.length > 0 <;>
  by_cases h1 : f.Difficulty = "" <;>
  by_cases h2 : f.Platform = "" <;>
  by_cases h3 : f.SearchQuery = "" <;>
  by_cases h4 : f.StartDate = "" <;>
  by_cases h5 : f.EndDate = "" <;>
  simp [h0, h1, h2, h3, h4, h5]

/-- Every condition holds as many placeholders as arguments come with it. -/
theorem clausesOf_count (f : ProblemFilter) :
    ∀ c ∈ clausesOf f, c.1.data.count '?' = c.2.length := by
  have k1 : "p.difficulty = ?".data.count '?' = 1 := by decide
  have k2 : "p.platform = ?".data.count '?' = 1 := by decide
  have k3 : "p.name LIKE ?".data.count '?' = 1 := by decide
  have k4 : "p.created_at >= ?".data.count '?' = 1 := by decide
  have k5 : "p.created_at <= ?".data.count '?' = 1 := by decide
  intro c hc
  unfold clausesOf at hc
  simp only [List.mem_append] at hc
  rcases hc with ((((hc | hc) | hc) | hc) | hc) | hc
  · split at hc
    · rw [List.mem_singleton] at hc
      rw [hc]
      exact count_inClause _
    · simp at hc
  · split at hc
    · rw [List.mem_singleton] at hc
      rw [hc]
      exact k1
    · simp at hc
  · split at hc
    · rw [List.mem_singleton] at hc
      rw [hc]
      exact k2
    · simp at hc
  · split at hc
    · rw [List.mem_singleton] at hc
      rw [hc]
      exact k3
    · simp at hc
  · split at hc
    · rw [List.mem_singleton] at hc
      rw [hc]
      exact k4
    · simp at hc
  · split at hc
    · rw [List.mem_singleton] at hc
      rw [hc]
      exact k5
    · simp at hc

/-- Placeholders in a list of conditions joined by " AND ". -/
theorem count_joined_clauses (cs : List (String × List String))
    (h : ∀ c ∈ cs, c.1.data.count '?' = c.2.length) :
    (stringsJoin (cs.map (fun c => c.1)) " AND ").data.count '?' =
      (cs.flatMap (fun c => c.2)).length := by
  have hsep : " AND ".data.count '?' = 0 := by decide
  rw [count_stringsJoin, hsep, Nat.mul_zero, Nat.add_zero]
  induction cs with
  | nil => rfl
  | cons c rest ih =>
    simp only [List.map_cons, List.sum_cons, List.flatMap_cons, List.length_append]
    rw [h c (List.mem_cons_self _ _), ih (fun x hx => h x (List.mem_cons_of_mem _ hx))]

/-- The statement of a non-nil filter holds one `?` per bound argument. -/
theorem count_query_some (f : ProblemFilter) :
    (buildQuery (some f)).query.data.count '?' = (buildQuery (some f)).args.length := by
  have hs : selectClause.data.count '?' = 0 := by decide
  have hj : joinClause.data.count '?' = 0 := by decide
  have ho : orderClause.data.count '?' = 0 := by decide
  have hw : " WHERE ".data.count '?' = 0 := by decide
  rw [buildQuery_eq]
  simp only
  split
  · split <;>
    simp only [String.data_append, List.count_append, hs, hj, ho, hw,
      count_joined_clauses _ (clausesOf_count f), Nat.zero_add, Nat.add_zero]
  · rename_i hlen
    have hnil : clausesOf f = [] := List.length_eq_zero.1 (by omega)
    simp only [String.data_append, List.count_append, hs, ho, hnil, List.flatMap_nil,
      List.length_nil]

/-- A joined text starts with its first element. -/
theorem stringsJoin_cons (a : String) (l : List String) (sep : String) :
    ∃ tail, stringsJoin (a :: l) sep = a ++ tail := by
  cases l with
  | nil => exact ⟨"", by simp [stringsJoin]⟩
  | cons b rest =>
    exact ⟨sep ++ stringsJoin (b :: rest) sep, by simp [stringsJoin, String.append_assoc]⟩

/-- With tag names given, the statement reads: select clause, joins, " WHERE ",
the `IN` clause with one `?` per tag name, and a tail. -/
theorem buildQuery_query_tags (f : ProblemFilter) (h : f.Tags.length > 0) :
    ∃ tail, (buildQuery (some f)).query =
      selectClause ++ joinClause ++ " WHERE " ++
        ("t.name IN (" ++ stringsJoin (List.replicate f.Tags.length "?") "," ++ ")") ++ tail := by
  have hcl : ∃ others, clausesOf f = (inClause f.Tags.length, f.Tags) :: others := by
    unfold clausesOf
    rw [if_pos h]
    exact ⟨_, by simp only [List.singleton_append, List.cons_append, List.append_assoc]; rfl⟩
  obtain ⟨others, hcl⟩ := hcl
  rw [buildQuery_eq]
  simp only [hcl, List.length_cons, gt_iff_lt, Nat.zero_lt_succ, if_true, h, List.map_cons]
  obtain ⟨t1, ht1⟩ := stringsJoin_cons (inClause f.Tags.length)
    (others.map (fun c => c.1)) " AND "
  rw [ht1]
  exact ⟨t1 ++ orderClause, by simp only [String.append_assoc, inClause]⟩

end QueryLemmas

section TagFilter

open database models Repository

/-- The scanning loop of `GetProblems` never fails and keeps the row order. -/
theorem scanProblems_eq (db : DB) (rows : List ProblemRow) :
    scanProblems db rows =
      .ok (rows.map (fun r => scanProblem r ((queryTagsForProblem db r.id).map scanTag))) := by
  induction rows with
  | nil => rfl
  | cons r rest ih => simp [scanProblems, getTagsForProblem, ih]

/-- A statement with no more parameters than SQLite admits is run, and every
row it returns is scanned together with its tags. -/
theorem getProblems_of_le (db : DB) (filter : Option ProblemFilter)
    (hargs : (buildQuery filter).args.length ≤ sqliteMaxVariableNumber) :
    GetProblems db filter =
      .ok ((queryProblems db filter).map (fun r =>
        scanProblem r ((queryTagsForProblem db r.id).map scanTag))) := by
  unfold GetProblems
  rw [if_neg (by omega)]
  exact scanProblems_eq _ _

/-- A statement with more parameters than SQLite admits is refused. -/
theorem getProblems_of_gt (db : DB) (filter : Option ProblemFilter)
    (hargs : (buildQuery filter).args.length > sqliteMaxVariableNumber) :
    GetProblems db filter = .error (Err.sqlite "too many SQL variables") := by
  unfold GetProblems
  rw [if_pos hargs]

/-- The statement selects no row twice. -/
theorem queryProblems_nodup (db : DB) (filter : Option ProblemFilter) :
    (queryProblems db filter).Nodup := by
  unfold queryProblems
  exact (List.perm_insertionSort _ _).nodup_iff.2 (List.nodup_dedup _)

/-- The rows of the joined `FROM` clause. -/
theorem mem_fromClause_join (db : DB) (r : JoinedRow) :
    r ∈ fromClause db true ↔
      r.p ∈ db.problems ∧ ∃ t, r.t = some t ∧ t ∈ db.tags ∧
        ∃ pt ∈ db.problem_tags, pt.problem_id = r.p.id ∧ pt.tag_id = t.id := by
  simp only [fromClause, if_true, List.mem_flatMap, List.mem_filter, List.mem_map,
    decide_eq_true_eq]
  constructor
  · rintro ⟨p, hp, pt, ⟨hpt, hpid⟩, t, ⟨ht, htid⟩, rfl⟩
    exact ⟨hp, t, rfl, ht, pt, hpt, hpid.symm, htid⟩
  · rintro ⟨hp, t, hrt, ht, pt, hpt, hpid, htid⟩
    refine ⟨r.p, hp, pt, ⟨hpt, hpid.symm⟩, t, ⟨ht, htid⟩, ?_⟩
    cases r
    simp_all

/-- Rows that `GetProblems` selects under a filter that only lists tag names:
the problems carrying at least one of the names. -/
theorem mem_queryProblems_tags (db : DB) (f : ProblemFilter)
    (htags : f.Tags ≠ []) (hd : f.Difficulty = "") (hp : f.Platform = "")
    (hq : f.SearchQuery = "") (hs : f.StartDate = "") (he : f.EndDate = "")
    (r : ProblemRow) :
    r ∈ queryProblems db (some f) ↔ r ∈ db.problems ∧ ∃ n ∈ f.Tags, hasTag db r.id n := by
  have hlen : f.Tags.length > 0 := List.length_pos.2 htags
  unfold queryProblems
  rw [(List.perm_insertionSort _ _).mem_iff, List.mem_dedup]
  simp only [hlen, decide_True, List.mem_map, List.mem_filter, mem_fromClause_join,
    whereClause, hd, hp, hq, hs, he, ne_eq, not_true_eq_false, if_false, if_true,
    Bool.and_true, condTagNameIn, hasTag]
  constructor
  · rintro ⟨jr, ⟨⟨hjp, t, hjt, ht, pt, hpt, hpid, htid⟩, hw⟩, rfl⟩
    rw [hjt] at hw
    simp only [decide_eq_true_eq] at hw
    exact ⟨hjp, t.name, hw, t, ht, rfl, pt, hpt, hpid, htid⟩
  · rintro ⟨hr, n, hn, t, ht, rfl, pt, hpt, hpid, htid⟩
    refine ⟨{ p := r, t := some t }, ⟨⟨hr, t, rfl, ht, pt, hpt, hpid, htid⟩, ?_⟩, rfl⟩
    simpa using hn

/-- C4 as stated fails: a filter that lists 32767 tag names, "Array" among
them, is refused by SQLite for its number of parameters, so `GetProblems`
returns an error where the claim has it return the problem tagged "Array". -/
theorem C4_too_many_tag_names_fails :
    GetProblems sampleDB (some { emptyFilter with Tags := List.replicate 32767 "Array" }) =
      .error (Err.sqlite "too many SQL variables") ∧
    hasTag sampleDB 1 "Array" ∧ "Array" ∈ List.replicate 32767 "Array" := by
  refine ⟨?_, ?_, List.mem_replicate.2 ⟨by decide, rfl⟩⟩
  · apply getProblems_of_gt
    rw [buildQuery_args]
    show (List.replicate 32767 "Array" ++ _ ++ _ ++ _ ++ _ ++ _).length > _
    simp only [List.length_append, List.length_replicate]
    unfold sqliteMaxVariableNumber
    omega
  · exact ⟨{ id := 1, name := "Array", created_at := "t1" }, by decide, rfl,
      { problem_id := 1, tag_id := 1 }, by decide, rfl, rfl⟩

/-- C4, amended: on a database that satisfies the schema constraints, under a
filter that only lists tag names, at least one and at most 32766,
`GetProblems` succeeds; the problems it returns are exactly the stored problems
that carry at least one of the listed names (the union over the names), each
with all its columns and all its tags; and no problem id occurs twice in the
result, however many of the names a problem carries. -/
theorem C4_tag_filter_is_union_without_duplicates (db : DB) (f : ProblemFilter)
    (hdb : Consistent db)
    (htags : f.Tags ≠ []) (hmax : f.Tags.length ≤ 32766)
    (hd : f.Difficulty = "") (hp : f.Platform = "")
    (hq : f.SearchQuery = "") (hs : f.StartDate = "") (he : f.EndDate = "") :
    ∃ res : List Problem,
      GetProblems db (some f) = .ok res ∧
      (∀ p : Problem, p ∈ res ↔
        ∃ r ∈ db.problems, (∃ n ∈ f.Tags, hasTag db r.id n) ∧
          p = { ID := r.id, Name := r.name, Link := r.link, Platform := r.platform,
                Difficulty := r.difficulty, SolveTime := r.solve_time, Notes := r.notes,
                CodeSnippet := r.code_snippet,
                Tags := (queryTagsForProblem db r.id).map (fun t =>
                  { ID := t.id, Name := t.name, CreatedAt := t.created_at }),
                CreatedAt := r.created_at, UpdatedAt := r.updated_at }) ∧
      (res.map (fun p => p.ID)).Nodup := by
  have hargs : (buildQuery (some f)).args.length ≤ sqliteMaxVariableNumber := by
    rw [buildQuery_args]
    simp [hd, hp, hq, hs, he, sqliteMaxVariableNumber, hmax]
  refine ⟨_, getProblems_of_le db (some f) hargs, ?_, ?_⟩
  · intro p
    rw [List.mem_map]
    constructor
    · rintro ⟨r, hr, rfl⟩
      obtain ⟨hr1, hr2⟩ := (mem_queryProblems_tags db f htags hd hp hq hs he r).1 hr
      exact ⟨r, hr1, hr2, rfl⟩
    · rintro ⟨r, hr1, hr2, rfl⟩
      exact ⟨r, (mem_queryProblems_tags db f htags hd hp hq hs he r).2 ⟨hr1, hr2⟩, rfl⟩
  · rw [List.map_map]
    refine List.Nodup.map_on ?_ (queryProblems_nodup db (some f))
    intro x hx y hy hxy
    have hx1 := ((mem_queryProblems_tags db f htags hd hp hq hs he x).1 hx).1
    have hy1 := ((mem_queryProblems_tags db f htags hd hp hq hs he y).1 hy).1
    exact List.inj_on_of_nodup_map hdb.1 hx1 hy1 hxy

/-- C4 applied to the sample database and the names "Array", "Hash Map", both
carried by the one stored problem. -/
theorem C4_tag_filter_is_union_without_duplicates_witness :
    ∃ res : List Problem,
      GetProblems sampleDB (some { emptyFilter with Tags := ["Array", "Hash Map"] }) = .ok res ∧
      (∀ p : Problem, p ∈ res ↔
        ∃ r ∈ sampleDB.problems, (∃ n ∈ ["Array", "Hash Map"], hasTag sampleDB r.id n) ∧
          p = { ID := r.id, Name := r.name, Link := r.link, Platform := r.platform,
                Difficulty := r.difficulty, SolveTime := r.solve_time, Notes := r.notes,
                CodeSnippet := r.code_snippet,
                Tags := (queryTagsForProblem sampleDB r.id).map (fun t =>
                  { ID := t.id, Name := t.name, CreatedAt := t.created_at }),
                CreatedAt := r.created_at, UpdatedAt := r.updated_at }) ∧
      (res.map (fun p => p.ID)).Nodup :=
  C4_tag_filter_is_union_without_duplicates sampleDB
    { emptyFilter with Tags := ["Array", "Hash Map"] }
    (by decide) (by decide) (by decide) (by decide) (by decide) (by decide) (by decide)
    (by decide)

end TagFilter

section Search

open database models Repository

theorem anySuffix_eq_true (f : List Char → Bool) (s : List Char) :
    anySuffix f s = true ↔ ∃ pre post, s = pre ++ post ∧ f post = true := by
  induction s with
  | nil =>
    simp only [anySuffix]
    constructor
    · intro h; exact ⟨[], [], rfl, h⟩
    · rintro ⟨pre, post, h, hf⟩
      have : post = [] := by
        have := congrArg List.length h
        simp only [List.length_nil, List.length_append] at this
        exact List.length_eq_zero.1 (by omega)
      rwa [this] at hf
  | cons c s ih =>
    simp only [anySuffix, Bool.or_eq_true, ih]
    constructor
    · rintro (h | ⟨pre, post, rfl, hf⟩)
      · exact ⟨[], c :: s, rfl, h⟩
      · exact ⟨c :: pre, post, rfl, hf⟩
    · rintro ⟨pre, post, h, hf⟩
      cases pre with
      | nil =>
        left
        simp only [List.nil_append] at h
        rwa [h]
      | cons a pre =>
        right
        simp only [List.cons_append, List.cons.injEq] at h
        exact ⟨pre, post, h.2, hf⟩

theorem sqlLike_percent_cons (ps s : List Char) :
    sqlLike ('%' :: ps) s = anySuffix (sqlLike ps) s := by
  simp [sqlLike]

theorem sqlLike_plain_nil (c : Char) (ps : List Char) (h1 : c ≠ '%') :
    sqlLike (c :: ps) [] = false := by
  simp [sqlLike, h1]

theorem sqlLike_plain_cons (c d : Char) (ps s : List Char) (h1 : c ≠ '%') (h2 : c ≠ '_') :
    sqlLike (c :: ps) (d :: s) = (asciiLower c == asciiLower d && sqlLike ps s) := by
  simp [sqlLike, h1, h2]

/-- A pattern that starts with plain characters matches exactly the texts that
start with those characters up to ASCII case and go on to match the rest. -/
theorem sqlLike_plain_append (q rest : List Char)
    (hq : ∀ c ∈ q, c ≠ '%' ∧ c ≠ '_') (s : List Char) :
    sqlLike (q ++ rest) s = true ↔
      ∃ mid post, s = mid ++ post ∧ mid.map asciiLower = q.map asciiLower ∧
        sqlLike rest post = true := by
  induction q generalizing s with
  | nil =>
    simp only [List.nil_append, List.map_nil, List.map_eq_nil_iff]
    constructor
    · intro h; exact ⟨[], s, rfl, rfl, h⟩
    · rintro ⟨mid, post, rfl, rfl, h⟩; exact h
  | cons c q ih =>
    have hc := hq c (List.mem_cons_self _ _)
    have hq2 : ∀ x ∈ q, x ≠ '%' ∧ x ≠ '_' := fun x hx => hq x (List.mem_cons_of_mem _ hx)
    cases s with
    | nil =>
      rw [List.cons_append, sqlLike_plain_nil c _ hc.1]
      constructor
      · intro h; exact absurd h (by simp)
      · rintro ⟨mid, post, h, hm, _⟩
        cases mid with
        | nil => simp at hm
        | cons a m => simp at h
    | cons d s =>
      rw [List.cons_append, sqlLike_plain_cons c d _ s hc.1 hc.2, Bool.and_eq_true,
        beq_iff_eq, ih hq2 s]
      constructor
      · rintro ⟨hcd, mid, post, rfl, hm, hr⟩
        exact ⟨d :: mid, post, rfl, by simp [hm, hcd], hr⟩
      · rintro ⟨mid, post, h, hm, hr⟩
        cases mid with
        | nil => simp at hm
        | cons a m =>
          simp only [List.cons_append, List.cons.injEq] at h
          simp only [List.map_cons, List.cons.injEq] at hm
          obtain ⟨rfl, rfl⟩ := h
          exact ⟨hm.1.symm, m, post, rfl, hm.2, hr⟩

theorem sqlLike_percent (s : List Char) : sqlLike ['%'] s = true := by
  rw [sqlLike_percent_cons, anySuffix_eq_true]
  exact ⟨s, [], by simp, rfl⟩

/-- The pattern `%q%` for a `q` free of `%` and `_` is a substring search up to
ASCII case. -/
theorem sqlLike_search (q name : String) (hq : ∀ c ∈ q.data, c ≠ '%' ∧ c ≠ '_') :
    sqlLike ("%" ++ q ++ "%").data name.data = true ↔ ContainsIgnoringCase name q := by
  have hdata : ("%" ++ q ++ "%").data = '%' :: (q.data ++ ['%']) := by
    simp [String.data_append]
  rw [hdata, sqlLike_percent_cons, anySuffix_eq_true]
  unfold ContainsIgnoringCase
  constructor
  · rintro ⟨pre, tail, h, hl⟩
    obtain ⟨mid, post, rfl, hm, _⟩ := (sqlLike_plain_append q.data ['%'] hq tail).1 hl
    exact ⟨pre, mid, post, by simp [h], hm⟩
  · rintro ⟨pre, mid, post, h, hm⟩
    refine ⟨pre, mid ++ post, by simp [h], ?_⟩
    exact (sqlLike_plain_append q.data ['%'] hq _).2 ⟨mid, post, rfl, hm, sqlLike_percent _⟩

/-- On a pattern `%q%` within the length limit, for a `q` free of `%`, `_` and
NUL, the condition `p.name LIKE ?` is a substring search, up to ASCII case, in
the name cut at its first NUL. -/
theorem condNameLike_search (q name : String)
    (hq : ∀ c ∈ q.data, c ≠ '%' ∧ c ≠ '_' ∧ c ≠ Char.ofNat 0)
    (hlen : ("%" ++ q ++ "%").utf8ByteSize ≤ sqliteMaxLikePatternLength) :
    condNameLike ("%" ++ q ++ "%") name = true ↔ ContainsIgnoringCase (cutAtNul name) q := by
  have hpat : upToNul ("%" ++ q ++ "%").data = ("%" ++ q ++ "%").data := by
    unfold upToNul
    rw [List.takeWhile_eq_self_iff]
    intro c hc
    simp only [String.data_append, List.mem_append] at hc
    have h0 : ∀ x ∈ "%".data, x ≠ Char.ofNat 0 := by decide
    rcases hc with (hc | hc) | hc
    · simpa using h0 c hc
    · simpa using (hq c hc).2.2
    · simpa using h0 c hc
  unfold condNameLike
  rw [if_neg (by omega), hpat]
  exact sqlLike_search q (cutAtNul name) (fun c hc => ⟨(hq c hc).1, (hq c hc).2.1⟩)

/-- Rows that `GetProblems` selects under a filter that only sets the search
text. -/
theorem mem_queryProblems_search (db : DB) (f : ProblemFilter)
    (hq : f.SearchQuery ≠ "") (ht : f.Tags = []) (hd : f.Difficulty = "")
    (hp : f.Platform = "") (hs : f.StartDate = "") (he : f.EndDate = "")
    (r : ProblemRow) :
    r ∈ queryProblems db (some f) ↔
      r ∈ db.problems ∧ condNameLike ("%" ++ f.SearchQuery ++ "%") r.name = true := by
  unfold queryProblems
  rw [(List.perm_insertionSort _ _).mem_iff, List.mem_dedup]
  simp only [ht, List.length_nil, gt_iff_lt, lt_self_iff_false, decide_False, fromClause,
    Bool.false_eq_true, if_false, List.mem_map, List.mem_filter, whereClause, hd, hp, hs, he,
    hq, ne_eq, not_true_eq_false, not_false_eq_true, if_true, Bool.and_true, Bool.true_and]
  constructor
  · rintro ⟨jr, ⟨⟨p, hp, rfl⟩, hw⟩, rfl⟩
    exact ⟨hp, hw⟩
  · rintro ⟨hr, hw⟩
    exact ⟨{ p := r, t := none }, ⟨⟨r, hr, rfl⟩, hw⟩, rfl⟩

/-- C5 as stated fails: the search text "_" selects the stored problem "Two Sum"
although its name does not contain the character `_`, because `LIKE` reads
`_` as "any one character". -/
theorem C5_underscore_matches_any_name :
    GetProblems sampleDB (some { emptyFilter with SearchQuery := "_" }) =
      .ok [{ ID := 1, Name := "Two Sum", Link := "", Platform := "LeetCode",
             Difficulty := "Easy", SolveTime := 30, Notes := "", CodeSnippet := "",
             Tags := [{ ID := 1, Name := "Array", CreatedAt := "t1" },
                      { ID := 2, Name := "Hash Map", CreatedAt := "t1" }],
             CreatedAt := "t1", UpdatedAt := "t1" }] ∧
    ¬ ContainsIgnoringCase "Two Sum" "_" := by
  refine ⟨by decide, ?_⟩
  rintro ⟨pre, mid, post, h1, h2⟩
  have hmid : ∃ c, mid = [c] ∧ asciiLower c = '_' := by
    cases mid with
    | nil => simp at h2
    | cons c m =>
      cases m with
      | nil => exact ⟨c, rfl, by simpa using h2⟩
      | cons b m => simp at h2
  obtain ⟨c, rfl, hc⟩ := hmid
  have hmem : c ∈ "Two Sum".data := by rw [h1]; simp
  have hall : ∀ x ∈ "Two Sum".data, asciiLower x ≠ '_' := by decide
  exact hall c hmem hc

/-- A search text that starts with a NUL character gives the pattern `%` as far
as `LIKE` reads it, and selects every stored problem. -/
theorem search_text_after_nul_is_not_read :
    GetProblems sampleDB (some { emptyFilter with
        SearchQuery := String.mk [Char.ofNat 0, 'z', 'z', 'z'] }) =
      GetProblems sampleDB none := by
  decide

/-- C5, amended: for a non-empty search text `q` that contains none of `%`, `_`
and NUL and whose pattern `%q%` is at most 50000 bytes long, `GetProblems` with
only `SearchQuery` set succeeds, and the problems it returns are exactly the
stored problems whose name, cut at its first NUL character if it has one,
contains `q` as a substring up to the case of ASCII letters, each with all
its columns and all its tags; only the name decides. -/
theorem C5_search_is_substring_match (db : DB) (q : String)
    (hq : q ≠ "") (hplain : ∀ c ∈ q.data, c ≠ '%' ∧ c ≠ '_' ∧ c ≠ Char.ofNat 0)
    (hlen : ("%" ++ q ++ "%").utf8ByteSize ≤ 50000) :
    ∃ res : List Problem,
      GetProblems db (some { emptyFilter with SearchQuery := q }) = .ok res ∧
      ∀ p : Problem, p ∈ res ↔
        ∃ r ∈ db.problems, ContainsIgnoringCase (cutAtNul r.name) q ∧
          p = { ID := r.id, Name := r.name, Link := r.link, Platform := r.platform,
                Difficulty := r.difficulty, SolveTime := r.solve_time, Notes := r.notes,
                CodeSnippet := r.code_snippet,
                Tags := (queryTagsForProblem db r.id).map (fun t =>
                  { ID := t.id, Name := t.name, CreatedAt := t.created_at }),
                CreatedAt := r.created_at, UpdatedAt := r.updated_at } := by
  have hargs : (buildQuery (some { emptyFilter with SearchQuery := q })).args.length ≤
      sqliteMaxVariableNumber := by
    rw [buildQuery_args]
    simp [emptyFilter, hq, sqliteMaxVariableNumber]
  refine ⟨_, getProblems_of_le db _ hargs, ?_⟩
  intro p
  rw [List.mem_map]
  constructor
  · rintro ⟨r, hr, rfl⟩
    obtain ⟨hr1, hr2⟩ := (mem_queryProblems_search db _ hq rfl rfl rfl rfl rfl r).1 hr
    exact ⟨r, hr1, (condNameLike_search q r.name hplain hlen).1 hr2, rfl⟩
  · rintro ⟨r, hr1, hr2, rfl⟩
    exact ⟨r, (mem_queryProblems_search db _ hq rfl rfl rfl rfl rfl r).2
      ⟨hr1, (condNameLike_search q r.name hplain hlen).2 hr2⟩, rfl⟩

/-- C5 applied to the sample database and the search text "sum". -/
theorem C5_search_is_substring_match_witness :
    ∃ res : List Problem,
      GetProblems sampleDB (some { emptyFilter with SearchQuery := "sum" }) = .ok res ∧
      ∀ p : Problem, p ∈ res ↔
        ∃ r ∈ sampleDB.problems, ContainsIgnoringCase (cutAtNul r.name) "sum" ∧
          p = { ID := r.id, Name := r.name, Link := r.link, Platform := r.platform,
                Difficulty := r.difficulty, SolveTime := r.solve_time, Notes := r.notes,
                CodeSnippet := r.code_snippet,
                Tags := (queryTagsForProblem sampleDB r.id).map (fun t =>
                  { ID := t.id, Name := t.name, CreatedAt := t.created_at }),
                CreatedAt := r.created_at, UpdatedAt := r.updated_at } :=
  C5_search_is_substring_match sampleDB "sum" (by decide) (by decide) (by decide)

end Search

section QueryText

open database models Repository

/-- C6: two filters that set the same fields among difficulty, platform, search
text, start date and end date, and list the same number of tag names, yield
the same statement text; the values travel in the argument list only; the
generated text holds one `?` per tag name and one per field that is set; and
with tag names given it reads select clause, joins, " WHERE ", then the `IN`
clause, the one part that varies with the filter, which holds exactly as many
`?` as there are tag names, then a tail with one `?` per field that is set. -/
theorem C6_filter_values_never_in_query_text (f g : ProblemFilter)
    (ht : f.Tags.length = g.Tags.length)
    (hd : f.Difficulty = "" ↔ g.Difficulty = "")
    (hp : f.Platform = "" ↔ g.Platform = "")
    (hq : f.SearchQuery = "" ↔ g.SearchQuery = "")
    (hs : f.StartDate = "" ↔ g.StartDate = "")
    (he : f.EndDate = "" ↔ g.EndDate = "") :
    (buildQuery (some f)).query = (buildQuery (some g)).query ∧
    (buildQuery (some f)).args =
      f.Tags ++ (if f.Difficulty ≠ "" then [f.Difficulty] else []) ++
        (if f.Platform ≠ "" then [f.Platform] else []) ++
        (if f.SearchQuery ≠ "" then ["%" ++ f.SearchQuery ++ "%"] else []) ++
        (if f.StartDate ≠ "" then [f.StartDate] else []) ++
        (if f.EndDate ≠ "" then [f.EndDate] else []) ∧
    (inClause f.Tags.length).data.count '?' = f.Tags.length ∧
    (buildQuery (some f)).query.data.count '?' =
      f.Tags.length + (if f.Difficulty ≠ "" then 1 else 0) +
        (if f.Platform ≠ "" then 1 else 0) + (if f.SearchQuery ≠ "" then 1 else 0) +
        (if f.StartDate ≠ "" then 1 else 0) + (if f.EndDate ≠ "" then 1 else 0) ∧
    (f.Tags.length > 0 →
      ∃ tail, (buildQuery (some f)).query =
        selectClause ++ joinClause ++ " WHERE " ++
          ("t.name IN (" ++ stringsJoin (List.replicate f.Tags.length "?") "," ++ ")") ++
          tail ∧
        ("t.name IN (" ++ stringsJoin (List.replicate f.Tags.length "?") "," ++ ")").data.count
          '?' = f.Tags.length ∧
        tail.data.count '?' =
          (if f.Difficulty ≠ "" then 1 else 0) +
            (if f.Platform ≠ "" then 1 else 0) + (if f.SearchQuery ≠ "" then 1 else 0) +
            (if f.StartDate ≠ "" then 1 else 0) + (if f.EndDate ≠ "" then 1 else 0)) := by
  have hcount : (buildQuery (some f)).query.data.count '?' =
      f.Tags.length + (if f.Difficulty ≠ "" then 1 else 0) +
        (if f.Platform ≠ "" then 1 else 0) + (if f.SearchQuery ≠ "" then 1 else 0) +
        (if f.StartDate ≠ "" then 1 else 0) + (if f.EndDate ≠ "" then 1 else 0) := by
    rw [count_query_some, buildQuery_args]
    simp only [List.length_append]
    split_ifs <;> simp
  refine ⟨buildQuery_query_congr f g ht hd hp hq hs he, buildQuery_args f, count_inClause _,
    hcount, ?_⟩
  intro hpos
  obtain ⟨tail, htail⟩ := buildQuery_query_tags f hpos
  refine ⟨tail, htail, count_inClause _, ?_⟩
  have hs0 : selectClause.data.count '?' = 0 := by decide
  have hj0 : joinClause.data.count '?' = 0 := by decide
  have hw0 : " WHERE ".data.count '?' = 0 := by decide
  have hin : ("t.name IN (" ++ stringsJoin (List.replicate f.Tags.length "?") "," ++
      ")").data.count '?' = f.Tags.length := count_inClause _
  rw [htail] at hcount
  simp only [String.data_append, List.count_append] at hcount hin
  simp only [hs0, hj0, hw0] at hcount
  omega

/-- C6 applied to a harmless filter and to one of the same shape whose values
carry SQL text. -/
theorem C6_filter_values_never_in_query_text_witness :
    (buildQuery (some { emptyFilter with
        Tags := ["Array", "Graph"], Difficulty := "Easy", SearchQuery := "sum" })).query =
      (buildQuery (some { emptyFilter with
        Tags := ["x) OR (1=1", "y"], Difficulty := "Hard; DROP TABLE problems",
        SearchQuery := "%" })).query ∧
    (buildQuery (some { emptyFilter with
        Tags := ["Array", "Graph"], Difficulty := "Easy", SearchQuery := "sum" })).args =
      ["Array", "Graph", "Easy", "%sum%"] ∧
    (buildQuery (some { emptyFilter with
        Tags := ["Array", "Graph"], Difficulty := "Easy",
        SearchQuery := "sum" })).query.data.count '?' = 4 := by
  obtain ⟨h1, h2, _, h4, _⟩ := C6_filter_values_never_in_query_text
    { emptyFilter with Tags := ["Array", "Graph"], Difficulty := "Easy", SearchQuery := "sum" }
    { emptyFilter with
      Tags := ["x) OR (1=1", "y"], Difficulty := "Hard; DROP TABLE problems",
      SearchQuery := "%" }
    (by decide) (by decide) (by decide) (by decide) (by decide) (by decide)
  exact ⟨h1, h2, h4⟩

end QueryText

section Float64

open database

/-- Rounding to nearest leaves a distance of at most one half, and at exactly
one half the result is even. -/
theorem divRoundHalfEven_spec (a n : Nat) (hn : 0 < n) :
    2 * (divRoundHalfEven a n * n) ≤ 2 * a + n ∧
    2 * a ≤ 2 * (divRoundHalfEven a n * n) + n ∧
    ((2 * (divRoundHalfEven a n * n) = 2 * a + n ∨
        2 * a = 2 * (divRoundHalfEven a n * n) + n) → divRoundHalfEven a n % 2 = 0) := by
  have h := Nat.div_add_mod a n
  have hr := Nat.mod_lt a hn
  have e1 : (a / n + 1) * n = n * (a / n) + n := by ring
  have e2 : a / n * n = n * (a / n) := by ring
  unfold divRoundHalfEven
  simp only
  split_ifs with h1 h2 h3
  · rw [e2]; omega
  · rw [e1]; omega
  · rw [e2]; omega
  · rw [e1]
    refine ⟨by omega, by omega, fun _ => by omega⟩

/-- The exponent found by halving brackets its argument between two powers of 2. -/
theorem floorLog2Aux_spec (fuel : Nat) :
    ∀ n : Nat, n ≤ fuel → n ≠ 0 →
      2 ^ floorLog2Aux fuel n ≤ n ∧ n < 2 ^ (floorLog2Aux fuel n + 1) := by
  induction fuel with
  | zero => intro n h0 hn; omega
  | succ fuel ih =>
    intro n hle hn
    unfold floorLog2Aux
    split_ifs with h2
    · obtain ⟨h1, h3⟩ := ih (n / 2) (by omega) (by omega)
      rw [pow_succ] at h3 ⊢
      rw [pow_succ]
      constructor <;> omega
    · have : n = 1 := by omega
      subst this
      simp

theorem floorLog2_spec (n : Nat) (hn : n ≠ 0) :
    2 ^ floorLog2 n ≤ n ∧ n < 2 ^ (floorLog2 n + 1) :=
  floorLog2Aux_spec n n (Nat.le_refl n) hn

/-- The scaled quotient lies between `2 ^ 52` and `2 ^ 53`. -/
theorem scaled_quotient_bounds (a n : Nat) (hn : 0 < n) (hna : n ≤ a) (ha : a < 2 ^ 53) :
    floorLog2 (a / n) ≤ 52 ∧
    2 ^ 52 * n ≤ a * 2 ^ (52 - floorLog2 (a / n)) ∧
    a * 2 ^ (52 - floorLog2 (a / n)) < 2 ^ 53 * n := by
  have hq : a / n ≠ 0 := by
    have := (Nat.le_div_iff_mul_le hn).2 (by simpa using hna : 1 * n ≤ a)
    omega
  have hlt : a / n < 2 ^ 53 := lt_of_le_of_lt (Nat.div_le_self a n) ha
  obtain ⟨hlo, hhi⟩ := floorLog2_spec (a / n) hq
  have he : floorLog2 (a / n) < 53 :=
    (Nat.pow_lt_pow_iff_right (by norm_num : 1 < 2)).1 (lt_of_le_of_lt hlo hlt)
  have hlo2 : 2 ^ floorLog2 (a / n) * n ≤ a := (Nat.le_div_iff_mul_le hn).1 hlo
  have hhi2 : a < 2 ^ (floorLog2 (a / n) + 1) * n := (Nat.div_lt_iff_lt_mul hn).1 hhi
  have hp1 : 2 ^ floorLog2 (a / n) * 2 ^ (52 - floorLog2 (a / n)) = 2 ^ 52 := by
    rw [← pow_add]; congr 1; omega
  have hp2 : 2 ^ (floorLog2 (a / n) + 1) * 2 ^ (52 - floorLog2 (a / n)) = 2 ^ 53 := by
    rw [← pow_add]; congr 1; omega
  refine ⟨by omega, ?_, ?_⟩
  · calc 2 ^ 52 * n = (2 ^ floorLog2 (a / n) * n) * 2 ^ (52 - floorLog2 (a / n)) := by
          rw [← hp1]; ring
      _ ≤ a * 2 ^ (52 - floorLog2 (a / n)) := Nat.mul_le_mul_right _ hlo2
  · calc a * 2 ^ (52 - floorLog2 (a / n))
        < (2 ^ (floorLog2 (a / n) + 1) * n) * 2 ^ (52 - floorLog2 (a / n)) :=
          Nat.mul_lt_mul_of_pos_right hhi2 (by positivity)
      _ = 2 ^ 53 * n := by rw [← hp2]; ring

/-- The `float64` quotient of two integers below `2 ^ 53`: a significand of 53
bits at the scale of the quotient, nearest to the exact quotient, even at a
tie, within a relative error of `2 ^ (-53)`. -/
theorem float64Div_spec (a n : Nat) (hn : 0 < n) (hna : n ≤ a) (ha : a < 2 ^ 53) :
    ∃ m : ℕ, float64Div a n = (m : ℚ) / 2 ^ (52 - floorLog2 (a / n)) ∧
      2 ^ 52 ≤ m ∧ m ≤ 2 ^ 53 ∧
      (∀ k : ℕ, |float64Div a n - (a : ℚ) / n| ≤
          |(k : ℚ) / 2 ^ (52 - floorLog2 (a / n)) - (a : ℚ) / n|) ∧
      (|float64Div a n - (a : ℚ) / n| = 1 / 2 ^ (52 - floorLog2 (a / n) + 1) → m % 2 = 0) ∧
      |float64Div a n - (a : ℚ) / n| ≤ (a : ℚ) / n / 2 ^ 53 := by
  obtain ⟨he, hlo, hhi⟩ := scaled_quotient_bounds a n hn hna ha
  generalize hs : 52 - floorLog2 (a / n) = s at hlo hhi
  obtain ⟨h1, h2, h3⟩ := divRoundHalfEven_spec (a * 2 ^ s) n hn
  have hdef : float64Div a n = (divRoundHalfEven (a * 2 ^ s) n : ℚ) / 2 ^ s := by
    unfold float64Div
    simp only [he, if_true, hs]
  generalize divRoundHalfEven (a * 2 ^ s) n = m at h1 h2 h3 hdef
  have hnq : (0 : ℚ) < n := by exact_mod_cast hn
  have hsq : (0 : ℚ) < 2 ^ s := by positivity
  have q1 : 2 * ((m : ℚ) * n) ≤ 2 * ((a : ℚ) * 2 ^ s) + n := by exact_mod_cast h1
  have q2 : 2 * ((a : ℚ) * 2 ^ s) ≤ 2 * ((m : ℚ) * n) + n := by exact_mod_cast h2
  have qlo : (2 : ℚ) ^ 52 * n ≤ (a : ℚ) * 2 ^ s := by exact_mod_cast hlo
  have hdiff : ∀ k : ℕ, (k : ℚ) / 2 ^ s - (a : ℚ) / n =
      ((k : ℚ) * n - (a : ℚ) * 2 ^ s) / (2 ^ s * n) := by
    intro k
    field_simp
    ring
  have habs : ∀ k : ℕ, |(k : ℚ) / 2 ^ s - (a : ℚ) / n| =
      |(k : ℚ) * n - (a : ℚ) * 2 ^ s| / (2 ^ s * n) := by
    intro k
    rw [hdiff k, abs_div, abs_of_pos (by positivity : (0 : ℚ) < 2 ^ s * n)]
  have hhalf : |(m : ℚ) * n - (a : ℚ) * 2 ^ s| ≤ (n : ℚ) / 2 := by
    rw [abs_le]
    constructor <;> linarith
  refine ⟨m, hdef, ?_, ?_, ?_, ?_, ?_⟩
  · by_contra hlt
    have hm : m + 1 ≤ 2 ^ 52 := by omega
    have := Nat.mul_le_mul_right n hm
    have e : (m + 1) * n = m * n + n := by ring
    omega
  · by_contra hgt
    have hm : 2 ^ 53 + 1 ≤ m := by omega
    have := Nat.mul_le_mul_right n hm
    have e : (2 ^ 53 + 1) * n = 2 ^ 53 * n + n := by ring
    omega
  · intro k
    rw [hdef, habs m, habs k]
    apply div_le_div_of_nonneg_right _ (by positivity : (0 : ℚ) ≤ 2 ^ s * n)
    by_cases hk : k = m
    · rw [hk]
    · have hone : (1 : ℚ) ≤ |(k : ℚ) - m| := by
        rcases Nat.lt_or_gt_of_ne hk with h | h
        · have : (k : ℚ) + 1 ≤ m := by exact_mod_cast h
          rw [abs_sub_comm, abs_of_nonneg (by linarith)]
          linarith
        · have : (m : ℚ) + 1 ≤ k := by exact_mod_cast h
          rw [abs_of_nonneg (by linarith)]
          linarith
      have hmul : (n : ℚ) ≤ |((k : ℚ) - m) * n| := by
        rw [abs_mul, abs_of_pos hnq]
        nlinarith
      have htri : |((k : ℚ) - m) * n| ≤
          |(k : ℚ) * n - (a : ℚ) * 2 ^ s| + |(m : ℚ) * n - (a : ℚ) * 2 ^ s| := by
        have : ((k : ℚ) - m) * n =
            ((k : ℚ) * n - (a : ℚ) * 2 ^ s) - ((m : ℚ) * n - (a : ℚ) * 2 ^ s) := by ring
        rw [this]
        exact abs_sub _ _
      linarith
  · intro htie
    apply h3
    rw [hdef, habs m, pow_succ, div_eq_div_iff (by positivity) (by positivity)] at htie
    have htie2 : 2 * |(m : ℚ) * n - (a : ℚ) * 2 ^ s| = n := by
      have h2s : (2 : ℚ) ^ s ≠ 0 := ne_of_gt hsq
      field_simp at htie
      nlinarith [htie, hsq]
    rcases abs_cases ((m : ℚ) * n - (a : ℚ) * 2 ^ s) with ⟨hab, _⟩ | ⟨hab, _⟩
    · left
      have : 2 * ((m : ℚ) * n) = 2 * ((a : ℚ) * 2 ^ s) + n := by rw [hab] at htie2; linarith
      exact_mod_cast this
    · right
      have : 2 * ((a : ℚ) * 2 ^ s) = 2 * ((m : ℚ) * n) + n := by rw [hab] at htie2; linarith
      exact_mod_cast this
  · rw [hdef, habs m]
    rw [div_div, div_le_div_iff₀ (by positivity) (by positivity)]
    have hnn : (0 : ℚ) ≤ |(m : ℚ) * n - (a : ℚ) * 2 ^ s| := abs_nonneg _
    nlinarith [hhalf, qlo, hnq, hsq, mul_pos hnq hsq]

/-- A list of positive integers has a sum of at least its length. -/
theorem length_le_sum_of_pos (xs : List Int) (h : ∀ x ∈ xs, 0 < x) :
    (xs.length : Int) ≤ xs.sum := by
  induction xs with
  | nil => simp
  | cons x rest ih =>
    have hx := h x (List.mem_cons_self _ _)
    have := ih (fun y hy => h y (List.mem_cons_of_mem _ hy))
    simp only [List.length_cons, List.sum_cons]
    push_cast
    omega

/-- Evaluation of `float64Div` from its exponent and its rounded significand. -/
theorem float64Div_eval (a n e m : Nat) (he : floorLog2 (a / n) = e) (hle : e ≤ 52)
    (hm : divRoundHalfEven (a * 2 ^ (52 - e)) n = m) :
    float64Div a n = (m : ℚ) / 2 ^ (52 - e) := by
  unfold float64Div
  simp only [he, hle, if_true, hm]

/-- Below `2 ^ 53` the conversion to `float64` is exact. -/
theorem float64OfNat_of_lt (a : Nat) (h : a < 2 ^ 53) : float64OfNat a = a := by
  unfold float64OfNat
  rw [if_pos h]

end Float64

section Statistics

open database models Repository

/-- C7 is refuted as stated: for the solve times 10, 20, 20 the average returned
by `GetStatistics` is the `float64` 16.666666666666668, that is
4691249611844267 / 2 ^ 48, and not the sum 50 of the solve times above 0
divided by their number 3. -/
theorem C7_average_is_rounded :
    ∃ stats, GetStatistics (dbWithSolveTimes [10, 20, 20]) = .ok stats ∧
      stats.AverageSolveTime = 4691249611844267 / 2 ^ 48 ∧
      recordedSolveTimes (dbWithSolveTimes [10, 20, 20]) = [10, 20, 20] ∧
      stats.AverageSolveTime ≠
        (((recordedSolveTimes (dbWithSolveTimes [10, 20, 20])).sum : Int) : ℚ) /
          (((recordedSolveTimes (dbWithSolveTimes [10, 20, 20])).length : ℕ) : ℚ) := by
  have h : queryAverageSolveTime (dbWithSolveTimes [10, 20, 20]) = float64Div 50 3 := rfl
  have hv : queryAverageSolveTime (dbWithSolveTimes [10, 20, 20]) =
      4691249611844267 / 2 ^ 48 := by
    rw [h, float64Div_eval 50 3 4 4691249611844267 (by decide) (by decide) (by decide)]
    norm_num
  have hr : recordedSolveTimes (dbWithSolveTimes [10, 20, 20]) = [10, 20, 20] := by decide
  refine ⟨_, rfl, hv, hr, ?_⟩
  show queryAverageSolveTime (dbWithSolveTimes [10, 20, 20]) ≠ _
  rw [hv, hr]
  norm_num

/-- C7, amended: when the solve times above 0 sum to less than `2 ^ 53`,
`GetStatistics` succeeds; its average solve time is 0 when no problem has a
solve time above 0; otherwise it is the `float64` nearest to the sum of the
solve times above 0 divided by their number: a significand `m` of 53 bits at
the scale of the quotient, no further from the quotient than any other
multiple of that scale, even at a tie, within a relative error of `2 ^ (-53)`,
and equal to the quotient when the quotient is itself a multiple of the
scale; the solve times 30, 0, 45 give 37.5. -/
theorem C7_average_solve_time_excludes_unrecorded (db : DB)
    (hsum : (recordedSolveTimes db).sum < 2 ^ 53) :
    ∃ stats, GetStatistics db = .ok stats ∧
      (recordedSolveTimes db = [] → stats.AverageSolveTime = 0) ∧
      (recordedSolveTimes db ≠ [] →
        ∃ m : ℕ,
          stats.AverageSolveTime =
            (m : ℚ) / 2 ^ (52 - floorLog2
              (Int.toNat (recordedSolveTimes db).sum / (recordedSolveTimes db).length)) ∧
          2 ^ 52 ≤ m ∧ m ≤ 2 ^ 53 ∧
          (∀ k : ℕ,
            |stats.AverageSolveTime -
              (((recordedSolveTimes db).sum : Int) : ℚ) /
                (((recordedSolveTimes db).length : ℕ) : ℚ)| ≤
            |(k : ℚ) / 2 ^ (52 - floorLog2
                (Int.toNat (recordedSolveTimes db).sum / (recordedSolveTimes db).length)) -
              (((recordedSolveTimes db).sum : Int) : ℚ) /
                (((recordedSolveTimes db).length : ℕ) : ℚ)|) ∧
          (|stats.AverageSolveTime -
              (((recordedSolveTimes db).sum : Int) : ℚ) /
                (((recordedSolveTimes db).length : ℕ) : ℚ)| =
            1 / 2 ^ (52 - floorLog2
                (Int.toNat (recordedSolveTimes db).sum / (recordedSolveTimes db).length) + 1) →
            m % 2 = 0) ∧
          |stats.AverageSolveTime -
              (((recordedSolveTimes db).sum : Int) : ℚ) /
                (((recordedSolveTimes db).length : ℕ) : ℚ)| ≤
            (((recordedSolveTimes db).sum : Int) : ℚ) /
                (((recordedSolveTimes db).length : ℕ) : ℚ) / 2 ^ 53 ∧
          ((∃ k : ℕ,
              (((recordedSolveTimes db).sum : Int) : ℚ) /
                (((recordedSolveTimes db).length : ℕ) : ℚ) =
              (k : ℚ) / 2 ^ (52 - floorLog2
                (Int.toNat (recordedSolveTimes db).sum / (recordedSolveTimes db).length))) →
            stats.AverageSolveTime =
              (((recordedSolveTimes db).sum : Int) : ℚ) /
                (((recordedSolveTimes db).length : ℕ) : ℚ))) ∧
      queryAverageSolveTime (dbWithSolveTimes [30, 0, 45]) = 37.5 := by
  have hq : queryAverageSolveTime db = (sqlAvg (recordedSolveTimes db)).getD 0 := rfl
  have hall : ∀ x ∈ recordedSolveTimes db, 0 < x := by
    intro x hx
    obtain ⟨r, hr, rfl⟩ := List.mem_map.1 hx
    simpa using (List.mem_filter.1 hr).2
  generalize recordedSolveTimes db = xs at hsum hq hall
  refine ⟨_, rfl, ?_, ?_, ?_⟩
  · intro hnil
    show queryAverageSolveTime db = 0
    rw [hq, hnil]
    rfl
  · intro hne
    show ∃ m : ℕ, queryAverageSolveTime db = _ ∧ _
    have hlen := length_le_sum_of_pos _ hall
    have hposlen : 0 < xs.length := List.length_pos.2 hne
    have hsq : sqlAvg xs =
        some (float64Div (float64OfNat (Int.toNat xs.sum)) (float64OfNat xs.length)) := by
      cases xs with
      | nil => exact absurd rfl hne
      | cons x rest => rfl
    generalize xs.sum = S at hsum hlen hsq
    have hSnn : 0 ≤ S := by omega
    obtain ⟨a, rfl⟩ := Int.eq_ofNat_of_zero_le hSnn
    have ha : a < 2 ^ 53 := by exact_mod_cast hsum
    have hna : xs.length ≤ a := by exact_mod_cast hlen
    have hval : queryAverageSolveTime db = float64Div a xs.length := by
      rw [hq, hsq, Int.toNat_ofNat, float64OfNat_of_lt a ha,
        float64OfNat_of_lt xs.length (lt_of_le_of_lt hna ha)]
      rfl
    obtain ⟨m, h1, h2, h3, h4, h5, h6⟩ := float64Div_spec a xs.length hposlen hna ha
    rw [hval]
    simp only [Int.toNat_ofNat, Int.cast_natCast]
    refine ⟨m, h1, h2, h3, h4, h5, h6, ?_⟩
    rintro ⟨k, hk⟩
    have := h4 k
    rw [← hk, sub_self, abs_zero] at this
    exact sub_eq_zero.1 (abs_eq_zero.1 (le_antisymm this (abs_nonneg _)))
  · have h : queryAverageSolveTime (dbWithSolveTimes [30, 0, 45]) = float64Div 75 2 := rfl
    rw [h, float64Div_eval 75 2 5 (75 * 2 ^ 46) (by decide) (by decide) (by decide)]
    norm_num

/-- C7 applied to the solve times 30, 0, 45. -/
theorem C7_average_solve_time_excludes_unrecorded_witness :
    (recordedSolveTimes (dbWithSolveTimes [30, 0, 45])).sum < 2 ^ 53 ∧
    ∃ stats, GetStatistics (dbWithSolveTimes [30, 0, 45]) = .ok stats ∧
      stats.AverageSolveTime = 37.5 := by
  obtain ⟨stats, hs, _, _, h3⟩ :=
    C7_average_solve_time_excludes_unrecorded (dbWithSolveTimes [30, 0, 45]) (by decide)
  refine ⟨by decide, stats, hs, ?_⟩
  have hq : stats.AverageSolveTime = queryAverageSolveTime (dbWithSolveTimes [30, 0, 45]) := by
    injection hs with hs
    rw [← hs]
  rw [hq, h3]

theorem lookup_filter_ne (k k2 : String) (h : ¬ k2 = k) (m : List (String × Int)) :
    List.lookup k2 (m.filter (fun e => decide (¬ e.1 = k))) = List.lookup k2 m := by
  induction m with
  | nil => rfl
  | cons e rest ih =>
    obtain ⟨e1, e2⟩ := e
    by_cases he : e1 = k
    · have hb2 : (k2 == e1) = false := by simpa [he] using h
      rw [List.filter_cons_of_neg (by simp [he]), ih]
      simp only [List.lookup, hb2]
    · rw [List.filter_cons_of_pos (by simp [he])]
      simp only [List.lookup]
      rw [ih]

theorem get?_set (m : StringIntMap) (k : String) (v : Int) (k2 : String) :
    (m.set k v).get? k2 = if k2 = k then some v else m.get? k2 := by
  unfold StringIntMap.set StringIntMap.get?
  by_cases h : k2 = k
  · subst h
    simp [List.lookup]
  · have hb : (k2 == k) = false := by simpa using h
    simp only [List.lookup, hb, h, if_false]
    exact lookup_filter_ne k k2 h m

/-- A key that no scanned row carries keeps its entry. -/
theorem get?_fillMap_of_not_mem (rows : List (String × Int)) (k : String)
    (hk : k ∉ rows.map (fun r => r.1)) (m : StringIntMap) :
    (fillMap m rows).get? k = m.get? k := by
  induction rows generalizing m with
  | nil => rfl
  | cons r rest ih =>
    simp only [List.map_cons, List.mem_cons, not_or] at hk
    show (fillMap (m.set r.1 r.2) rest).get? k = _
    rw [ih hk.2, get?_set, if_neg hk.1]

/-- When no two scanned rows share a key, each row ends up as the entry of its
key. -/
theorem get?_fillMap_of_mem (rows : List (String × Int)) (k : String) (v : Int)
    (hnd : (rows.map (fun r => r.1)).Nodup) (hkv : (k, v) ∈ rows) (m : StringIntMap) :
    (fillMap m rows).get? k = some v := by
  induction rows generalizing m with
  | nil => simp at hkv
  | cons r rest ih =>
    simp only [List.map_cons, List.nodup_cons] at hnd
    show (fillMap (m.set r.1 r.2) rest).get? k = _
    simp only [List.mem_cons] at hkv
    rcases hkv with h | h
    · subst h
      rw [get?_fillMap_of_not_mem rest k hnd.1, get?_set, if_pos rfl]
    · exact ih hnd.2 h _

/-- The rows of the left join of `tags` with `problem_tags`. -/
theorem mem_leftJoinTagsProblemTags (db : DB) (t : TagRow) (o : Option ProblemTagRow) :
    (t, o) ∈ leftJoinTagsProblemTags db ↔
      t ∈ db.tags ∧
        ((o = none ∧ ∀ pt ∈ db.problem_tags, t.id ≠ pt.tag_id) ∨
         ∃ pt, o = some pt ∧ pt ∈ db.problem_tags ∧ t.id = pt.tag_id) := by
  unfold leftJoinTagsProblemTags
  simp only [List.mem_flatMap]
  constructor
  · rintro ⟨t1, ht1, hmem⟩
    cases hf : db.problem_tags.filter (fun pt => decide (t1.id = pt.tag_id)) with
    | nil =>
      rw [hf] at hmem
      simp only [List.mem_singleton, Prod.mk.injEq] at hmem
      obtain ⟨rfl, rfl⟩ := hmem
      refine ⟨ht1, Or.inl ⟨rfl, ?_⟩⟩
      intro pt hpt heq
      have : pt ∈ db.problem_tags.filter (fun pt => decide (t.id = pt.tag_id)) :=
        List.mem_filter.2 ⟨hpt, by simpa using heq⟩
      rw [hf] at this
      simp at this
    | cons a l =>
      rw [hf] at hmem
      simp only [List.mem_map, Prod.mk.injEq] at hmem
      obtain ⟨x, hx, rfl, rfl⟩ := hmem
      rw [← hf, List.mem_filter] at hx
      exact ⟨ht1, Or.inr ⟨x, rfl, hx.1, by simpa using hx.2⟩⟩
  · rintro ⟨ht, h⟩
    refine ⟨t, ht, ?_⟩
    rcases h with ⟨rfl, hno⟩ | ⟨pt, rfl, hpt, heq⟩
    · have : db.problem_tags.filter (fun pt => decide (t.id = pt.tag_id)) = [] := by
        rw [List.filter_eq_nil_iff]
        intro pt hpt
        simpa using hno pt hpt
      rw [this]
      simp
    · have hx : pt ∈ db.problem_tags.filter (fun pt => decide (t.id = pt.tag_id)) :=
        List.mem_filter.2 ⟨hpt, by simpa using heq⟩
      cases hf : db.problem_tags.filter (fun pt => decide (t.id = pt.tag_id)) with
      | nil => rw [hf] at hx; simp at hx
      | cons a l =>
        rw [hf] at hx
        simp only [List.mem_map, Prod.mk.injEq, true_and]
        exact ⟨pt, hx, rfl⟩

/-- Every stored tag occurs in the left join. -/
theorem exists_mem_leftJoin (db : DB) (t : TagRow) (ht : t ∈ db.tags) :
    ∃ o, (t, o) ∈ leftJoinTagsProblemTags db := by
  by_cases h : ∀ pt ∈ db.problem_tags, t.id ≠ pt.tag_id
  · exact ⟨none, (mem_leftJoinTagsProblemTags db t none).2 ⟨ht, Or.inl ⟨rfl, h⟩⟩⟩
  · push_neg at h
    obtain ⟨pt, hpt, heq⟩ := h
    exact ⟨some pt, (mem_leftJoinTagsProblemTags db t _).2 ⟨ht, Or.inr ⟨pt, rfl, hpt, heq⟩⟩⟩

/-- The group of a stored tag counts the stored problems linked to it. -/
theorem countDistinctProblemId_group (db : DB) (hdb : Consistent db) (t : TagRow)
    (ht : t ∈ db.tags) :
    countDistinctProblemId
        ((leftJoinTagsProblemTags db).filter (fun r => (r.1.id, r.1.name) = (t.id, t.name))) =
      ((problemsWithTag db t.id).length : Int) := by
  obtain ⟨hpid, _, _, _, hfkp, _⟩ := hdb
  unfold countDistinctProblemId
  congr 1
  have hB : ((problemsWithTag db t.id).map (fun r => r.id)).Nodup :=
    (hpid.sublist ((List.filter_sublist _).map _))
  rw [← List.length_map (problemsWithTag db t.id) (fun r => r.id)]
  apply List.Perm.length_eq
  rw [List.perm_ext_iff_of_nodup (List.nodup_dedup _) hB]
  intro x
  simp only [List.mem_dedup, List.mem_filterMap, List.mem_filter, decide_eq_true_eq,
    Prod.mk.injEq, Prod.exists, Option.map_eq_some', List.mem_map, problemsWithTag]
  constructor
  · rintro ⟨t1, o, ⟨hmem, hid, _⟩, pt, rfl, rfl⟩
    rcases (mem_leftJoinTagsProblemTags db t1 _).1 hmem with ⟨_, ⟨h, _⟩ | ⟨pt2, h, hpt2, heq⟩⟩
    · simp at h
    · simp only [Option.some.injEq] at h
      subst h
      obtain ⟨r, hr, hre⟩ := hfkp pt hpt2
      refine ⟨r, ⟨hr, ?_⟩, hre⟩
      have : ({ problem_id := r.id, tag_id := t.id } : ProblemTagRow) = pt := by
        cases pt
        simp_all
      rw [this]
      exact hpt2
  · rintro ⟨r, ⟨_, hpt⟩, rfl⟩
    exact ⟨t, some _, ⟨(mem_leftJoinTagsProblemTags db t _).2
      ⟨ht, Or.inr ⟨_, rfl, hpt, rfl⟩⟩, rfl, rfl⟩, _, rfl, rfl⟩

/-- The groups of the by-tag query are the stored tags. -/
theorem mem_groups (db : DB) (g : Int × String) :
    g ∈ ((leftJoinTagsProblemTags db).map (fun r => (r.1.id, r.1.name))).dedup ↔
      ∃ t ∈ db.tags, g = (t.id, t.name) := by
  rw [List.mem_dedup, List.mem_map]
  constructor
  · rintro ⟨⟨t, o⟩, hmem, rfl⟩
    exact ⟨t, ((mem_leftJoinTagsProblemTags db t o).1 hmem).1, rfl⟩
  · rintro ⟨t, ht, rfl⟩
    obtain ⟨o, ho⟩ := exists_mem_leftJoin db t ht
    exact ⟨(t, o), ho, rfl⟩

/-- No two rows of the by-tag query carry the same tag name. -/
theorem queryCountByTag_keys_nodup (db : DB) (hdb : Consistent db) :
    ((queryCountByTag db).map (fun r => r.1)).Nodup := by
  unfold queryCountByTag
  simp only [List.map_map]
  refine List.Nodup.map_on ?_ (List.nodup_dedup _)
  intro g1 h1 g2 h2 heq
  obtain ⟨t1, ht1, rfl⟩ := (mem_groups db g1).1 h1
  obtain ⟨t2, ht2, rfl⟩ := (mem_groups db g2).1 h2
  simp only [Function.comp] at heq
  have := List.inj_on_of_nodup_map hdb.2.2.1 ht1 ht2 heq
  rw [this]

/-- C8: on a database that satisfies the schema constraints, `GetStatistics`
succeeds and its by-tag map has, for every stored tag, an entry under the
tag's name whose value is the number of stored problems linked to the tag, 0
for a tag linked to none, and no entry under any other name. -/
theorem C8_by_tag_counts_every_tag (db : DB) (hdb : Consistent db) :
    ∃ stats, GetStatistics db = .ok stats ∧
      (∀ t ∈ db.tags,
        stats.ByTag.get? t.name = some ((problemsWithTag db t.id).length : Int)) ∧
      (∀ t ∈ db.tags, (∀ pt ∈ db.problem_tags, pt.tag_id ≠ t.id) →
        stats.ByTag.get? t.name = some 0) ∧
      (∀ name, (∀ t ∈ db.tags, t.name ≠ name) → stats.ByTag.get? name = none) := by
  have hmain : ∀ t ∈ db.tags,
      (fillMap [] (queryCountByTag db)).get? t.name =
        some ((problemsWithTag db t.id).length : Int) := by
    intro t ht
    apply get?_fillMap_of_mem _ _ _ (queryCountByTag_keys_nodup db hdb)
    unfold queryCountByTag
    simp only [List.mem_map]
    exact ⟨(t.id, t.name), (mem_groups db _).2 ⟨t, ht, rfl⟩,
      by rw [countDistinctProblemId_group db hdb t ht]⟩
  refine ⟨_, rfl, hmain, ?_, ?_⟩
  · intro t ht hno
    have hnil : problemsWithTag db t.id = [] := by
      unfold problemsWithTag
      rw [List.filter_eq_nil_iff]
      intro r _ hr
      simp only [decide_eq_true_eq] at hr
      exact hno _ hr rfl
    have := hmain t ht
    rw [hnil] at this
    exact this
  · intro name hname
    show (fillMap [] (queryCountByTag db)).get? name = none
    rw [get?_fillMap_of_not_mem]
    · rfl
    · unfold queryCountByTag
      simp only [List.map_map, List.mem_map, Function.comp]
      rintro ⟨g, hg, rfl⟩
      obtain ⟨t, ht, rfl⟩ := (mem_groups db g).1 hg
      exact hname t ht rfl

/-- C8 applied to the sample database. -/
theorem C8_by_tag_counts_every_tag_witness :
    ∃ stats, GetStatistics sampleDB = .ok stats ∧
      (∀ t ∈ sampleDB.tags,
        stats.ByTag.get? t.name = some ((problemsWithTag sampleDB t.id).length : Int)) ∧
      (∀ t ∈ sampleDB.tags, (∀ pt ∈ sampleDB.problem_tags, pt.tag_id ≠ t.id) →
        stats.ByTag.get? t.name = some 0) ∧
      (∀ name, (∀ t ∈ sampleDB.tags, t.name ≠ name) → stats.ByTag.get? name = none) :=
  C8_by_tag_counts_every_tag sampleDB (by decide)

end Statistics

section Transactions

open database models Repository

/-- An association insert for a problem id that is not stored is refused. -/
theorem execInsertProblemTag_missing_problem (db : DB) (pid tid : Int)
    (hmiss : ∀ r ∈ db.problems, r.id ≠ pid) :
    ∃ err, execInsertProblemTag db pid tid = .error err := by
  have h2 : db.problems.any (fun r => decide (r.id = pid)) = false := by
    rw [List.any_eq_false]
    intro r hr
    simpa using hmiss r hr
  unfold execInsertProblemTag
  by_cases h1 : db.problem_tags.any (fun pt => decide (pt.problem_id = pid ∧ pt.tag_id = tid))
      = true
  · exact ⟨_, by rw [if_pos h1]⟩
  · exact ⟨_, by rw [if_neg h1, if_pos (by simp [h2])]⟩

/-- An `UPDATE` whose `WHERE id = ?` matches no row leaves the table as it is. -/
theorem execUpdateProblem_missing (db : DB) (name link platform difficulty : String)
    (solve_time : Int) (notes code_snippet : String) (updated_at : Timestamp) (id : Int)
    (hmiss : ∀ r ∈ db.problems, r.id ≠ id) :
    execUpdateProblem db name link platform difficulty solve_time notes code_snippet
      updated_at id = db := by
  unfold execUpdateProblem
  have : db.problems.map (fun r =>
      if r.id = id then
        { r with
          name := name, link := link, platform := platform, difficulty := difficulty,
          solve_time := solve_time, notes := notes, code_snippet := code_snippet,
          updated_at := updated_at }
      else r) = db.problems := by
    conv_rhs => rw [← List.map_id db.problems]
    apply List.map_congr_left
    intro r hr
    simp [hmiss r hr]
  rw [this]

/-- Deleting the associations of a problem id that is not stored removes
nothing, by the foreign key. -/
theorem execDeleteProblemTags_missing (db : DB) (id : Int)
    (hfk : ∀ pt ∈ db.problem_tags, ∃ r ∈ db.problems, r.id = pt.problem_id)
    (hmiss : ∀ r ∈ db.problems, r.id ≠ id) :
    execDeleteProblemTags db id = db := by
  unfold execDeleteProblemTags
  have : db.problem_tags.filter (fun pt => decide (¬ pt.problem_id = id)) = db.problem_tags := by
    rw [List.filter_eq_self]
    intro pt hpt
    obtain ⟨r, hr, hre⟩ := hfk pt hpt
    simpa [← hre] using hmiss r hr
  rw [this]

/-- C9 as stated fails: updating the valid problem with id 7, which the sample
database does not store, with the tag "Array" returns the foreign-key error
of the association insert; the database is left as it was. -/
theorem C9_update_missing_problem_with_tag_fails :
    (∀ r ∈ sampleDB.problems, r.id ≠ 7) ∧
    Service.validateProblem (sampleProblem 7 ["Array"]) = .ok () ∧
    Service.UpdateProblem sampleDB "t3" (sampleProblem 7 ["Array"]) =
      (.error (Err.constraint "FOREIGN KEY constraint failed"), sampleDB) := by
  decide

/-- C9, amended: on a database that satisfies the schema constraints, updating
a valid problem whose id is not stored changes no `problems` row; with an
empty tag list it returns no error and leaves the database as it was, so the
problem is not created; with a non-empty tag list it returns an error and
again leaves the database as it was. -/
theorem C9_update_missing_problem (db : DB) (now : Timestamp) (p : Problem)
    (hdb : Consistent db) (hvalid : Service.validateProblem p = .ok ())
    (hmiss : ∀ r ∈ db.problems, r.id ≠ p.ID) :
    rowsAffectedByUpdate db p.ID = 0 ∧
    Service.UpdateProblem db now { p with Tags := [] } = (.ok (), db) ∧
    ∀ tag rest, ∃ err,
      Service.UpdateProblem db now { p with Tags := tag :: rest } = (.error err, db) := by
  have h1 := execUpdateProblem_missing db p.Name p.Link p.Platform p.Difficulty p.SolveTime
    p.Notes p.CodeSnippet now p.ID hmiss
  have h2 := execDeleteProblemTags_missing db p.ID hdb.2.2.2.2.1 hmiss
  have hv : ∀ tags, Service.validateProblem { p with Tags := tags } = .ok () := by
    intro tags
    rw [validateProblem_ok_iff] at hvalid ⊢
    exact hvalid
  refine ⟨?_, ?_, ?_⟩
  · unfold rowsAffectedByUpdate
    rw [List.length_eq_zero, List.filter_eq_nil_iff]
    intro r hr
    simpa using hmiss r hr
  · simp only [Service.UpdateProblem, hv, Repository.UpdateProblem, h1, h2, insertTags]
  · intro tag rest
    obtain ⟨tagID, tx1, hget, hprob, _⟩ := getOrCreateTag_spec db now tag.Name
    obtain ⟨err, herr⟩ := execInsertProblemTag_missing_problem tx1 p.ID tagID
      (by rw [hprob]; exact hmiss)
    refine ⟨err, ?_⟩
    simp only [Service.UpdateProblem, hv, Repository.UpdateProblem, h1, h2,
      insertTags, hget, herr]

/-- C9 applied to the sample database and the unknown id 7. -/
theorem C9_update_missing_problem_witness :
    rowsAffectedByUpdate sampleDB 7 = 0 ∧
    Service.UpdateProblem sampleDB "t3" { sampleProblem 7 ["Array"] with Tags := [] }
      = (.ok (), sampleDB) ∧
    ∀ tag rest, ∃ err,
      Service.UpdateProblem sampleDB "t3" { sampleProblem 7 ["Array"] with Tags := tag :: rest }
        = (.error err, sampleDB) :=
  C9_update_missing_problem sampleDB "t3" (sampleProblem 7 ["Array"]) (by decide) (by decide)
    (by decide)

/-- The tag loop over a list cut in two runs the first part, then the second. -/
theorem insertTags_append (now : Timestamp) (pid : Int) (pre rest : List Tag) (tx : DB) :
    insertTags now pid (pre ++ rest) tx =
      match insertTags now pid pre tx with
      | .error err => .error err
      | .ok tx1 => insertTags now pid rest tx1 := by
  induction pre generalizing tx with
  | nil => rfl
  | cons tag pre ih =>
    simp only [List.cons_append, insertTags]
    cases hget : getOrCreateTag tx now tag.Name with
    | error e => rfl
    | ok res =>
      obtain ⟨tagID, tx1⟩ := res
      simp only
      cases hins : execInsertProblemTag tx1 pid tagID with
      | error e => rfl
      | ok tx2 => exact ih tx2


/-- A call on an open transaction: refused, failing, or succeeding. -/
theorem run_open {α : Type} (faults : Faults) (db w : DB) (k : Nat)
    (stmt : DB → Except Err (α × DB)) :
    Conn.run faults ⟨db, some w, k⟩ stmt =
      match faults k with
      | some text => (.error (Err.sqlite text), ⟨db, some w, k + 1⟩)
      | none =>
        match stmt w with
        | .error err => (.error err, ⟨db, some w, k + 1⟩)
        | .ok (a, w1) => (.ok a, ⟨db, some w1, k + 1⟩) := rfl

/-- The helper `getOrCreateTag` on an open transaction: it leaves the committed
rows alone and the transaction open; it succeeds only when no call was
refused, and then as the helper on the rows of the transaction; when no call
is refused it fails as that helper does. -/
theorem getOrCreateTagOn_spec (faults : Faults) (db w : DB) (k : Nat) (now : Timestamp)
    (name : String) :
    ∃ k', k < k' ∧
      ((∃ err w', getOrCreateTagOn faults ⟨db, some w, k⟩ now name =
            (.error err, ⟨db, some w', k'⟩) ∧
          ((∀ i, k ≤ i → i < k' → faults i = none) →
            getOrCreateTag w now name = .error err)) ∨
       (∃ id w', getOrCreateTagOn faults ⟨db, some w, k⟩ now name =
            (.ok id, ⟨db, some w', k'⟩) ∧
          (∀ i, k ≤ i → i < k' → faults i = none) ∧
          getOrCreateTag w now name = .ok (id, w'))) := by
  unfold getOrCreateTagOn getOrCreateTag stmtSelectTagId
  rw [run_open]
  cases hf : faults k with
  | some text =>
    refine ⟨k + 1, by omega, Or.inl ⟨_, w, rfl, ?_⟩⟩
    intro hno
    have := hno k (Nat.le_refl k) (by omega)
    rw [hf] at this
    cases this
  | none =>
    cases hq : queryTagIdByName w name with
    | ok id =>
      refine ⟨k + 1, by omega, Or.inr ⟨id, w, rfl, ?_, rfl⟩⟩
      intro i h1 h2
      have : i = k := by omega
      rw [this, hf]
    | error e =>
      cases e with
      | message t => exact ⟨k + 1, by omega, Or.inl ⟨_, w, rfl, fun _ => rfl⟩⟩
      | constraint t => exact ⟨k + 1, by omega, Or.inl ⟨_, w, rfl, fun _ => rfl⟩⟩
      | sqlite t => exact ⟨k + 1, by omega, Or.inl ⟨_, w, rfl, fun _ => rfl⟩⟩
      | ErrNoRows =>
        simp only
        rw [run_open]
        unfold stmtInsertTag
        cases hf2 : faults (k + 1) with
        | some text =>
          refine ⟨k + 2, by omega, Or.inl ⟨_, w, rfl, ?_⟩⟩
          intro hno
          have := hno (k + 1) (by omega) (by omega)
          rw [hf2] at this
          cases this
        | none =>
          cases hi : execInsertTag w name now with
          | error e2 => exact ⟨k + 2, by omega, Or.inl ⟨_, w, rfl, fun _ => rfl⟩⟩
          | ok res =>
            obtain ⟨id, w1⟩ := res
            refine ⟨k + 2, by omega, Or.inr ⟨id, w1, rfl, ?_, rfl⟩⟩
            intro i h1 h2
            have : i = k ∨ i = k + 1 := by omega
            rcases this with h | h
            · rw [h, hf]
            · rw [h, hf2]

/-- The tag loop on an open transaction, in the terms of `getOrCreateTagOn_spec`. -/
theorem insertTagsOn_spec (faults : Faults) (db : DB) (now : Timestamp) (pid : Int)
    (tags : List Tag) :
    ∀ (w : DB) (k : Nat), ∃ k', k ≤ k' ∧
      ((∃ err w', insertTagsOn faults now pid tags ⟨db, some w, k⟩ =
            (.error err, ⟨db, some w', k'⟩) ∧
          ((∀ i, k ≤ i → i < k' → faults i = none) →
            insertTags now pid tags w = .error err)) ∨
       (∃ w', insertTagsOn faults now pid tags ⟨db, some w, k⟩ =
            (.ok (), ⟨db, some w', k'⟩) ∧
          (∀ i, k ≤ i → i < k' → faults i = none) ∧
          insertTags now pid tags w = .ok w')) := by
  induction tags with
  | nil =>
    intro w k
    exact ⟨k, Nat.le_refl k, Or.inr ⟨w, rfl, fun i h1 h2 => by omega, rfl⟩⟩
  | cons tag rest ih =>
    intro w k
    obtain ⟨k1, hk1, hget⟩ := getOrCreateTagOn_spec faults db w k now tag.Name
    rcases hget with ⟨err, w1, hrun, hpure⟩ | ⟨id, w1, hrun, hno1, hpure⟩
    · refine ⟨k1, by omega, Or.inl ⟨err, w1, ?_, ?_⟩⟩
      · simp only [insertTagsOn, hrun]
      · intro hno
        simp only [insertTags, hpure hno]
    · cases hf : faults k1 with
      | some text =>
        refine ⟨k1 + 1, by omega, Or.inl ⟨Err.sqlite text, w1, ?_, ?_⟩⟩
        · simp only [insertTagsOn, hrun, run_open, hf]
        · intro hno
          have := hno k1 (by omega) (by omega)
          rw [hf] at this
          cases this
      | none =>
        cases hins : execInsertProblemTag w1 pid id with
        | error e =>
          refine ⟨k1 + 1, by omega, Or.inl ⟨e, w1, ?_, ?_⟩⟩
          · simp only [insertTagsOn, hrun, run_open, hf, stmtInsertProblemTag, hins]
          · intro _
            simp only [insertTags, hpure, hins]
        | ok w2 =>
          obtain ⟨k2, hk2, hrest⟩ := ih w2 (k1 + 1)
          have hstep : insertTagsOn faults now pid (tag :: rest) ⟨db, some w, k⟩ =
              insertTagsOn faults now pid rest ⟨db, some w2, k1 + 1⟩ := by
            simp only [insertTagsOn, hrun, run_open, hf, stmtInsertProblemTag, hins]
          have hpstep : insertTags now pid (tag :: rest) w = insertTags now pid rest w2 := by
            simp only [insertTags, hpure, hins]
          have hnoT : ∀ k3, (∀ i, k1 + 1 ≤ i → i < k3 → faults i = none) →
              ∀ i, k ≤ i → i < k3 → faults i = none := by
            intro k3 h3 i h1 h2
            by_cases hlt : i < k1
            · exact hno1 i h1 hlt
            · by_cases heq : i = k1
              · rw [heq, hf]
              · exact h3 i (by omega) h2
          rcases hrest with ⟨err, w3, hr, hp⟩ | ⟨w3, hr, hno2, hp⟩
          · refine ⟨k2, by omega, Or.inl ⟨err, w3, by rw [hstep, hr], ?_⟩⟩
            intro hno
            rw [hpstep]
            exact hp (fun i h1 h2 => hno i (by omega) h2)
          · exact ⟨k2, by omega, Or.inr ⟨w3, by rw [hstep, hr], hnoT k2 hno2, by rw [hpstep, hp]⟩⟩

/-- The tag loop on a connection over a list cut in two runs the first part,
then the second. -/
theorem insertTagsOn_append (faults : Faults) (now : Timestamp) (pid : Int)
    (pre rest : List Tag) (c : Conn) :
    insertTagsOn faults now pid (pre ++ rest) c =
      match insertTagsOn faults now pid pre c with
      | (.error err, c1) => (.error err, c1)
      | (.ok _, c1) => insertTagsOn faults now pid rest c1 := by
  induction pre generalizing c with
  | nil => rfl
  | cons tag pre ih =>
    simp only [List.cons_append, insertTagsOn]
    rcases hget : getOrCreateTagOn faults c now tag.Name with ⟨r, c1⟩
    cases r with
    | error e => rfl
    | ok tagID =>
      simp only
      rcases hins : Conn.run faults c1 (stmtInsertProblemTag pid tagID) with ⟨r2, c2⟩
      cases r2 with
      | error e => rfl
      | ok u => exact ih c2

/-- The two outcomes of `CreateProblem` on a connection.  An error: the committed
rows are those of before, no transaction is open, and when no call was
refused the error is that of `CreateProblem` on the rows alone.  A success:
no call was refused and result and committed rows are those of
`CreateProblem` on the rows alone. -/
theorem createProblemOn_cases (faults : Faults) (db : DB) (now : Timestamp) (p : Problem) :
    (∃ err k, CreateProblemOn faults db now p = (.error err, ⟨db, none, k⟩) ∧
      ((∀ i, i < k → faults i = none) → CreateProblem db now p = (.error err, db))) ∨
    (∃ q w k, CreateProblemOn faults db now p = (.ok q, ⟨w, none, k⟩) ∧
      (∀ i, i < k → faults i = none) ∧ CreateProblem db now p = (.ok q, w)) := by
  have hcontra : ∀ (k n : Nat) (text : String), faults n = some text → n < k →
      ∀ (P : Prop), (∀ i, i < k → faults i = none) → P := by
    intro k n text hf hlt P hno
    have := hno n hlt
    rw [hf] at this
    cases this
  cases hf0 : faults 0 with
  | some text =>
    refine Or.inl ⟨Err.sqlite text, 1, ?_, hcontra 1 0 text hf0 (by omega) _⟩
    simp only [CreateProblemOn, Conn.Begin, Conn.idle, hf0, Nat.zero_add]
  | none =>
    have hbegin : Conn.Begin faults (Conn.idle db) = (.ok (), ⟨db, some db, 1⟩) := by
      simp only [Conn.Begin, Conn.idle, hf0, Nat.zero_add]
    cases hf1 : faults 1 with
    | some text =>
      refine Or.inl ⟨Err.sqlite text, 1 + 1, ?_, hcontra (1 + 1) 1 text hf1 (by omega) _⟩
      have hbody : createProblemBody faults now p ⟨db, some db, 1⟩ =
          (.error (Err.sqlite text), ⟨db, some db, 1 + 1⟩) := by
        simp only [createProblemBody, run_open, hf1]
      simp only [CreateProblemOn, hbegin, hbody, Conn.Rollback]
    | none =>
      obtain ⟨k, hk, hloop⟩ := insertTagsOn_spec faults db now
        (execInsertProblem db p.Name p.Link p.Platform p.Difficulty p.SolveTime p.Notes
          p.CodeSnippet now now).1 p.Tags
        (execInsertProblem db p.Name p.Link p.Platform p.Difficulty p.SolveTime p.Notes
          p.CodeSnippet now now).2 (1 + 1)
      rcases hloop with ⟨err, w, hrun, hpure⟩ | ⟨w, hrun, hno, hpure⟩
      · refine Or.inl ⟨err, k, ?_, ?_⟩
        · have hbody : createProblemBody faults now p ⟨db, some db, 1⟩ =
              (.error err, ⟨db, some w, k⟩) := by
            simp only [createProblemBody, run_open, hf1, stmtInsertProblem, hrun]
          simp only [CreateProblemOn, hbegin, hbody, Conn.Rollback]
        · intro hall
          have := hpure (fun i _ h2 => hall i h2)
          simp only [CreateProblem, this]
      · cases hfk : faults k with
        | some text =>
          refine Or.inl ⟨Err.sqlite text, k + 1, ?_, hcontra (k + 1) k text hfk (by omega) _⟩
          have hbody : createProblemBody faults now p ⟨db, some db, 1⟩ =
              (.error (Err.sqlite text), ⟨db, none, k + 1⟩) := by
            simp only [createProblemBody, run_open, hf1, stmtInsertProblem, hrun, Conn.Commit,
              hfk]
          simp only [CreateProblemOn, hbegin, hbody, Conn.Rollback]
        | none =>
          have hbody : createProblemBody faults now p ⟨db, some db, 1⟩ =
              (.ok { p with ID := (execInsertProblem db p.Name p.Link p.Platform p.Difficulty
                  p.SolveTime p.Notes p.CodeSnippet now now).1 }, ⟨w, none, k + 1⟩) := by
            simp only [createProblemBody, run_open, hf1, stmtInsertProblem, hrun, Conn.Commit,
              hfk]
          refine Or.inr ⟨{ p with ID := (execInsertProblem db p.Name p.Link p.Platform
            p.Difficulty p.SolveTime p.Notes p.CodeSnippet now now).1 }, w, k + 1, ?_, ?_, ?_⟩
          · simp only [CreateProblemOn, hbegin, hbody, Conn.Rollback]
          · intro i hi
            by_cases h0 : i = 0
            · rw [h0, hf0]
            · by_cases h1 : i = 1
              · rw [h1, hf1]
              · by_cases h2 : i = k
                · rw [h2, hfk]
                · exact hno i (by omega) (by omega)
          · simp only [CreateProblem, hpure]

/-- C10: `CreateProblem` on a connection where any call may be refused.  It leaves
no transaction open.  When it returns an error the committed problems, tags
and associations are exactly those of before the call.  It returns a problem
only when no call it made was refused, and then result and committed rows
are those of `CreateProblem` on the rows alone; when no call is refused at
all the two agree in every case.  Each failing step gives the error: a
refused `Begin`; a refused problem insert; for any tag of the list, after
the tags before it went through, a failing get-or-create (the lookup or the
tag insert refused or failing) or a failing association insert (refused, or
against the primary key or a foreign key); and a refused `Commit`. -/
theorem C10_create_problem_rolls_back (faults : Faults) (db : DB) (now : Timestamp)
    (p : Problem) :
    (CreateProblemOn faults db now p).2.pending = none ∧
    (∀ err, (CreateProblemOn faults db now p).1 = .error err →
      (CreateProblemOn faults db now p).2.committed = db) ∧
    (∀ q, (CreateProblemOn faults db now p).1 = .ok q →
      (∀ i, i < (CreateProblemOn faults db now p).2.calls → faults i = none) ∧
      CreateProblem db now p = (.ok q, (CreateProblemOn faults db now p).2.committed)) ∧
    ((∀ i, faults i = none) →
      ((CreateProblemOn faults db now p).1, (CreateProblemOn faults db now p).2.committed) =
        CreateProblem db now p) ∧
    (∀ text, faults 0 = some text →
      CreateProblemOn faults db now p = (.error (Err.sqlite text), ⟨db, none, 1⟩)) ∧
    (∀ text, faults 0 = none → faults 1 = some text →
      CreateProblemOn faults db now p = (.error (Err.sqlite text), ⟨db, none, 2⟩)) ∧
    (∀ (pre : List Tag) (tag : Tag) (post : List Tag) (c0 c1 c c' : Conn) (id : Int)
        (err : Err),
      p.Tags = pre ++ tag :: post →
      Conn.Begin faults (Conn.idle db) = (.ok (), c0) →
      Conn.run faults c0 (stmtInsertProblem now p) = (.ok id, c1) →
      insertTagsOn faults now id pre c1 = (.ok (), c) →
      (getOrCreateTagOn faults c now tag.Name = (.error err, c') ∨
        ∃ (tagID : Int) (c2 : Conn),
          getOrCreateTagOn faults c now tag.Name = (.ok tagID, c2) ∧
          Conn.run faults c2 (stmtInsertProblemTag id tagID) = (.error err, c')) →
      (CreateProblemOn faults db now p).1 = .error err ∧
      (CreateProblemOn faults db now p).2.committed = db) ∧
    (∀ (c0 c1 c2 c3 : Conn) (id : Int) (err : Err),
      Conn.Begin faults (Conn.idle db) = (.ok (), c0) →
      Conn.run faults c0 (stmtInsertProblem now p) = (.ok id, c1) →
      insertTagsOn faults now id p.Tags c1 = (.ok (), c2) →
      Conn.Commit faults c2 = (.error err, c3) →
      (CreateProblemOn faults db now p).1 = .error err ∧
      (CreateProblemOn faults db now p).2.committed = db) := by
  have hcases := createProblemOn_cases faults db now p
  have hrb : ∀ err, (CreateProblemOn faults db now p).1 = .error err →
      (CreateProblemOn faults db now p).2.committed = db := by
    intro err herr
    rcases hcases with ⟨e, k, h, _⟩ | ⟨q, w, k, h, _, _⟩
    · rw [h]
    · rw [h] at herr
      cases herr
  refine ⟨?_, hrb, ?_, ?_, ?_, ?_, ?_, ?_⟩
  · rcases hcases with ⟨e, k, h, _⟩ | ⟨q, w, k, h, _, _⟩ <;> rw [h]
  · intro q hq
    rcases hcases with ⟨e, k, h, _⟩ | ⟨q2, w, k, h, hno, hpure⟩
    · rw [h] at hq
      cases hq
    · rw [h] at hq ⊢
      injection hq with hq
      subst hq
      exact ⟨hno, hpure⟩
  · intro hall
    rcases hcases with ⟨e, k, h, hpure⟩ | ⟨q, w, k, h, _, hpure⟩
    · rw [h, hpure (fun i _ => hall i)]
    · rw [h, hpure]
  · intro text hf0
    simp only [CreateProblemOn, Conn.Begin, Conn.idle, hf0, Nat.zero_add]
  · intro text hf0 hf1
    have hbegin : Conn.Begin faults (Conn.idle db) = (.ok (), ⟨db, some db, 1⟩) := by
      simp only [Conn.Begin, Conn.idle, hf0, Nat.zero_add]
    have hbody : createProblemBody faults now p ⟨db, some db, 1⟩ =
        (.error (Err.sqlite text), ⟨db, some db, 2⟩) := by
      simp only [createProblemBody, run_open, hf1]
    simp only [CreateProblemOn, hbegin, hbody, Conn.Rollback]
  · intro pre tag post c0 c1 c c' id err hsplit hbegin hins hpre hstep
    have hloop : ∃ c4, insertTagsOn faults now id p.Tags c1 = (.error err, c4) := by
      rw [hsplit, insertTagsOn_append, hpre]
      rcases hstep with h | ⟨tagID, c2, h1, h2⟩
      · exact ⟨c', by simp only [insertTagsOn, h]⟩
      · exact ⟨c', by simp only [insertTagsOn, h1, h2]⟩
    obtain ⟨c4, hloop⟩ := hloop
    have hres : (CreateProblemOn faults db now p).1 = .error err := by
      simp only [CreateProblemOn, hbegin, createProblemBody, hins, hloop]
    exact ⟨hres, hrb err hres⟩
  · intro c0 c1 c2 c3 id err hbegin hins hloop hcommit
    have hres : (CreateProblemOn faults db now p).1 = .error err := by
      simp only [CreateProblemOn, hbegin, createProblemBody, hins, hloop, hcommit]
    exact ⟨hres, hrb err hres⟩

/-- C10 applied to the sample database: the problem insert refused; the lookup of
the tag "Array" refused; the insert of the new tag "Trie" refused; the
association insert refused; and, with no call refused, the association
insert of a tag listed twice failing against the primary key.  Each time
`CreateProblem` returns that error and the committed rows are those of
before. -/
theorem C10_create_problem_rolls_back_witness :
    CreateProblemOn (faultAt 1 "disk I/O error") sampleDB "t3" (sampleProblem 0 ["Array"]) =
      (.error (Err.sqlite "disk I/O error"), ⟨sampleDB, none, 2⟩) ∧
    ((CreateProblemOn (faultAt 2 "database is locked") sampleDB "t3"
        (sampleProblem 0 ["Array"])).1 = .error (Err.sqlite "database is locked") ∧
      (CreateProblemOn (faultAt 2 "database is locked") sampleDB "t3"
        (sampleProblem 0 ["Array"])).2.committed = sampleDB) ∧
    ((CreateProblemOn (faultAt 3 "database or disk is full") sampleDB "t3"
        (sampleProblem 0 ["Trie"])).1 = .error (Err.sqlite "database or disk is full") ∧
      (CreateProblemOn (faultAt 3 "database or disk is full") sampleDB "t3"
        (sampleProblem 0 ["Trie"])).2.committed = sampleDB) ∧
    ((CreateProblemOn (faultAt 3 "disk I/O error") sampleDB "t3"
        (sampleProblem 0 ["Array"])).1 = .error (Err.sqlite "disk I/O error") ∧
      (CreateProblemOn (faultAt 3 "disk I/O error") sampleDB "t3"
        (sampleProblem 0 ["Array"])).2.committed = sampleDB) ∧
    ((CreateProblemOn noFaults sampleDB "t3" (sampleProblem 0 ["Array", "Array"])).1 =
        .error (Err.constraint
          "UNIQUE constraint failed: problem_tags.problem_id, problem_tags.tag_id") ∧
      (CreateProblemOn noFaults sampleDB "t3"
        (sampleProblem 0 ["Array", "Array"])).2.committed = sampleDB) :=
  ⟨(C10_create_problem_rolls_back (faultAt 1 "disk I/O error") sampleDB "t3"
      (sampleProblem 0 ["Array"])).2.2.2.2.2.1 "disk I/O error" rfl rfl,
   (C10_create_problem_rolls_back (faultAt 2 "database is locked") sampleDB "t3"
      (sampleProblem 0 ["Array"])).2.2.2.2.2.2.1
      [] { ID := 0, Name := "Array", CreatedAt := "" } [] _ _ _ _ _ _
      rfl rfl rfl rfl (Or.inl rfl),
   (C10_create_problem_rolls_back (faultAt 3 "database or disk is full") sampleDB "t3"
      (sampleProblem 0 ["Trie"])).2.2.2.2.2.2.1
      [] { ID := 0, Name := "Trie", CreatedAt := "" } [] _ _ _ _ _ _
      rfl rfl rfl rfl (Or.inl rfl),
   (C10_create_problem_rolls_back (faultAt 3 "disk I/O error") sampleDB "t3"
      (sampleProblem 0 ["Array"])).2.2.2.2.2.2.1
      [] { ID := 0, Name := "Array", CreatedAt := "" } [] _ _ _ _ _ _
      rfl rfl rfl rfl (Or.inr ⟨1, _, rfl, rfl⟩),
   (C10_create_problem_rolls_back noFaults sampleDB "t3"
      (sampleProblem 0 ["Array", "Array"])).2.2.2.2.2.2.1
      [{ ID := 0, Name := "Array", CreatedAt := "" }]
      { ID := 0, Name := "Array", CreatedAt := "" } [] _ _ _ _ _ _
      rfl rfl rfl rfl (Or.inr ⟨1, _, rfl, rfl⟩)⟩

end Transactions

section Placeholders

open database models Repository

/-- C15: for every filter, nil included, the statement text holds as many `?` as
arguments are bound; text and arguments are built from the same sequence of
conditions (tag names, difficulty, platform, search pattern, start date, end
date, each present exactly when its field is set), so the arguments follow
the placeholders in order; the nil filter and the filter with every field
empty give the bare select clause with no `WHERE` and no argument; and the
text always ends in the ordering clause. -/
theorem C15_placeholders_match_arguments (filter : Option ProblemFilter) :
    (buildQuery filter).query.data.count '?' = (buildQuery filter).args.length ∧
    (∃ body, (buildQuery filter).query = body ++ " ORDER BY p.created_at DESC") ∧
    (∀ f, filter = some f →
      (buildQuery filter).query =
        (if (clausesOf f).length > 0 then
          (if f.Tags.length > 0 then selectClause ++ joinClause else selectClause) ++
            " WHERE " ++ stringsJoin ((clausesOf f).map (fun c => c.1)) " AND "
         else selectClause) ++ orderClause ∧
      (buildQuery filter).args = (clausesOf f).flatMap (fun c => c.2) ∧
      (buildQuery filter).args =
        f.Tags ++ (if f.Difficulty ≠ "" then [f.Difficulty] else []) ++
          (if f.Platform ≠ "" then [f.Platform] else []) ++
          (if f.SearchQuery ≠ "" then ["%" ++ f.SearchQuery ++ "%"] else []) ++
          (if f.StartDate ≠ "" then [f.StartDate] else []) ++
          (if f.EndDate ≠ "" then [f.EndDate] else [])) ∧
    buildQuery none = { query := selectClause ++ orderClause, args := [] } ∧
    buildQuery (some emptyFilter) = { query := selectClause ++ orderClause, args := [] } := by
  have hs : selectClause.data.count '?' = 0 := by decide
  have hj : joinClause.data.count '?' = 0 := by decide
  have ho : orderClause.data.count '?' = 0 := by decide
  have hw : " WHERE ".data.count '?' = 0 := by decide
  have hnone : buildQuery none = { query := selectClause ++ orderClause, args := [] } := rfl
  refine ⟨?_, ?_, ?_, hnone, ?_⟩
  · cases filter with
    | none =>
      rw [hnone]
      simp only [String.data_append, List.count_append, hs, ho, List.length_nil]
    | some f =>
      rw [buildQuery_eq]
      simp only
      split
      · split <;>
        simp only [String.data_append, List.count_append, hs, hj, ho, hw,
          count_joined_clauses _ (clausesOf_count f), Nat.zero_add, Nat.add_zero]
      · rename_i hlen
        have hnil : clausesOf f = [] := List.length_eq_zero.1 (by omega)
        simp only [String.data_append, List.count_append, hs, ho, hnil, List.flatMap_nil,
          List.length_nil]
  · cases filter with
    | none => exact ⟨selectClause, rfl⟩
    | some f =>
      rw [buildQuery_eq]
      exact ⟨_, rfl⟩
  · intro f hf
    subst hf
    refine ⟨?_, ?_, buildQuery_args f⟩
    · rw [buildQuery_eq]
    · rw [buildQuery_eq]
  · rw [buildQuery_eq]
    rfl

end Placeholders

section GetOrCreate

open database models Repository

/-- A lookup that succeeds leaves `getOrCreateTag` without a write. -/
theorem getOrCreateTag_of_mem (db : DB) (now : Timestamp) (name : String)
    (hnames : (db.tags.map (fun t => t.name)).Nodup) (t : TagRow) (ht : t ∈ db.tags)
    (hn : t.name = name) :
    queryTagIdByName db name = .ok t.id ∧ getOrCreateTag db now name = .ok (t.id, db) := by
  rcases queryTagIdByName_eq db name with ⟨t1, ht1, hn1, hq⟩ | ⟨hnone, _⟩
  · have : t1 = t := List.inj_on_of_nodup_map hnames ht1 ht (hn1.trans hn.symm)
    subst this
    exact ⟨hq, by simp [getOrCreateTag, hq]⟩
  · exact absurd hn (hnone t ht)

/-- The names `GetTags` lists are the stored names, reordered. -/
theorem getTags_names_perm (db : DB) :
    (((db.tags.insertionSort (fun a b => textLE a.name b.name)).map scanTag).map
      (fun t => t.Name)).Perm (db.tags.map (fun t => t.name)) := by
  rw [List.map_map]
  exact (List.perm_insertionSort _ _).map _

/-- C13: on a database that satisfies the schema constraints, resolving a tag
name through `getOrCreateTag` and resolving it again on the result returns
the same id both times without error, the second call writes nothing,
`GetTags` then lists exactly one tag of that name, carrying that id, and when
the name was already stored the first call writes nothing either. -/
theorem C13_getOrCreateTag_twice_same_id (db : DB) (now1 now2 : Timestamp) (name : String)
    (hdb : Consistent db) :
    ∃ id db1,
      getOrCreateTag db now1 name = .ok (id, db1) ∧
      getOrCreateTag db1 now2 name = .ok (id, db1) ∧
      (∃ tags, GetTags db1 = .ok tags ∧
        (tags.map (fun t => t.Name)).count name = 1 ∧
        ∀ t ∈ tags, t.Name = name → t.ID = id) ∧
      ((∃ t ∈ db.tags, t.name = name) → db1 = db) := by
  obtain ⟨id, db1, hget, _, _, _, hcase⟩ := getOrCreateTag_spec db now1 name
  have hdb1 : Consistent db1 := getOrCreateTag_consistent db now1 name id db1 hdb hget
  have hmem : ∃ t ∈ db1.tags, t.name = name ∧ t.id = id := by
    rcases hcase with ⟨rfl, h⟩ | ⟨_, _, htags⟩
    · exact h
    · exact ⟨{ id := id, name := name, created_at := now1 }, by rw [htags]; simp, rfl, rfl⟩
  obtain ⟨t, ht, hn, hid⟩ := hmem
  refine ⟨id, db1, hget, ?_, ⟨_, rfl, ?_, ?_⟩, ?_⟩
  · rw [← hid]
    exact (getOrCreateTag_of_mem db1 now2 name hdb1.2.2.1 t ht hn).2
  · rw [(getTags_names_perm db1).count_eq]
    exact List.count_eq_one_of_mem hdb1.2.2.1 (List.mem_map.2 ⟨t, ht, hn⟩)
  · intro tag htag hname
    rw [List.mem_map] at htag
    obtain ⟨t1, ht1, rfl⟩ := htag
    rw [(List.perm_insertionSort _ _).mem_iff] at ht1
    have : t1 = t := List.inj_on_of_nodup_map hdb1.2.2.1 ht1 ht (hname.trans hn.symm)
    rw [this]
    exact hid
  · rintro ⟨t0, ht0, hn0⟩
    rcases hcase with ⟨h, _⟩ | ⟨hnone, _, _⟩
    · exact h
    · exact absurd hn0 (hnone t0 ht0)

/-- C13 applied to the sample database and the name "Graph", which is stored. -/
theorem C13_getOrCreateTag_twice_same_id_witness :
    ∃ id db1,
      getOrCreateTag sampleDB "t3" "Graph" = .ok (id, db1) ∧
      getOrCreateTag db1 "t4" "Graph" = .ok (id, db1) ∧
      (∃ tags, GetTags db1 = .ok tags ∧
        (tags.map (fun t => t.Name)).count "Graph" = 1 ∧
        ∀ t ∈ tags, t.Name = "Graph" → t.ID = id) ∧
      ((∃ t ∈ sampleDB.tags, t.name = "Graph") → db1 = sampleDB) :=
  C13_getOrCreateTag_twice_same_id sampleDB "t3" "t4" "Graph" (by decide)

end GetOrCreate

section Inversion

open database models Repository

/-- What a successful `getOrCreateTag` leaves: the name resolves to the
returned id, tag rows were at most appended, nothing else changed. -/
theorem getOrCreateTag_inv (tx : DB) (now : Timestamp) (name : String) (id : Int) (tx1 : DB)
    (hget : getOrCreateTag tx now name = .ok (id, tx1)) :
    queryTagIdByName tx1 name = .ok id ∧ tx1.problems = tx.problems ∧
      tx1.problem_tags = tx.problem_tags ∧ tx1.seq_problems = tx.seq_problems ∧
      ((tx1 = tx) ∨ ((∀ t ∈ tx.tags, t.name ≠ name) ∧
        tx1.tags = tx.tags ++ [{ id := id, name := name, created_at := now }])) := by
  rcases queryTagIdByName_eq tx name with ⟨t, _, _, hq⟩ | ⟨hnone, hq⟩
  · simp only [getOrCreateTag, hq, Except.ok.injEq, Prod.mk.injEq] at hget
    obtain ⟨rfl, rfl⟩ := hget
    exact ⟨hq, rfl, rfl, rfl, Or.inl rfl⟩
  · obtain ⟨id2, tx2, hget2, hp, hpt, hs, hcase⟩ := getOrCreateTag_spec tx now name
    rw [hget] at hget2
    simp only [Except.ok.injEq, Prod.mk.injEq] at hget2
    obtain ⟨rfl, rfl⟩ := hget2
    rcases hcase with ⟨_, t, ht, hn, _⟩ | ⟨_, _, htags⟩
    · exact absurd hn (hnone t ht)
    · refine ⟨?_, hp, hpt, hs, Or.inr ⟨hnone, htags⟩⟩
      unfold queryTagIdByName
      rw [htags, List.find?_append]
      have : tx.tags.find? (fun t => decide (t.name = name)) = none := by
        rw [List.find?_eq_none]
        intro t ht
        simpa using hnone t ht
      rw [this]
      simp

/-- What a successful association insert leaves: the row appended. -/
theorem execInsertProblemTag_inv (db : DB) (pid tid : Int) (db1 : DB)
    (hins : execInsertProblemTag db pid tid = .ok db1) :
    db1 = { db with
      problem_tags := db.problem_tags ++ [{ problem_id := pid, tag_id := tid }] } := by
  unfold execInsertProblemTag at hins
  split at hins
  · cases hins
  · split at hins
    · cases hins
    · split at hins
      · cases hins
      · simp only [Except.ok.injEq] at hins
        exact hins.symm

/-- A name that resolves keeps its id when tag rows are appended. -/
theorem tagIdOf_of_append (tx tx9 : DB) (name : String) (id : Int) (extra : List TagRow)
    (hq : queryTagIdByName tx name = .ok id) (htags : tx9.tags = tx.tags ++ extra) :
    tagIdOf tx9 name = id := by
  unfold queryTagIdByName at hq
  cases hf : tx.tags.find? (fun t => decide (t.name = name)) with
  | none => rw [hf] at hq; cases hq
  | some t =>
    rw [hf] at hq
    simp only [Except.ok.injEq] at hq
    unfold tagIdOf queryTagIdByName
    rw [htags, List.find?_append, hf]
    simpa using hq

/-- What a successful tag loop leaves: the `problems` table untouched, tag rows
at most appended, and one association appended per listed tag, in order,
each under the id the name resolves to in the end. -/
theorem insertTags_inv (now : Timestamp) (pid : Int) (ts : List Tag) :
    ∀ tx tx9 : DB, insertTags now pid ts tx = .ok tx9 →
      tx9.problems = tx.problems ∧ tx9.seq_problems = tx.seq_problems ∧
      (∃ extra, tx9.tags = tx.tags ++ extra) ∧
      tx9.problem_tags = tx.problem_tags ++
        ts.map (fun tag => { problem_id := pid, tag_id := tagIdOf tx9 tag.Name }) := by
  induction ts with
  | nil =>
    intro tx tx9 h
    simp only [insertTags, Except.ok.injEq] at h
    subst h
    exact ⟨rfl, rfl, ⟨[], by simp⟩, by simp⟩
  | cons tag rest ih =>
    intro tx tx9 h
    simp only [insertTags] at h
    cases hget : getOrCreateTag tx now tag.Name with
    | error e => rw [hget] at h; cases h
    | ok res =>
      obtain ⟨tagID, tx1⟩ := res
      rw [hget] at h
      simp only at h
      cases hins : execInsertProblemTag tx1 pid tagID with
      | error e => rw [hins] at h; cases h
      | ok tx2 =>
        rw [hins] at h
        obtain ⟨hq, hp1, hpt1, hs1, hcase⟩ := getOrCreateTag_inv tx now tag.Name tagID tx1 hget
        have h2 := execInsertProblemTag_inv tx1 pid tagID tx2 hins
        obtain ⟨hp9, hs9, ⟨extra9, ht9⟩, hpt9⟩ := ih tx2 tx9 h
        have htags2 : tx2.tags = tx1.tags := by rw [h2]
        have hext1 : ∃ e1, tx1.tags = tx.tags ++ e1 := by
          rcases hcase with rfl | ⟨_, htags⟩
          · exact ⟨[], by simp⟩
          · exact ⟨_, htags⟩
        obtain ⟨e1, he1⟩ := hext1
        have hid : tagIdOf tx9 tag.Name = tagID :=
          tagIdOf_of_append tx1 tx9 tag.Name tagID extra9 hq (by rw [ht9, htags2])
        refine ⟨?_, ?_, ⟨e1 ++ extra9, ?_⟩, ?_⟩
        · rw [hp9, h2]; exact hp1
        · rw [hs9, h2]; exact hs1
        · rw [ht9, htags2, he1, List.append_assoc]
        · rw [hpt9, h2]
          simp only [List.map_cons, hid, hpt1, List.append_assoc, List.singleton_append]

end Inversion

section StoredProblems

open database models Repository Service

/-- The `problems` table after `Repository.CreateProblem`: as before on failure, one
row appended on success. -/
theorem createProblem_problems (db : DB) (now : Timestamp) (p : Problem) :
    (Repository.CreateProblem db now p).2.problems = db.problems ∨
    ∃ id, (Repository.CreateProblem db now p).2.problems = db.problems ++ [rowOf id now p] := by
  unfold Repository.CreateProblem
  simp only
  split
  · exact Or.inl rfl
  · rename_i tx2 hrun
    right
    obtain ⟨hp, _⟩ := insertTags_inv now _ p.Tags _ tx2 hrun
    exact ⟨_, by rw [hp]; rfl⟩

/-- A stored problem created from a valid problem is valid. -/
theorem rowOf_valid (id : Int) (now : Timestamp) (p : Problem)
    (hvalid : validateProblem p = .ok ()) :
    (rowOf id now p).name ≠ "" ∧ (rowOf id now p).platform ≠ "" ∧
      ((rowOf id now p).difficulty = "Easy" ∨ (rowOf id now p).difficulty = "Medium" ∨
        (rowOf id now p).difficulty = "Hard") :=
  (validateProblem_ok_iff p).1 hvalid

theorem createProblem_storedValid (db : DB) (now : Timestamp) (p : Problem)
    (hdb : StoredValid db) (hvalid : validateProblem p = .ok ()) :
    StoredValid (Repository.CreateProblem db now p).2 := by
  intro r hr
  rcases createProblem_problems db now p with h | ⟨id, h⟩
  · rw [h] at hr
    exact hdb r hr
  · rw [h, List.mem_append, List.mem_singleton] at hr
    rcases hr with hr | rfl
    · exact hdb r hr
    · exact rowOf_valid id now p hvalid

theorem updateProblem_storedValid (db : DB) (now : Timestamp) (p : Problem)
    (hdb : StoredValid db) (hvalid : validateProblem p = .ok ()) :
    StoredValid (Repository.UpdateProblem db now p).2 := by
  unfold Repository.UpdateProblem
  simp only
  split
  · exact hdb
  · rename_i tx3 hrun
    obtain ⟨hp, _⟩ := insertTags_inv now _ p.Tags _ tx3 hrun
    intro r hr
    rw [hp] at hr
    change r ∈ db.problems.map _ at hr
    rw [List.mem_map] at hr
    obtain ⟨r0, hr0, rfl⟩ := hr
    split
    · exact (validateProblem_ok_iff p).1 hvalid
    · exact hdb r0 hr0

theorem importLoop_storedValid (clock : Nat → Timestamp) (ps : List Problem) :
    ∀ (i : Nat) (db : DB), StoredValid db → (∀ p ∈ ps, validateProblem p = .ok ()) →
      StoredValid (importLoop clock i ps db).2 := by
  induction ps with
  | nil => intro i db hdb _; exact hdb
  | cons p rest ih =>
    intro i db hdb hall
    have hv : validateProblem { p with ID := 0 } = .ok () := by
      have := hall p (List.mem_cons_self _ _)
      rw [validateProblem_ok_iff] at this ⊢
      exact this
    have h1 := createProblem_storedValid db (clock i) { p with ID := 0 } hdb hv
    unfold importLoop
    split
    · rename_i err db1 heq
      rw [heq] at h1
      exact h1
    · rename_i created db1 heq
      rw [heq] at h1
      exact ih (i + 1) db1 h1 (fun q hq => hall q (List.mem_cons_of_mem _ hq))

/-- The invariant of stored problems survives every sequence of service calls
in which each imported record passes `validateProblem`. -/
theorem runAll_storedValid (ops : List Op) :
    ∀ db : DB, StoredValid db →
      (∀ clock ps, Op.importFromJSON clock ps ∈ ops → ∀ p ∈ ps, validateProblem p = .ok ()) →
      StoredValid (runAll db ops) := by
  induction ops with
  | nil => intro db hdb _; exact hdb
  | cons op rest ih =>
    intro db hdb himp
    refine ih (Op.run db op) ?_ (fun c ps h => himp c ps (List.mem_cons_of_mem _ h))
    cases op with
    | createProblem now p =>
      show StoredValid (Service.CreateProblem db now p).2
      unfold Service.CreateProblem
      split
      · exact hdb
      · rename_i hv
        exact createProblem_storedValid db now p hdb hv
    | updateProblem now p =>
      show StoredValid (Service.UpdateProblem db now p).2
      unfold Service.UpdateProblem
      split
      · exact hdb
      · rename_i hv
        exact updateProblem_storedValid db now p hdb hv
    | deleteProblem id =>
      show StoredValid (execDeleteProblem db id)
      unfold execDeleteProblem
      split
      · intro r hr
        exact hdb r (List.mem_of_mem_filter hr)
      · exact hdb
    | createTag now name =>
      show StoredValid (Service.CreateTag db now name).2
      unfold Service.CreateTag Repository.CreateTag
      split
      · exact hdb
      · split
        · exact hdb
        · rename_i id db1 hins
          unfold execInsertTag at hins
          split at hins
          · cases hins
          · simp only [Except.ok.injEq, Prod.mk.injEq] at hins
            rw [← hins.2]
            exact hdb
    | deleteTag id =>
      show StoredValid (execDeleteTag db id)
      unfold execDeleteTag
      split
      · exact hdb
      · exact hdb
    | importFromJSON clock ps =>
      exact importLoop_storedValid clock ps 0 db hdb
        (himp clock ps (List.mem_cons_self _ _))

/-- C12, the failing run: on the empty database `ImportFromJSON` of a file whose one
record has an empty name and the difficulty "Impossible" returns no error and
stores the record, so the invariant of stored problems is broken;
`Service.CreateProblem` rejects the same record. -/
theorem C12_import_stores_invalid_problem :
    Service.ImportFromJSON DB.empty (fun _ => "t1")
        [{ sampleProblem 0 [] with Name := "", Difficulty := "Impossible" }] =
      (.ok (),
       { problems := [{ id := 1, name := "", link := "", platform := "LeetCode",
                        difficulty := "Impossible", solve_time := 45, notes := "",
                        code_snippet := "", created_at := "t1", updated_at := "t1" }],
         tags := [], problem_tags := [], seq_problems := 1, seq_tags := 0 }) ∧
    ¬ StoredValid (runAll DB.empty
        [Op.importFromJSON (fun _ => "t1")
          [{ sampleProblem 0 [] with Name := "", Difficulty := "Impossible" }]]) ∧
    Service.CreateProblem DB.empty "t1"
        { sampleProblem 0 [] with Name := "", Difficulty := "Impossible" } =
      (.error (Err.message "problem name is required"), DB.empty) := by
  refine ⟨by decide, ?_, by decide⟩
  intro h
  have := h { id := 1, name := "", link := "", platform := "LeetCode",
              difficulty := "Impossible", solve_time := 45, notes := "",
              code_snippet := "", created_at := "t1", updated_at := "t1" }
    (by decide)
  exact this.1 rfl

end StoredProblems

section ExportImport

open database models Repository Service

/-- Under the schema constraints no tag row is read twice for a problem. -/
theorem queryTagsForProblem_names_nodup (db : DB) (hdb : Consistent db) (pid : Int) :
    ((queryTagsForProblem db pid).map (fun t => t.name)).Nodup := by
  obtain ⟨_, htid, hnames, hpts, _, _⟩ := hdb
  have htags : db.tags.Nodup := List.Nodup.of_map _ htid
  unfold queryTagsForProblem
  simp only
  refine ((List.perm_insertionSort _ _).map _).nodup_iff.2 ?_
  rw [List.map_map]
  refine List.Nodup.map_on ?_ (List.Nodup.filter _ ?_)
  · intro x hx y hy hxy
    rw [List.mem_filter, List.mem_flatMap] at hx hy
    obtain ⟨⟨t1, ht1, hm1⟩, hp1⟩ := hx
    obtain ⟨⟨t2, ht2, hm2⟩, hp2⟩ := hy
    rw [List.mem_map] at hm1 hm2
    obtain ⟨pt1, hpt1, rfl⟩ := hm1
    obtain ⟨pt2, hpt2, rfl⟩ := hm2
    rw [List.mem_filter] at hpt1 hpt2
    simp only [decide_eq_true_eq, Function.comp] at hpt1 hpt2 hp1 hp2 hxy
    have ht : t1 = t2 := List.inj_on_of_nodup_map hnames ht1 ht2 hxy
    subst ht
    have hpt : pt1 = pt2 := by
      cases pt1
      cases pt2
      simp only at hpt1 hpt2 hp1 hp2
      simp only [ProblemTagRow.mk.injEq]
      exact ⟨hp1.trans hp2.symm, hpt1.2.symm.trans hpt2.2⟩
    rw [hpt]
  · rw [List.nodup_flatMap]
    refine ⟨?_, ?_⟩
    · intro t _
      refine List.Nodup.map ?_ (List.Nodup.filter _ hpts)
      intro a b hab
      simp only [Prod.mk.injEq, true_and] at hab
      exact hab
    · refine List.Nodup.pairwise_of_forall_ne htags ?_
      intro a _ b _ hne
      simp only [Function.onFun]
      intro x hxa hxb
      rw [List.mem_map] at hxa hxb
      obtain ⟨_, _, rfl⟩ := hxa
      obtain ⟨_, _, h⟩ := hxb
      simp only [Prod.mk.injEq] at h
      exact hne h.1.symm

/-- A stored row is what `GetProblem` of its id reads, when ids are unique. -/
theorem getProblem_of_mem (db : DB) (hids : (db.problems.map (fun r => r.id)).Nodup)
    (r : ProblemRow) (hr : r ∈ db.problems) :
    GetProblem db r.id = .ok (scanProblem r ((queryTagsForProblem db r.id).map scanTag)) := by
  have hfind : db.problems.find? (fun x => decide (x.id = r.id)) = some r := by
    cases hf : db.problems.find? (fun x => decide (x.id = r.id)) with
    | none =>
      have := (List.find?_eq_none.1 hf) r hr
      simp at this
    | some x =>
      have hx : x ∈ db.problems := List.mem_of_find?_eq_some hf
      have hxid : x.id = r.id := by simpa using List.find?_some hf
      rw [List.inj_on_of_nodup_map hids hx hr hxid]
  simp [GetProblem, queryProblemById, hfind, getTagsForProblem]

/-- Associations of the other problems are untouched by the tag loop. -/
theorem insertTags_frame (now : Timestamp) (pid : Int) (ts : List Tag) (tx tx9 : DB)
    (hdb : Consistent tx) (hrun : insertTags now pid ts tx = .ok tx9)
    (pid2 : Int) (hne : pid2 ≠ pid) (n : String) :
    hasTag tx9 pid2 n ↔ hasTag tx pid2 n := by
  have hdb9 := insertTags_consistent now pid ts tx tx9 hdb hrun
  obtain ⟨_, _, ⟨extra, htags⟩, hpts⟩ := insertTags_inv now pid ts tx tx9 hrun
  constructor
  · rintro ⟨t, ht, htn, pt, hpt, hp1, hp2⟩
    rw [hpts, List.mem_append] at hpt
    rcases hpt with hpt | hpt
    · obtain ⟨t0, ht0, ht0id⟩ := hdb.2.2.2.2.2 pt hpt
      have ht09 : t0 ∈ tx9.tags := by rw [htags]; exact List.mem_append_left _ ht0
      have : t0 = t := List.inj_on_of_nodup_map hdb9.2.1 ht09 ht (ht0id.trans hp2)
      subst this
      exact ⟨t0, ht0, htn, pt, hpt, hp1, hp2⟩
    · rw [List.mem_map] at hpt
      obtain ⟨_, _, rfl⟩ := hpt
      exact absurd hp1.symm hne
  · rintro ⟨t, ht, htn, pt, hpt, hp1, hp2⟩
    exact ⟨t, by rw [htags]; exact List.mem_append_left _ ht, htn, pt,
      by rw [hpts]; exact List.mem_append_left _ hpt, hp1, hp2⟩

/-- The method `Repository.CreateProblem` on a problem with pairwise distinct tag names:
it succeeds with an id above every stored one, appends the row, keeps the
schema constraints, gives the new problem exactly the listed tag names and
leaves the tag names of every other problem as they were. -/
theorem createProblem_spec (db : DB) (now : Timestamp) (p : Problem)
    (hdb : Consistent db) (hnames : (p.Tags.map (fun t => t.Name)).Nodup) :
    ∃ pid db9,
      Repository.CreateProblem db now p = (.ok { p with ID := pid }, db9) ∧
      (∀ r ∈ db.problems, r.id < pid) ∧
      db9.problems = db.problems ++ [rowOf pid now p] ∧
      Consistent db9 ∧
      (∀ n, hasTag db9 pid n ↔ n ∈ p.Tags.map (fun t => t.Name)) ∧
      (∀ pid2 n, pid2 ≠ pid → (hasTag db9 pid2 n ↔ hasTag db pid2 n)) := by
  have hdb0 := hdb
  obtain ⟨_, htagids, _, _, hfkp, hfkt⟩ := hdb
  set pid := nextRowid db.seq_problems (db.problems.map (fun r => r.id)) with hpid
  set tx1 : DB := { db with problems := db.problems ++ [rowOf pid now p], seq_problems := pid }
    with htx1
  have hlt : ∀ r ∈ db.problems, r.id < pid := fun r hr =>
    lt_nextRowid _ _ _ (List.mem_map_of_mem (fun r => r.id) hr)
  have hnone : ∀ n, ¬ hasTag tx1 pid n := by
    rintro n ⟨t, _, _, pt, hpt, hp1, _⟩
    obtain ⟨r, hr, hre⟩ := hfkp pt hpt
    have := hlt r hr
    omega
  have hc1 : Consistent tx1 :=
    execInsertProblem_consistent db p.Name p.Link p.Platform p.Difficulty p.SolveTime p.Notes
      p.CodeSnippet now now hdb0
  obtain ⟨tx9, hrun, hprob, _, hE⟩ := insertTags_spec now pid p.Tags tx1 htagids hfkt
    ⟨rowOf pid now p, by simp [htx1], rfl⟩ hnames (fun tag _ => hnone tag.Name)
  refine ⟨pid, tx9, ?_, hlt, hprob, insertTags_consistent now pid p.Tags tx1 tx9 hc1 hrun, ?_, ?_⟩
  · simp only [Repository.CreateProblem, execInsertProblem]
    rw [← hpid]
    change (match insertTags now pid p.Tags tx1 with
      | .error err => (Except.error err, db)
      | .ok tx2 => (Except.ok { p with ID := pid }, tx2)) = _
    rw [hrun]
  · intro n
    rw [hE]
    simp [hnone]
  · intro pid2 n hne
    exact insertTags_frame now pid p.Tags tx1 tx9 hc1 hrun pid2 hne n

/-- The import loop on records with pairwise distinct tag names: every record
is created; the new rows follow the stored ones in the order of the file,
the `j`-th stamped with the time of its own call; each new problem carries
the tag names of its record; stored problems keep theirs. -/
theorem importLoop_spec (clock : Nat → Timestamp) (ps : List Problem) :
    ∀ (i : Nat) (db : DB), Consistent db →
      (∀ p ∈ ps, (p.Tags.map (fun t => t.Name)).Nodup) →
      ∃ db9 newRows,
        importLoop clock i ps db = (.ok (), db9) ∧ Consistent db9 ∧
        db9.problems = db.problems ++ newRows ∧ newRows.length = ps.length ∧
        (∀ pid n, (∃ r ∈ db.problems, r.id = pid) → (hasTag db9 pid n ↔ hasTag db pid n)) ∧
        ∀ j p, ps[j]? = some p →
          ∃ r, newRows[j]? = some r ∧ r = rowOf r.id (clock (i + j)) p ∧
            ∀ n, hasTag db9 r.id n ↔ n ∈ p.Tags.map (fun t => t.Name) := by
  induction ps with
  | nil =>
    intro i db hdb _
    exact ⟨db, [], rfl, hdb, by simp, rfl, fun _ _ _ => Iff.rfl, by simp⟩
  | cons p rest ih =>
    intro i db hdb hall
    obtain ⟨pid, db1, hcreate, hlt, hprob, hdb1, hE, hframe⟩ :=
      createProblem_spec db (clock i) { p with ID := 0 } hdb (hall p (List.mem_cons_self _ _))
    obtain ⟨db9, rows, hrun, hdb9, hprob9, hlen, hframe9, hrows⟩ :=
      ih (i + 1) db1 hdb1 (fun q hq => hall q (List.mem_cons_of_mem _ hq))
    have hrow : rowOf pid (clock i) { p with ID := 0 } = rowOf pid (clock i) p := rfl
    rw [hrow] at hprob
    have hmem1 : ∃ r ∈ db1.problems, r.id = pid :=
      ⟨rowOf pid (clock i) p, by rw [hprob]; simp, rfl⟩
    refine ⟨db9, rowOf pid (clock i) p :: rows, ?_, hdb9, ?_, by simp [hlen], ?_, ?_⟩
    · simp only [importLoop, hcreate, hrun]
    · rw [hprob9, hprob, List.append_assoc, List.singleton_append]
    · rintro pid0 n ⟨r, hr, hre⟩
      have hne : pid0 ≠ pid := by
        have := hlt r hr
        omega
      rw [hframe9 pid0 n ⟨r, by rw [hprob]; exact List.mem_append_left _ hr, hre⟩]
      exact hframe pid0 n hne
    · intro j q hj
      cases j with
      | zero =>
        simp only [List.getElem?_cons_zero, Option.some.injEq] at hj
        subst hj
        refine ⟨rowOf pid (clock i) p, by simp, rfl, ?_⟩
        intro n
        show hasTag db9 pid n ↔ _
        rw [hframe9 pid n hmem1]
        exact hE n
      | succ j =>
        simp only [List.getElem?_cons_succ] at hj
        obtain ⟨r, hr, hre, htag⟩ := hrows j q hj
        refine ⟨r, by simpa using hr, ?_, htag⟩
        have : i + (j + 1) = i + 1 + j := by omega
        rw [this]
        exact hre

/-- C11 as stated fails: the sample database exports "Two Sum" with the creation
timestamp "t1"; importing the file at time "t9" creates problem 2, whose
creation timestamp is "t9". -/
theorem C11_import_resets_creation_timestamp :
    Service.ExportToJSON sampleDB =
      .ok [{ ID := 1, Name := "Two Sum", Link := "", Platform := "LeetCode",
             Difficulty := "Easy", SolveTime := 30, Notes := "", CodeSnippet := "",
             Tags := [{ ID := 1, Name := "Array", CreatedAt := "t1" },
                      { ID := 2, Name := "Hash Map", CreatedAt := "t1" }],
             CreatedAt := "t1", UpdatedAt := "t1" }] ∧
    Repository.GetProblem
        (Service.ImportFromJSON sampleDB (fun _ => "t9")
          ([{ ID := 1, Name := "Two Sum", Link := "", Platform := "LeetCode",
              Difficulty := "Easy", SolveTime := 30, Notes := "", CodeSnippet := "",
              Tags := [{ ID := 1, Name := "Array", CreatedAt := "t1" },
                       { ID := 2, Name := "Hash Map", CreatedAt := "t1" }],
              CreatedAt := "t1", UpdatedAt := "t1" }].map (jsonRoundTrip id))).2 2 =
      .ok { ID := 2, Name := "Two Sum", Link := "", Platform := "LeetCode",
            Difficulty := "Easy", SolveTime := 30, Notes := "", CodeSnippet := "",
            Tags := [{ ID := 1, Name := "Array", CreatedAt := "t1" },
                     { ID := 2, Name := "Hash Map", CreatedAt := "t1" }],
            CreatedAt := "t9", UpdatedAt := "t9" } ∧
    ((Service.ImportFromJSON sampleDB (fun _ => "t9")
          ([{ ID := 1, Name := "Two Sum", Link := "", Platform := "LeetCode",
              Difficulty := "Easy", SolveTime := 30, Notes := "", CodeSnippet := "",
              Tags := [{ ID := 1, Name := "Array", CreatedAt := "t1" },
                       { ID := 2, Name := "Hash Map", CreatedAt := "t1" }],
              CreatedAt := "t1", UpdatedAt := "t1" }].map (jsonRoundTrip id))).2.problems.map
        (fun r => (r.id, r.created_at))) = [(1, "t1"), (2, "t9")] := by
  decide

/-- C11, amended: export a database that satisfies the schema constraints, then
feed the file, whatever the timestamp codec, to `ImportFromJSON` on a database
that satisfies them too (the same one or another).  The call succeeds; it appends one new
row per exported problem, in the order of the file, under ids not stored
before; and `GetProblem` of the `j`-th new id returns a problem equal to the
`j`-th exported one in name, link, platform, difficulty, solve time, notes,
code snippet and tag names, whose creation and update timestamps are both the
time of its import. -/
theorem C11_export_then_import (db db2 : DB) (timeCodec : Timestamp → Timestamp)
    (clock : Nat → Timestamp) (hdb : Consistent db) (hdb2 : Consistent db2) :
    ∃ (exported : List Problem) (db9 : DB) (newRows : List ProblemRow),
      Service.ExportToJSON db = .ok exported ∧
      Service.ImportFromJSON db2 clock (exported.map (jsonRoundTrip timeCodec)) = (.ok (), db9) ∧
      db9.problems = db2.problems ++ newRows ∧ newRows.length = exported.length ∧
      (db9.problems.map (fun r => r.id)).Nodup ∧
      ∀ (j : Nat) (e : Problem), exported[j]? = some e →
        ∃ (r : ProblemRow) (got : Problem), newRows[j]? = some r ∧ GetProblem db9 r.id = .ok got ∧
          got.Name = e.Name ∧ got.Link = e.Link ∧ got.Platform = e.Platform ∧
          got.Difficulty = e.Difficulty ∧ got.SolveTime = e.SolveTime ∧
          got.Notes = e.Notes ∧ got.CodeSnippet = e.CodeSnippet ∧
          (∀ n, n ∈ got.Tags.map (fun t => t.Name) ↔ n ∈ e.Tags.map (fun t => t.Name)) ∧
          got.CreatedAt = clock j ∧ got.UpdatedAt = clock j := by
  have hexp : Service.ExportToJSON db =
      .ok ((queryProblems db none).map (fun r =>
        scanProblem r ((queryTagsForProblem db r.id).map scanTag))) := scanProblems_eq _ _
  have hnd : ∀ p ∈ ((queryProblems db none).map (fun r =>
      scanProblem r ((queryTagsForProblem db r.id).map scanTag))).map (jsonRoundTrip timeCodec),
      (p.Tags.map (fun t => t.Name)).Nodup := by
    intro p hp
    simp only [List.mem_map] at hp
    obtain ⟨_, ⟨r, _, rfl⟩, rfl⟩ := hp
    have := queryTagsForProblem_names_nodup db hdb r.id
    simpa [jsonRoundTrip, scanProblem, scanTag, List.map_map, Function.comp] using this
  obtain ⟨db9, newRows, hrun, hdb9, hprob, hlen, _, hrows⟩ :=
    importLoop_spec clock _ 0 db2 hdb2 hnd
  refine ⟨_, db9, newRows, hexp, hrun, hprob, by simpa using hlen, hdb9.1, ?_⟩
  intro j e he
  have he2 : (((queryProblems db none).map (fun r =>
      scanProblem r ((queryTagsForProblem db r.id).map scanTag))).map
        (jsonRoundTrip timeCodec))[j]? = some (jsonRoundTrip timeCodec e) := by
    rw [List.getElem?_map, he]
    rfl
  obtain ⟨r, hr, hre, htag⟩ := hrows j _ he2
  have hmem : r ∈ db9.problems := by
    rw [hprob]
    exact List.mem_append_right _ (List.getElem?_mem hr)
  refine ⟨r, _, hr, getProblem_of_mem db9 hdb9.1 r hmem, ?_, ?_, ?_, ?_, ?_, ?_, ?_, ?_, ?_, ?_⟩
  · show r.name = _; rw [hre]; rfl
  · show r.link = _; rw [hre]; rfl
  · show r.platform = _; rw [hre]; rfl
  · show r.difficulty = _; rw [hre]; rfl
  · show r.solve_time = _; rw [hre]; rfl
  · show r.notes = _; rw [hre]; rfl
  · show r.code_snippet = _; rw [hre]; rfl
  · intro n
    show n ∈ ((queryTagsForProblem db9 r.id).map scanTag).map (fun t => t.Name) ↔ _
    rw [mem_getTagsForProblem_names, htag]
    simp [jsonRoundTrip, List.map_map, Function.comp]
  · show r.created_at = _; rw [hre]; simp [rowOf]
  · show r.updated_at = _; rw [hre]; simp [rowOf]

/-- C11 applied to the sample database, exported and imported into itself. -/
theorem C11_export_then_import_witness :
    ∃ (exported : List Problem) (db9 : DB) (newRows : List ProblemRow),
      Service.ExportToJSON sampleDB = .ok exported ∧
      Service.ImportFromJSON sampleDB (fun _ => "t9") (exported.map (jsonRoundTrip id))
        = (.ok (), db9) ∧
      db9.problems = sampleDB.problems ++ newRows ∧ newRows.length = exported.length ∧
      (db9.problems.map (fun r => r.id)).Nodup ∧
      ∀ (j : Nat) (e : Problem), exported[j]? = some e →
        ∃ (r : ProblemRow) (got : Problem), newRows[j]? = some r ∧ GetProblem db9 r.id = .ok got ∧
          got.Name = e.Name ∧ got.Link = e.Link ∧ got.Platform = e.Platform ∧
          got.Difficulty = e.Difficulty ∧ got.SolveTime = e.SolveTime ∧
          got.Notes = e.Notes ∧ got.CodeSnippet = e.CodeSnippet ∧
          (∀ n, n ∈ got.Tags.map (fun t => t.Name) ↔ n ∈ e.Tags.map (fun t => t.Name)) ∧
          got.CreatedAt = "t9" ∧ got.UpdatedAt = "t9" :=
  C11_export_then_import sampleDB sampleDB id (fun _ => "t9") (by decide) (by decide)

end ExportImport

section UpdateTwice

open database models Repository

/-- The tag loop on names that are all stored writes no tag row: it appends
one association per listed tag, under the stored id of its name. -/
theorem insertTags_replay (now : Timestamp) (pid : Int) (ts : List Tag) :
    ∀ tx tx9 : DB, (∀ tag ∈ ts, ∃ t ∈ tx.tags, t.name = tag.Name) →
      insertTags now pid ts tx = .ok tx9 →
      tx9 = { tx with
        problem_tags :=
          tx.problem_tags ++
            ts.map (fun tag => { problem_id := pid, tag_id := tagIdOf tx tag.Name }) } := by
  induction ts with
  | nil =>
    intro tx tx9 _ h
    simp only [insertTags, Except.ok.injEq] at h
    subst h
    simp
  | cons tag rest ih =>
    intro tx tx9 hall h
    simp only [insertTags] at h
    cases hget : getOrCreateTag tx now tag.Name with
    | error e => rw [hget] at h; cases h
    | ok res =>
      obtain ⟨tagID, tx1⟩ := res
      rw [hget] at h
      simp only at h
      cases hins : execInsertProblemTag tx1 pid tagID with
      | error e => rw [hins] at h; cases h
      | ok tx2 =>
        rw [hins] at h
        obtain ⟨hq, _, _, _, hcase⟩ := getOrCreateTag_inv tx now tag.Name tagID tx1 hget
        have htx1 : tx1 = tx := by
          rcases hcase with h1 | ⟨hnone, _⟩
          · exact h1
          · obtain ⟨t, ht, hn⟩ := hall tag (List.mem_cons_self _ _)
            exact absurd hn (hnone t ht)
        subst htx1
        have hid : tagIdOf tx1 tag.Name = tagID := by
          unfold tagIdOf
          rw [hq]
        have h2 := execInsertProblemTag_inv tx1 pid tagID tx2 hins
        have h9 := ih tx2 tx9 (by
          intro tag2 h2mem
          rw [h2]
          exact hall tag2 (List.mem_cons_of_mem _ h2mem)) h
        rw [h9, h2]
        simp only [List.map_cons, hid, List.append_assoc, List.singleton_append]
        rfl

/-- What a successful tag loop needed: pairwise distinct names, none of them
carried by the problem beforehand, and a stored problem unless the list is
empty. -/
theorem insertTags_ok_only_if (now : Timestamp) (pid : Int) (ts : List Tag) (tx tx9 : DB)
    (hdb : Consistent tx) (hrun : insertTags now pid ts tx = .ok tx9) :
    (ts.map (fun t => t.Name)).Nodup ∧ (∀ tag ∈ ts, ¬ hasTag tx pid tag.Name) ∧
      (ts ≠ [] → ∃ r ∈ tx.problems, r.id = pid) := by
  have hdb9 := insertTags_consistent now pid ts tx tx9 hdb hrun
  obtain ⟨hprob, _, ⟨extra, htags⟩, hpts⟩ := insertTags_inv now pid ts tx tx9 hrun
  have hnd := hdb9.2.2.2.1
  rw [hpts, List.nodup_append] at hnd
  obtain ⟨_, hmap, hdisj⟩ := hnd
  refine ⟨?_, ?_, ?_⟩
  · have : ts.map (fun tag => ({ problem_id := pid, tag_id := tagIdOf tx9 tag.Name } :
        ProblemTagRow)) =
        (ts.map (fun t => t.Name)).map (fun n => { problem_id := pid, tag_id := tagIdOf tx9 n })
        := by
      rw [List.map_map]
      rfl
    rw [this] at hmap
    exact List.Nodup.of_map _ hmap
  · rintro tag htag ⟨t, ht, htn, pt, hpt, hp1, hp2⟩
    have ht9 : t ∈ tx9.tags := by rw [htags]; exact List.mem_append_left _ ht
    have hid : tagIdOf tx9 tag.Name = t.id := by
      unfold tagIdOf
      rw [(getOrCreateTag_of_mem tx9 now tag.Name hdb9.2.2.1 t ht9 htn).1]
    refine hdisj hpt ?_
    rw [List.mem_map]
    refine ⟨tag, htag, ?_⟩
    rw [hid]
    cases pt
    simp_all
  · intro hne
    obtain ⟨tag, rest, rfl⟩ := List.exists_cons_of_ne_nil hne
    have hmem : ({ problem_id := pid, tag_id := tagIdOf tx9 tag.Name } : ProblemTagRow) ∈
        tx9.problem_tags := by
      rw [hpts]
      exact List.mem_append_right _ (by simp)
    obtain ⟨r, hr, hre⟩ := hdb9.2.2.2.2.1 _ hmem
    exact ⟨r, by rw [← hprob]; exact hr, hre⟩

/-- The statement `UPDATE problems … WHERE id = ?` keeps the id of every row. -/
theorem execUpdateProblem_ids (db : DB) (name link platform difficulty : String)
    (solve_time : Int) (notes code_snippet : String) (updated_at : Timestamp) (id pid : Int) :
    (∃ r ∈ (execUpdateProblem db name link platform difficulty solve_time notes code_snippet
        updated_at id).problems, r.id = pid) ↔ ∃ r ∈ db.problems, r.id = pid := by
  unfold execUpdateProblem
  simp only [List.mem_map]
  constructor
  · rintro ⟨r, ⟨r0, hr0, rfl⟩, h⟩
    refine ⟨r0, hr0, ?_⟩
    split at h <;> exact h
  · rintro ⟨r0, hr0, h⟩
    refine ⟨_, ⟨r0, hr0, rfl⟩, ?_⟩
    split <;> exact h

/-- After `DELETE FROM problem_tags WHERE problem_id = ?` the problem carries no
tag. -/
theorem not_hasTag_after_delete (db : DB) (pid : Int) (n : String) :
    ¬ hasTag (execDeleteProblemTags db pid) pid n := by
  rintro ⟨t, _, _, pt, hpt, hp1, _⟩
  unfold execDeleteProblemTags at hpt
  simp only [List.mem_filter, decide_eq_true_eq] at hpt
  exact hpt.2 hp1

/-- When `UpdateProblem` succeeds: on an empty tag list, or on a stored problem with
pairwise distinct tag names.  What it leaves then. -/
theorem updateProblem_ok_spec (db : DB) (now : Timestamp) (p : Problem) (hdb : Consistent db)
    (hok : p.Tags = [] ∨
      ((∃ r ∈ db.problems, r.id = p.ID) ∧ (p.Tags.map (fun t => t.Name)).Nodup)) :
    ∃ db1, Repository.UpdateProblem db now p = (.ok (), db1) ∧
      insertTags now p.ID p.Tags
        (execDeleteProblemTags
          (execUpdateProblem db p.Name p.Link p.Platform p.Difficulty p.SolveTime p.Notes
            p.CodeSnippet now p.ID) p.ID) = .ok db1 ∧
      Consistent db1 ∧
      (∀ tag ∈ p.Tags, ∃ t ∈ db1.tags, t.name = tag.Name) ∧
      (∀ n, hasTag db1 p.ID n ↔ n ∈ p.Tags.map (fun t => t.Name)) := by
  have hc2 : Consistent (execDeleteProblemTags
      (execUpdateProblem db p.Name p.Link p.Platform p.Difficulty p.SolveTime p.Notes
        p.CodeSnippet now p.ID) p.ID) :=
    execDeleteProblemTags_consistent _ _ (execUpdateProblem_consistent db _ _ _ _ _ _ _ _ _ hdb)
  have hrun : ∃ db1, insertTags now p.ID p.Tags
      (execDeleteProblemTags
        (execUpdateProblem db p.Name p.Link p.Platform p.Difficulty p.SolveTime p.Notes
          p.CodeSnippet now p.ID) p.ID) = .ok db1 ∧
      (∀ n, hasTag db1 p.ID n ↔ n ∈ p.Tags.map (fun t => t.Name)) := by
    cases hts : p.Tags with
    | nil =>
      refine ⟨_, rfl, ?_⟩
      intro n
      simp only [List.map_nil, List.not_mem_nil, iff_false]
      exact not_hasTag_after_delete _ _ _
    | cons tag rest =>
      rcases hok with h | ⟨hex, hnd⟩
      · rw [hts] at h; cases h
      · rw [hts] at hnd
        obtain ⟨tx9, hr, _, _, hE⟩ := insertTags_spec now p.ID (tag :: rest) _ hc2.2.1
          hc2.2.2.2.2.2
          ((execUpdateProblem_ids db _ _ _ _ _ _ _ _ _ _).2 hex) hnd
          (fun t _ => not_hasTag_after_delete _ _ _)
        refine ⟨tx9, hr, ?_⟩
        intro n
        rw [hE]
        constructor
        · rintro (h | h)
          · exact absurd h (not_hasTag_after_delete _ _ _)
          · exact h
        · exact Or.inr
  obtain ⟨db1, hr, hE⟩ := hrun
  refine ⟨db1, ?_, hr, insertTags_consistent now p.ID p.Tags _ db1 hc2 hr, ?_, hE⟩
  · simp only [Repository.UpdateProblem, hr]
  · intro tag htag
    obtain ⟨t, ht, htn, _⟩ := (hE tag.Name).2 (List.mem_map_of_mem (fun t => t.Name) htag)
    exact ⟨t, ht, htn⟩

/-- In every other case `UpdateProblem` returns an error and rolls back. -/
theorem updateProblem_fails (db : DB) (now : Timestamp) (p : Problem) (hdb : Consistent db)
    (hnot : ¬ (p.Tags = [] ∨
      ((∃ r ∈ db.problems, r.id = p.ID) ∧ (p.Tags.map (fun t => t.Name)).Nodup))) :
    ∃ err, Repository.UpdateProblem db now p = (.error err, db) := by
  have hc2 : Consistent (execDeleteProblemTags
      (execUpdateProblem db p.Name p.Link p.Platform p.Difficulty p.SolveTime p.Notes
        p.CodeSnippet now p.ID) p.ID) :=
    execDeleteProblemTags_consistent _ _ (execUpdateProblem_consistent db _ _ _ _ _ _ _ _ _ hdb)
  cases hrun : insertTags now p.ID p.Tags
      (execDeleteProblemTags
        (execUpdateProblem db p.Name p.Link p.Platform p.Difficulty p.SolveTime p.Notes
          p.CodeSnippet now p.ID) p.ID) with
  | error err => exact ⟨err, by simp only [Repository.UpdateProblem, hrun]⟩
  | ok db1 =>
    exfalso
    obtain ⟨hnd, _, hex⟩ := insertTags_ok_only_if now p.ID p.Tags _ db1 hc2 hrun
    apply hnot
    by_cases hts : p.Tags = []
    · exact Or.inl hts
    · exact Or.inr ⟨(execUpdateProblem_ids db _ _ _ _ _ _ _ _ _ _).1 (hex hts), hnd⟩

/-- Repeating a successful `UpdateProblem` changes the `updated_at` of the updated
row and nothing else. -/
theorem updateProblem_twice_ok (db : DB) (now1 now2 : Timestamp) (p : Problem)
    (hdb : Consistent db)
    (hok : p.Tags = [] ∨
      ((∃ r ∈ db.problems, r.id = p.ID) ∧ (p.Tags.map (fun t => t.Name)).Nodup)) :
    ∃ db1, Repository.UpdateProblem db now1 p = (.ok (), db1) ∧
      Repository.UpdateProblem db1 now2 p =
        (.ok (), { db1 with
          problems := db1.problems.map (fun r =>
            if r.id = p.ID then { r with updated_at := now2 } else r) }) ∧
      (∀ n, hasTag db1 p.ID n ↔ n ∈ p.Tags.map (fun t => t.Name)) := by
  obtain ⟨db1, hup1, hrun1, hdb1, hex1, hE1⟩ := updateProblem_ok_spec db now1 p hdb hok
  obtain ⟨hprob1, _, _, hpts1⟩ := insertTags_inv now1 p.ID p.Tags _ db1 hrun1
  have hok1 : p.Tags = [] ∨
      ((∃ r ∈ db1.problems, r.id = p.ID) ∧ (p.Tags.map (fun t => t.Name)).Nodup) := by
    rcases hok with h | ⟨hex, hnd⟩
    · exact Or.inl h
    · refine Or.inr ⟨?_, hnd⟩
      rw [hprob1]
      exact (execUpdateProblem_ids db _ _ _ _ _ _ _ _ _ _).2 hex
  obtain ⟨db2, hup2, hrun2, _, _, _⟩ := updateProblem_ok_spec db1 now2 p hdb1 hok1
  have hrep := insertTags_replay now2 p.ID p.Tags
    (execDeleteProblemTags
      (execUpdateProblem db1 p.Name p.Link p.Platform p.Difficulty p.SolveTime p.Notes
        p.CodeSnippet now2 p.ID) p.ID) db2 hex1 hrun2
  refine ⟨db1, hup1, ?_, hE1⟩
  rw [hup2, hrep]
  have hP : (execUpdateProblem db1 p.Name p.Link p.Platform p.Difficulty p.SolveTime p.Notes
      p.CodeSnippet now2 p.ID).problems =
      db1.problems.map (fun r => if r.id = p.ID then { r with updated_at := now2 } else r) := by
    unfold execUpdateProblem
    simp only
    apply List.map_congr_left
    intro r hr
    rw [hprob1] at hr
    change r ∈ (execUpdateProblem db p.Name p.Link p.Platform p.Difficulty p.SolveTime p.Notes
      p.CodeSnippet now1 p.ID).problems at hr
    unfold execUpdateProblem at hr
    simp only [List.mem_map] at hr
    obtain ⟨r0, _, rfl⟩ := hr
    by_cases h0 : r0.id = p.ID
    · simp [h0]
    · simp [h0]
  have hQ : db1.problem_tags.filter (fun pt => decide (¬ pt.problem_id = p.ID)) ++
      p.Tags.map (fun tag => ({ problem_id := p.ID, tag_id := tagIdOf db1 tag.Name } :
        ProblemTagRow)) = db1.problem_tags := by
    conv_rhs => rw [hpts1]
    rw [hpts1, List.filter_append]
    have hA : ∀ l : List ProblemTagRow,
        (l.filter (fun pt => decide (¬ pt.problem_id = p.ID))).filter
          (fun pt => decide (¬ pt.problem_id = p.ID)) =
        l.filter (fun pt => decide (¬ pt.problem_id = p.ID)) := by
      intro l
      rw [List.filter_filter]
      simp
    have hM : (p.Tags.map (fun tag => ({ problem_id := p.ID, tag_id := tagIdOf db1 tag.Name } :
        ProblemTagRow))).filter (fun pt => decide (¬ pt.problem_id = p.ID)) = [] := by
      rw [List.filter_eq_nil_iff]
      intro pt hpt
      rw [List.mem_map] at hpt
      obtain ⟨_, _, rfl⟩ := hpt
      simp
    show (List.filter _ (execDeleteProblemTags _ p.ID).problem_tags ++ _) ++ _ = _
    unfold execDeleteProblemTags
    simp only
    rw [hA, hM, List.append_nil]
  show (Except.ok (), _) = (Except.ok (), _)
  congr 1
  show ({ problems := (execUpdateProblem db1 p.Name p.Link p.Platform p.Difficulty p.SolveTime
            p.Notes p.CodeSnippet now2 p.ID).problems,
          tags := db1.tags,
          problem_tags := db1.problem_tags.filter (fun pt => decide (¬ pt.problem_id = p.ID)) ++
            p.Tags.map (fun tag => ({ problem_id := p.ID, tag_id := tagIdOf db1 tag.Name } :
              ProblemTagRow)),
          seq_problems := db1.seq_problems, seq_tags := db1.seq_tags } : DB) = _
  rw [hP, hQ]

/-- C14 as stated fails: on the sample database the update of problem 1 with the
tag list "Graph", "Graph" returns the key error of the second association
insert and rolls back, so the problem still carries "Array" and "Hash Map",
not the given tag set. -/
theorem C14_failed_update_keeps_old_tags :
    Repository.UpdateProblem sampleDB "t3" (sampleProblem 1 ["Graph", "Graph"]) =
      (.error (Err.constraint
        "UNIQUE constraint failed: problem_tags.problem_id, problem_tags.tag_id"),
       sampleDB) ∧
    (Repository.GetProblem
        (Repository.UpdateProblem sampleDB "t3" (sampleProblem 1 ["Graph", "Graph"])).2 1).map
      (fun g => g.Tags.map (fun t => t.Name)) = .ok ["Array", "Hash Map"] := by
  decide

/-- C14, amended: on a database that satisfies the schema constraints,
`UpdateProblem` applied twice leaves what one application leaves, except for the
`updated_at` of the updated row.  When the tag list is empty, or the problem
is stored and its tag names are pairwise distinct, both calls succeed, the
second changes nothing but that timestamp, and the tags of the problem are
exactly the given names, replacing the earlier ones.  In every other case
both calls return an error and the database stays as it was. -/
theorem C14_update_problem_idempotent (db : DB) (now1 now2 : Timestamp) (p : Problem)
    (hdb : Consistent db) :
    ((p.Tags = [] ∨
        ((∃ r ∈ db.problems, r.id = p.ID) ∧ (p.Tags.map (fun t => t.Name)).Nodup)) →
      ∃ db1, Repository.UpdateProblem db now1 p = (.ok (), db1) ∧
        Repository.UpdateProblem db1 now2 p =
          (.ok (), { db1 with
            problems := db1.problems.map (fun r =>
              if r.id = p.ID then { r with updated_at := now2 } else r) }) ∧
        ∃ tags, getTagsForProblem db1 p.ID = .ok tags ∧
          ∀ n, n ∈ tags.map (fun t => t.Name) ↔ n ∈ p.Tags.map (fun t => t.Name)) ∧
    (¬ (p.Tags = [] ∨
        ((∃ r ∈ db.problems, r.id = p.ID) ∧ (p.Tags.map (fun t => t.Name)).Nodup)) →
      ∃ err1 err2, Repository.UpdateProblem db now1 p = (.error err1, db) ∧
        Repository.UpdateProblem db now2 p = (.error err2, db)) := by
  refine ⟨?_, ?_⟩
  · intro hok
    obtain ⟨db1, h1, h2, hE⟩ := updateProblem_twice_ok db now1 now2 p hdb hok
    refine ⟨db1, h1, h2, _, rfl, ?_⟩
    intro n
    rw [mem_getTagsForProblem_names]
    exact hE n
  · intro hnot
    obtain ⟨e1, h1⟩ := updateProblem_fails db now1 p hdb hnot
    obtain ⟨e2, h2⟩ := updateProblem_fails db now2 p hdb hnot
    exact ⟨e1, e2, h1, h2⟩

/-- C14 applied to the sample database: problem 1 is given the tags "Graph",
which is stored, and "Tree", which is not. -/
theorem C14_update_problem_idempotent_witness :
    ∃ db1, Repository.UpdateProblem sampleDB "t3" (sampleProblem 1 ["Graph", "Tree"])
        = (.ok (), db1) ∧
      Repository.UpdateProblem db1 "t4" (sampleProblem 1 ["Graph", "Tree"]) =
        (.ok (), { db1 with
          problems := db1.problems.map (fun r =>
            if r.id = 1 then { r with updated_at := "t4" } else r) }) ∧
      ∃ tags, getTagsForProblem db1 1 = .ok tags ∧
        ∀ n, n ∈ tags.map (fun t => t.Name) ↔ n ∈ ["Graph", "Tree"] :=
  (C14_update_problem_idempotent sampleDB "t3" "t4" (sampleProblem 1 ["Graph", "Tree"])
    (by decide)).1 (Or.inr (by decide))

end UpdateTwice

end AlgorithmTracker
